import Mathlib

/-!
# VAST high-level dialect: member lowering, scope splicing, region builders

A shallow embedding of three parts of the VAST sources:

* `HLToLLGEPs.cpp`: lowering of `hl.member` (a named field access) to
  `ll.gep` (a positional access), with its helpers `fetch_record_type`,
  `get_def`, `get_idx` and `convert`;
* `SpliceTrailingScopes.cpp`: the `splice` loop that dissolves a trailing
  `hl.scope` into its parent region;
* `HighLevelOps.cpp`: `detail::build_region` and the operation builders that
  run builder callbacks under an insertion guard.

Calls into the MLIR library (the rewriter and the builder) are embedded by
their documented effect on the IR; the conversion rewriter of the splicing
moves blocks at once and records the erasure of an operation, to carry it out
when the conversion is applied. Pointers into the IR become positions in
lists.
-/

namespace Vast

/-! ## Member lowering (`HLToLLGEPs.cpp`) -/

/-- Source locations are carried around untouched. -/
abbrev Location := Nat

/-- The nominal type `hl::NamedType`; `name` stands for `getName().getName()`. -/
structure NamedType where
  name : String
deriving DecidableEq, Repr

/-- The types the lowering tells apart: `hl::NamedType`, the two wrappers
`hl::LValueType` and `hl::PointerType` with their element type, and any other
type. -/
inductive MType where
  | named (t : NamedType)
  | lvalue (elementType : MType)
  | pointer (elementType : MType)
  | other (descr : String)
deriving DecidableEq, Repr

/-- An operation in the fields block of a struct declaration: either an
`hl::FieldDeclOp` (a plain field) or some other operation, for which
`dyn_cast< hl::FieldDeclOp >` gives null. -/
inductive FieldsEntry where
  | field (name : String) (type : MType)
  | nonField (opName : String)
deriving DecidableEq, Repr

/-- Name of a plain field, nothing for any other entry. -/
def FieldsEntry.fieldName? : FieldsEntry → Option String
  | .field n _ => some n
  | .nonField _ => none

/-- Whether `dyn_cast< hl::FieldDeclOp >` succeeds on the entry. -/
def FieldsEntry.isField : FieldsEntry → Bool
  | .field _ _ => true
  | .nonField _ => false

/-- An `hl::StructDeclOp`. `fields` is `solo_block(decl.fields())`: the
operations of the single block of the fields region, in declaration order. -/
structure StructDeclOp where
  name : String
  fields : List FieldsEntry
deriving DecidableEq, Repr

/-- A symbol of the translation unit as `get_def` sees it: a struct
declaration, or any other symbol (union, typedef, function, ...), for which
`dyn_cast< hl::StructDeclOp >` gives null. -/
inductive SymbolOp where
  | structDecl (decl : StructDeclOp)
  | otherSymbol (opName : String) (name : String)
deriving DecidableEq, Repr

/-- The `mlir::ModuleOp` enclosing the member access, as the list of its
top-level symbols. -/
structure ModuleOp where
  body : List SymbolOp
deriving DecidableEq, Repr

/-- What stops the program instead of returning: a failed `VAST_ASSERT` or
`assert`, or the use of a null pointer. `outOfFuel` is the answer of a loop
of the embedding that was given too few rounds to finish. -/
inductive Fault where
  | assertion (msg : String)
  | nullDereference
  | outOfFuel
deriving DecidableEq, Repr

/-- The value `mlir::LogicalResult`. -/
inductive LogicalResult where
  | success
  | failure
deriving DecidableEq, Repr

/-- An SSA value: its identity and its type. -/
structure Value where
  id : Nat
  type : MType
deriving DecidableEq, Repr

/-- The parts of an `hl::RecordMemberOp` that `convert` reads from `op`:
`getLoc()`, `getType()` (the result type) and `name()`. -/
structure RecordMemberOp where
  loc : Location
  type : MType
  name : String
deriving DecidableEq, Repr

/-- The operands handed to the pattern; `record` is `operands.record()`. -/
structure RecordMemberOpAdaptor where
  record : Value
deriving DecidableEq, Repr

/-- An `ll::StructGEPOp` as built by `convert`: location, result type, record
operand, index attribute and name attribute. The index attribute comes from
`getI32IntegerAttr`; a field position is far below `2^31`, so the index is
kept as a natural number. -/
structure StructGEPOp where
  loc : Location
  type : MType
  record : Value
  idx : Nat
  name : String
deriving DecidableEq, Repr

/-- The calls `convert` makes on the rewriter. `replaceOp op [gep]` stands for
MLIR's replacement: every use of the result of `op` becomes a use of the
result of `gep`, and `op` is erased. -/
inductive RewriterAction where
  | create (gep : StructGEPOp)
  | replaceOp (op : RecordMemberOp) (newValues : List StructGEPOp)
deriving DecidableEq, Repr

/-- The rewriter, as the sequence of the calls made on it so far. -/
structure Rewriter where
  actions : List RewriterAction
deriving DecidableEq, Repr

/-- The pattern state `util::State< hl::RecordMemberOp >`: the operation, its
operands and the rewriter; `tu` is `op->getParentOfType< mlir::ModuleOp >()`,
absent when the operation is not inside a module. -/
structure State where
  op : RecordMemberOp
  operands : RecordMemberOpAdaptor
  rewriter : Rewriter
  tu : Option ModuleOp
deriving DecidableEq, Repr

/-- The lambda `yield` of `get_def`, with the captured `out` passed in and
returned: a struct declaration of the wanted name is stored in `out`, after
asserting that `out` is still empty. -/
def get_def.yield (named_type : NamedType) (out : Option StructDeclOp)
    (candidate : SymbolOp) : Except Fault (Option StructDeclOp) :=
  match candidate with
  | .structDecl struct_decl =>
    if struct_decl.name = named_type.name then
      match out with
      | some _ => .error (.assertion "!out")
      | none => .ok (some struct_decl)
    else .ok out
  | .otherSymbol _ _ => .ok out

/-- Modelled from the spec: `util::symbols` is not among the sources at hand;
the spec has the lookup search "the enclosing module's top-level symbol
table", so `symbols` hands every top-level symbol of the module to the
callback, in order, stopping at a fault. -/
def symbols (yield : Option StructDeclOp → SymbolOp → Except Fault (Option StructDeclOp)) :
    List SymbolOp → Option StructDeclOp → Except Fault (Option StructDeclOp)
  | [], out => .ok out
  | candidate :: rest, out =>
    match yield out candidate with
    | .error f => .error f
    | .ok out' => symbols yield rest out'

/-- `DoConversion< hl::RecordMemberOp >::get_def`. -/
def get_def (tu : Option ModuleOp) (named_type : NamedType) :
    Except Fault (Option StructDeclOp) :=
  match tu with
  | none => .ok none
  | some m => symbols (get_def.yield named_type) m.body none

/-- The loop of `get_idx` over the fields block, `idx` being the counter. -/
def get_idx.loop (name : String) : List FieldsEntry → Nat → Option Nat
  | [], _ => none
  | maybe_field :: rest, idx =>
    match maybe_field with
    | .nonField _ => none
    | .field fname _ => if fname = name then some idx else get_idx.loop name rest (idx + 1)

/-- `DoConversion< hl::RecordMemberOp >::get_idx`. -/
def get_idx (name : String) (decl : StructDeclOp) : Option Nat :=
  get_idx.loop name decl.fields 0

/-- The lambda `unwrap` of `fetch_record_type`:
`t.getElementType().dyn_cast< hl::NamedType >()`. -/
def fetch_record_type.unwrap (elementType : MType) : Option NamedType :=
  match elementType with
  | .named t => some t
  | _ => none

/-- `DoConversion< hl::RecordMemberOp >::fetch_record_type`; a null
`hl::NamedType` is `none`. -/
def fetch_record_type (type : MType) : Option NamedType :=
  match type with
  | .lvalue x => fetch_record_type.unwrap x
  | .pointer x => fetch_record_type.unwrap x
  | _ => none

/-- `DoConversion< hl::RecordMemberOp >::convert`: the result and the
rewriter afterwards, or the fault that stopped it. -/
def convert (st : State) : Except Fault (LogicalResult × Rewriter) :=
  let parent_type := st.operands.record.type
  match fetch_record_type parent_type with
  | none => .ok (.failure, st.rewriter)
  | some as_named_type =>
    match get_def st.tu as_named_type with
    | .error f => .error f
    | .ok none => .ok (.failure, st.rewriter)
    | .ok (some maybe_def) =>
      match get_idx st.op.name maybe_def with
      | none => .ok (.failure, st.rewriter)
      | some raw_idx =>
        let gep : StructGEPOp :=
          { loc := st.op.loc, type := st.op.type, record := st.operands.record,
            idx := raw_idx, name := st.op.name }
        .ok (.success,
          { actions := st.rewriter.actions ++ [.create gep, .replaceOp st.op [gep]] })

/-- Every entry of `pre` is a plain field whose name differs from `F`. -/
def PlainOthers (F : String) (pre : List FieldsEntry) : Prop :=
  ∀ e ∈ pre, ∃ n t, e = FieldsEntry.field n t ∧ n ≠ F

/-- Whether a type is one of the two wrappers, `hl::LValueType` or
`hl::PointerType`. -/
def MType.isWrapper : MType → Bool
  | .lvalue _ => true
  | .pointer _ => true
  | _ => false

/-- The base of a type: what is left once all pointer and lvalue wrappers
around it are stripped. -/
def MType.base : MType → MType
  | .lvalue t => t.base
  | .pointer t => t.base
  | t => t

/-- The struct declarations of the given name among a list of symbols, in
order. -/
def structDeclsNamed (name : String) : List SymbolOp → List StructDeclOp
  | [] => []
  | .structDecl d :: rest =>
    if d.name = name then d :: structDeclsNamed name rest else structDeclsNamed name rest
  | .otherSymbol _ _ :: rest => structDeclsNamed name rest

/-! ## Scope splicing (`SpliceTrailingScopes.cpp`) -/

/-- An operation of the IR: an `hl::ScopeOp` with the blocks of its single
region `body`, or any other operation with its name and its regions. A
region is a list of blocks, a block a list of operations. Block arguments are
not represented: the blocks met by the splicing carry none. -/
inductive Operation where
  | scope (body : List (List Operation))
  | op (name : String) (regions : List (List (List Operation)))

/-- A block: its operations in order. -/
abbrev Block := List Operation

/-- A region: its blocks in order. -/
abbrev Region := List Block

/-- The regions of an operation, `op->getRegions()`. -/
def Operation.getRegions : Operation → List Region
  | .scope body => [body]
  | .op _ regions => regions

/-- The same operation with its regions rewritten in place. -/
def Operation.setRegions : Operation → List Region → Operation
  | .scope body, rs => .scope (rs.headD body)
  | .op name _, rs => .op name rs

/-- `mlir::isa< hl::ScopeOp >`. -/
def Operation.isScope : Operation → Bool
  | .scope _ => true
  | .op _ _ => false

mutual
/-- Number of blocks nested in an operation, at any depth. -/
def Operation.countBlocks : Operation → Nat
  | .scope body => countBlocksRegion body
  | .op _ regions => countBlocksRegions regions
/-- Number of blocks nested in a list of regions, at any depth. -/
def countBlocksRegions : List (List (List Operation)) → Nat
  | [] => 0
  | r :: rs => countBlocksRegion r + countBlocksRegions rs
/-- Number of blocks of a region, those nested in its operations included. -/
def countBlocksRegion : List (List Operation) → Nat
  | [] => 0
  | b :: bs => 1 + countBlocksBlock b + countBlocksRegion bs
/-- Number of blocks nested in the operations of a block. -/
def countBlocksBlock : List Operation → Nat
  | [] => 0
  | o :: os => o.countBlocks + countBlocksBlock os
end

mutual
/-- Pre-order walk of an operation: the operation, then what its regions
hold. -/
def Operation.walk : Operation → List Operation
  | .scope body => .scope body :: walkRegion body
  | .op name regions => .op name regions :: walkRegions regions
/-- Pre-order walk of a list of regions. -/
def walkRegions : List (List (List Operation)) → List Operation
  | [] => []
  | r :: rs => walkRegion r ++ walkRegions rs
/-- Pre-order walk of a region, block after block. -/
def walkRegion : List (List Operation) → List Operation
  | [] => []
  | b :: bs => walkBlock b ++ walkRegion bs
/-- Pre-order walk of a block, operation after operation. -/
def walkBlock : List Operation → List Operation
  | [] => []
  | o :: os => o.walk ++ walkBlock os
end

/-- Modelled from the spec: `has_trailing_scope` on a block list is declared in
`vast/Util/Scopes.hpp`, which is not among the sources at hand; by the spec a
region has a trailing scope when its last block ends in a scope operation. -/
def has_trailing_scope (blocks : Region) : Bool :=
  match blocks.getLast? with
  | none => false
  | some last_block =>
    match last_block.getLast? with
    | some (.scope _) => true
    | _ => false

/-- Modelled from the spec: `has_trailing_scope` on an operation, from the same
missing header; by the spec it looks at the last nested region of the
operation. -/
def Operation.has_trailing_scope (op : Operation) : Bool :=
  match op.getRegions.getLast? with
  | none => false
  | some r => Vast.has_trailing_scope r

/-- The lambda `is_legal` of `create_conversion_target`. -/
def is_legal (op : Operation) : Bool := !op.has_trailing_scope

/-- The operation at position `i` of block `b` of a region. -/
def opAt? (reg : Region) (b i : Nat) : Option Operation :=
  match reg[b]? with
  | none => none
  | some blk => blk[i]?

/-- `rewriter.inlineRegionBefore(scope.getBody(), *parent, parent->end())` for
the scope at position `i` of block `b` of `parent`: the blocks of the body
move to the end of `parent`, in order, and the scope keeps an empty body. The
conversion rewriter moves the blocks at once. -/
def inlineRegionBefore (parent : Region) (b i : Nat) : Region :=
  match opAt? parent b i with
  | some (.scope body) => parent.set b ((parent.getD b []).set i (.scope [])) ++ body
  | _ => parent

/-- `prev.getNextNode()` for the block at index `prev`: the index of the block
after it, null when `prev` is the last block. -/
def getNextNode (reg : Region) (prev : Nat) : Option Nat :=
  if prev + 1 < reg.length then some (prev + 1) else none

/-- `rewriter.mergeBlockBefore(source, op)` for the operation at position `i`
of block `b`: the operations of block `source` are put right before it, and
block `source` is unlinked from the region. The conversion rewriter does both
at once. -/
def mergeBlockBefore (reg : Region) (source b i : Nat) : Region :=
  let src := reg.getD source []
  let blk := reg.getD b []
  (reg.set b (blk.take i ++ src ++ blk.drop i)).eraseIdx source

/-- `rewriter.eraseOp` for the operation at position `i` of block `b`. The
rewriter is a `conversion_rewriter` (`mlir::ConversionPatternRewriter`): it
only records the erasure, and the operation stays in its block until the
conversion is applied. `erased` is the record of the rewriter: the positions,
block and place in the block, of the operations whose erasure is pending. -/
def eraseOp (erased : List (Nat × Nat)) (b i : Nat) : List (Nat × Nat) :=
  erased ++ [(b, i)]

/-- The region once the conversion is applied: the operations whose erasure
the rewriter has recorded leave their blocks, the one recorded last first. -/
def applyErasures (reg : Region) (erased : List (Nat × Nat)) : Region :=
  erased.foldr (fun p r => r.set p.1 ((r.getD p.1 []).eraseIdx p.2)) reg

/-- One pass through the body of the `while` loop of `splice`, on the blocks of
the region and the record of erasures of the rewriter. The block `last_block`
and the block `prev` are named by their index in the region, the operation
`scope` by its position in `last_block`; `parent`, the region that holds the
scope, is the spliced region itself. After the merge the scope has moved
right by the number of merged operations; it is still the last operation of
`last_block` when the round ends, its erasure being recorded only. -/
def splice.body (blocks : Region) (erased : List (Nat × Nat)) :
    Except Fault (Region × List (Nat × Nat)) :=
  let last_block := blocks.length - 1
  let scope := (blocks.getD last_block []).length - 1
  match opAt? blocks last_block scope with
  | some (.scope _) =>
    let prev := blocks.length - 1
    let parent := inlineRegionBefore blocks last_block scope
    match getNextNode parent prev with
    | none => .error .nullDereference
    | some next =>
      let merged := (parent.getD next []).length
      let parent := mergeBlockBefore parent next last_block scope
      .ok (parent, eraseOp erased last_block (scope + merged))
  | _ => .error (.assertion "cast< hl::ScopeOp >")

/-- The `while` loop of `splice`, given `fuel` rounds. -/
def splice.loop : Nat → Region → List (Nat × Nat) → Except Fault (Region × List (Nat × Nat))
  | 0, blocks, erased =>
    if has_trailing_scope blocks then .error .outOfFuel else .ok (blocks, erased)
  | fuel + 1, blocks, erased =>
    if has_trailing_scope blocks then
      match splice.body blocks erased with
      | .error f => .error f
      | .ok (blocks', erased') => splice.loop fuel blocks' erased'
    else .ok (blocks, erased)

/-- `splice_trailing_scopes::splice`: the region afterwards together with the
erasures the call has recorded on the rewriter, or the fault that stopped it.
Every round that returns unlinks one block, so the number of blocks nested in
the region is fuel enough (`splice_loop_fuel`). -/
def splice (reg : Region) : Except Fault (Region × List (Nat × Nat)) :=
  splice.loop (countBlocksRegion reg) reg []

/-- The `for` loop of `matchAndRewrite` over the regions of the operation:
each region afterwards, with the erasures recorded in it. -/
def matchAndRewrite.loop : List Region → Except Fault (List (Region × List (Nat × Nat)))
  | [] => .ok []
  | r :: rs =>
    match splice r with
    | .error f => .error f
    | .ok r' =>
      match matchAndRewrite.loop rs with
      | .error f => .error f
      | .ok rs' => .ok (r' :: rs')

/-- `splice_trailing_scopes::matchAndRewrite`: the result, the operation
afterwards and, region by region, the erasures recorded on the rewriter; or
the fault that stopped it. -/
def matchAndRewrite (op : Operation) :
    Except Fault (LogicalResult × Operation × List (List (Nat × Nat))) :=
  match matchAndRewrite.loop op.getRegions with
  | .error f => .error f
  | .ok rs => .ok (.success, op.setRegions (rs.map Prod.fst), rs.map Prod.snd)

/-! ## Region builders (`HighLevelOps.cpp`) -/

/-- An attribute value as the builders make them: `getStringAttr`,
`mlir::IntegerAttr::get` and `mlir::TypeAttr::get`. -/
inductive Attribute where
  | string (value : String)
  | integer (value : Int)
  | type (value : MType)
deriving DecidableEq, Repr

/-- An insertion point of the builder: a block, named by its region and its
index there, and a position in the block. -/
structure InsertPoint where
  region : Nat
  block : Nat
  point : Nat
deriving DecidableEq, Repr

/-- The builder `Builder` (`mlir::OpBuilder`): its insertion point (`none`
when cleared) and the regions it can reach and fill. A region pointer is an
index into `store`. -/
structure Builder where
  store : List Region
  ip : Option InsertPoint

/-- The operation state `State` (`mlir::OperationState`) of `HighLevelOps.cpp`:
location, attributes, operands, result types and the owned regions, as
pointers into the store. -/
structure OperationState where
  location : Location
  attributes : List (String × Attribute)
  operands : List Value
  types : List MType
  regions : List Nat
deriving DecidableEq, Repr

/-- A `BuilderCallback`: an optional function that is handed the builder and a
location and may do anything with the builder. -/
abbrev BuilderCallback := Option (Builder → Location → Builder)

/-- `st.addAttribute(name, attr)`. -/
def OperationState.addAttribute (st : OperationState) (name : String) (attr : Attribute) :
    OperationState :=
  { st with attributes := st.attributes ++ [(name, attr)] }

/-- `st.addTypes(type)`. -/
def OperationState.addTypes (st : OperationState) (type : MType) : OperationState :=
  { st with types := st.types ++ [type] }

/-- `st.addOperands(value)`. -/
def OperationState.addOperands (st : OperationState) (value : Value) : OperationState :=
  { st with operands := st.operands ++ [value] }

/-- `st.addRegion()`: a new region without blocks, owned by the state; the
result carries the pointer to it. -/
def OperationState.addRegion (st : OperationState) (bld : Builder) :
    Builder × OperationState × Nat :=
  let reg := bld.store.length
  ({ bld with store := bld.store ++ [[]] }, { st with regions := st.regions ++ [reg] }, reg)

/-- `bld.createBlock(reg)`: a new empty block at the end of the region, and the
insertion point set to the end of that block. -/
def Builder.createBlock (bld : Builder) (reg : Nat) : Builder :=
  let blocks := bld.store.getD reg []
  { store := bld.store.set reg (blocks ++ [[]]), ip := some ⟨reg, blocks.length, 0⟩ }

/-- `detail::build_region`. -/
def build_region (bld : Builder) (st : OperationState) (callback : BuilderCallback) :
    Builder × OperationState × Nat :=
  let (bld, st', reg) := st.addRegion bld
  match callback with
  | some f =>
    let bld := bld.createBlock reg
    (f bld st.location, st', reg)
  | none => (bld, st', reg)

/-- A `Builder::InsertionGuard`: the insertion point saved at construction. -/
structure InsertionGuard where
  saved : Option InsertPoint

/-- Constructor of the guard: `builder.saveInsertionPoint()`. -/
def InsertionGuard.guard (bld : Builder) : InsertionGuard := ⟨bld.ip⟩

/-- Destructor of the guard: `builder.restoreInsertionPoint(ip)`. -/
def InsertionGuard.release (g : InsertionGuard) (bld : Builder) : Builder :=
  { bld with ip := g.saved }

/-- The C `assert(callback && "...")`. -/
def assertPresent (callback : BuilderCallback) (msg : String) : Except Fault Unit :=
  if callback.isSome then .ok () else .error (.assertion msg)

/-- The function `build_expr_trait`. -/
def build_expr_trait (bld : Builder) (st : OperationState) (rty : MType)
    (expr : BuilderCallback) : Except Fault (Builder × OperationState) := do
  assertPresent expr "the builder callback for 'expr' block must be present"
  let guard := InsertionGuard.guard bld
  let (bld, st, _) := build_region bld st expr
  let st := st.addTypes rty
  return (guard.release bld, st)

/-- `SizeOfExprOp::build`. -/
def SizeOfExprOp.build (bld : Builder) (st : OperationState) (rty : MType)
    (expr : BuilderCallback) : Except Fault (Builder × OperationState) :=
  build_expr_trait bld st rty expr

/-- `AlignOfExprOp::build`. -/
def AlignOfExprOp.build (bld : Builder) (st : OperationState) (rty : MType)
    (expr : BuilderCallback) : Except Fault (Builder × OperationState) :=
  build_expr_trait bld st rty expr

/-- `VarDeclOp::build`. -/
def VarDeclOp.build (bld : Builder) (st : OperationState) (type : MType) (name : String)
    (init alloc : BuilderCallback) : Except Fault (Builder × OperationState) := do
  let st := st.addAttribute "name" (.string name)
  let guard := InsertionGuard.guard bld
  let (bld, st, _) := build_region bld st init
  let (bld, st, _) := build_region bld st alloc
  let st := st.addTypes type
  return (guard.release bld, st)

/-- `EnumDeclOp::build`. -/
def EnumDeclOp.build (bld : Builder) (st : OperationState) (name : String) (type : MType)
    (constants : BuilderCallback) : Except Fault (Builder × OperationState) := do
  let st := st.addAttribute "name" (.string name)
  let st := st.addAttribute "type" (.type type)
  let guard := InsertionGuard.guard bld
  let (bld, st, _) := build_region bld st constants
  return (guard.release bld, st)

/-- `EnumConstantOp::build`. -/
def EnumConstantOp.build (bld : Builder) (st : OperationState) (name : String) (value : Int)
    (init : BuilderCallback) : Except Fault (Builder × OperationState) := do
  let st := st.addAttribute "name" (.string name)
  let st := st.addAttribute "value" (.integer value)
  let guard := InsertionGuard.guard bld
  let (bld, st, _) := build_region bld st init
  return (guard.release bld, st)

/-- `detail::build_record_like_decl`. -/
def build_record_like_decl (bld : Builder) (st : OperationState) (name : String)
    (fields : BuilderCallback) : Except Fault (Builder × OperationState) := do
  let st := st.addAttribute "name" (.string name)
  let guard := InsertionGuard.guard bld
  let (bld, st, _) := build_region bld st fields
  return (guard.release bld, st)

/-- `StructDeclOp::build`. -/
def StructDeclOp.build (bld : Builder) (st : OperationState) (name : String)
    (fields : BuilderCallback) : Except Fault (Builder × OperationState) :=
  build_record_like_decl bld st name fields

/-- `UnionDeclOp::build`. -/
def UnionDeclOp.build (bld : Builder) (st : OperationState) (name : String)
    (fields : BuilderCallback) : Except Fault (Builder × OperationState) :=
  build_record_like_decl bld st name fields

/-- `IfOp::build`. -/
def IfOp.build (bld : Builder) (st : OperationState)
    (condBuilder thenBuilder elseBuilder : BuilderCallback) :
    Except Fault (Builder × OperationState) := do
  assertPresent condBuilder "the builder callback for 'condition' block must be present"
  assertPresent thenBuilder "the builder callback for 'then' block must be present"
  let guard := InsertionGuard.guard bld
  let (bld, st, _) := build_region bld st condBuilder
  let (bld, st, _) := build_region bld st thenBuilder
  let (bld, st, _) := build_region bld st elseBuilder
  return (guard.release bld, st)

/-- `WhileOp::build`. -/
def WhileOp.build (bld : Builder) (st : OperationState) (cond body : BuilderCallback) :
    Except Fault (Builder × OperationState) := do
  assertPresent cond "the builder callback for 'condition' block must be present"
  assertPresent body "the builder callback for 'body' must be present"
  let guard := InsertionGuard.guard bld
  let (bld, st, _) := build_region bld st cond
  let (bld, st, _) := build_region bld st body
  return (guard.release bld, st)

/-- `ForOp::build`. -/
def ForOp.build (bld : Builder) (st : OperationState) (cond incr body : BuilderCallback) :
    Except Fault (Builder × OperationState) := do
  assertPresent body "the builder callback for 'body' must be present"
  let guard := InsertionGuard.guard bld
  let (bld, st, _) := build_region bld st cond
  let (bld, st, _) := build_region bld st incr
  let (bld, st, _) := build_region bld st body
  return (guard.release bld, st)

/-- `DoOp::build`. -/
def DoOp.build (bld : Builder) (st : OperationState) (body cond : BuilderCallback) :
    Except Fault (Builder × OperationState) := do
  assertPresent body "the builder callback for 'body' must be present"
  let guard := InsertionGuard.guard bld
  let (bld, st, _) := build_region bld st body
  let (bld, st, _) := build_region bld st cond
  return (guard.release bld, st)

/-- `SwitchOp::build`. -/
def SwitchOp.build (bld : Builder) (st : OperationState) (cond body : BuilderCallback) :
    Except Fault (Builder × OperationState) := do
  assertPresent cond "the builder callback for 'condition' block must be present"
  let guard := InsertionGuard.guard bld
  let (bld, st, _) := build_region bld st cond
  let (bld, st, _) := build_region bld st body
  return (guard.release bld, st)

/-- `CaseOp::build`. -/
def CaseOp.build (bld : Builder) (st : OperationState) (lhs body : BuilderCallback) :
    Except Fault (Builder × OperationState) := do
  assertPresent lhs "the builder callback for 'case condition' block must be present"
  let guard := InsertionGuard.guard bld
  let (bld, st, _) := build_region bld st lhs
  let (bld, st, _) := build_region bld st body
  return (guard.release bld, st)

/-- `DefaultOp::build`. -/
def DefaultOp.build (bld : Builder) (st : OperationState) (body : BuilderCallback) :
    Except Fault (Builder × OperationState) := do
  assertPresent body "the builder callback for 'body' block must be present"
  let guard := InsertionGuard.guard bld
  let (bld, st, _) := build_region bld st body
  return (guard.release bld, st)

/-- `LabelStmt::build`. -/
def LabelStmt.build (bld : Builder) (st : OperationState) (label : Value)
    (substmt : BuilderCallback) : Except Fault (Builder × OperationState) := do
  let st := st.addOperands label
  assertPresent substmt "the builder callback for 'substmt' block must be present"
  let guard := InsertionGuard.guard bld
  let (bld, st, _) := build_region bld st substmt
  return (guard.release bld, st)

/-- The insertion point a builder leaves behind, nothing when it did not
return. -/
def ipAfter (r : Except Fault (Builder × OperationState)) : Option (Option InsertPoint) :=
  match r with
  | .ok (bld, _) => some bld.ip
  | .error _ => none

/-! ## Constant operations (`HighLevelOps.cpp`): folding, printing, parsing -/

/-- An `llvm::APFloat` as it stands in the text: `literal` is the decimal float
literal that the MLIR printer writes for the value and that the MLIR parser
reads. The bits behind it are a matter of the float type it is read at; no
arithmetic is done on it. Values that the printer writes in hexadecimal
(infinities, NaN) are not represented. -/
structure APFloat where
  literal : String
deriving DecidableEq, Repr

/-- An `llvm::APInt`: its width in bits, and its bits read as a number below
`2 ^ BitWidth`. -/
structure APInt where
  BitWidth : Nat
  bits : Nat
deriving DecidableEq, Repr

/-- An `llvm::APSInt`: an `llvm::APInt` together with the flag `IsUnsigned`. The
constructor `llvm::APSInt(I, isUnsigned)` takes them in this order. -/
structure APSInt where
  I : APInt
  IsUnsigned : Bool
deriving DecidableEq, Repr

/-- The number an `llvm::APSInt` stands for, which is what is printed for it:
its bits as they are when it is unsigned, in two's complement when it is
signed. -/
def APSInt.toInt (value : APSInt) : Int :=
  if value.IsUnsigned || value.I.bits < 2 ^ (value.I.BitWidth - 1) then (value.I.bits : Int)
  else (value.I.bits : Int) - (2 ^ value.I.BitWidth : Nat)

/-- The type carried by an attribute, as far as the parsers name one:
`mlir::NoneType`, the builder's `getF64Type()`, or another type. -/
inductive AttrType where
  | none
  | f64
  | other (name : String)
deriving DecidableEq, Repr

/-- The literal attributes of constant operations: `mlir::BoolAttr`, an
`mlir::IntegerAttr` made of an `llvm::APSInt` (`mlir::IntegerAttr::get(ctx,
value)`: its type is the integer type of the width of the value, signed or
unsigned as the value is), `mlir::FloatAttr` and `mlir::StringAttr` with their
type, `mlir::ArrayAttr`. -/
inductive Attr where
  | bool (value : Bool)
  | integer (value : APSInt)
  | float (value : APFloat) (type : AttrType)
  | string (value : String) (type : AttrType)
  | array (elements : List Attr)

/-- Signedness of a builtin `mlir::IntegerType`. -/
inductive Signedness where
  | signless
  | signed
  | unsigned
deriving DecidableEq, Repr

/-- A result type as `parseConstantIntOp` tells types apart: a builtin
`mlir::IntegerType`, a type of the high-level dialect (`isHighLevelType`)
together with what `isSigned` answers for it, or any other type. -/
inductive RType where
  | builtinInteger (width : Nat) (signedness : Signedness)
  | highLevel (name : String) (isSigned : Bool)
  | other (name : String)
deriving DecidableEq, Repr

/-- A constant operation (`ConstantIntOp`, `ConstantFloatOp`, `ConstantArrayOp`,
`ConstantStringOp`): its literal `value` attribute (`getValue()`), its result
type (`getType()`) and its remaining attributes. -/
structure ConstantOp where
  value : Attr
  type : RType
  attrs : List (String × Attr)

/-- The class `ConstantIntOp`. -/
abbrev ConstantIntOp := ConstantOp

/-- The class `ConstantFloatOp`. -/
abbrev ConstantFloatOp := ConstantOp

/-- The class `ConstantArrayOp`. -/
abbrev ConstantArrayOp := ConstantOp

/-- The class `ConstantStringOp`. -/
abbrev ConstantStringOp := ConstantOp

/-- All attributes of the operation, `op->getAttrs()`. -/
def ConstantOp.getAttrs (op : ConstantOp) : List (String × Attr) :=
  ("value", op.value) :: op.attrs

/-- The attribute dictionary of an operation has one entry per name: none of
the remaining attributes is named `value`. -/
def ConstantOp.WellFormed (op : ConstantOp) : Prop :=
  ∀ p ∈ op.attrs, p.1 ≠ "value"

/-- Modelled from the spec: `VAST_CHECK` and `VAST_ASSERT` are macros of a
header that is not among the sources at hand; by the spec a fold "asserts that
the operation indeed has no operands", and a violation is a logic error, not
a recoverable failure. -/
def VAST_CHECK (cond : Bool) (msg : String) : Except Fault Unit :=
  if cond then .ok () else .error (.assertion msg)

/-- `ConstantIntOp::fold`. -/
def ConstantIntOp.fold (op : ConstantIntOp) (operands : List Attr) : Except Fault Attr := do
  VAST_CHECK operands.isEmpty "constant has no operands"
  return op.value

/-- `ConstantFloatOp::fold`. -/
def ConstantFloatOp.fold (op : ConstantFloatOp) (operands : List Attr) : Except Fault Attr := do
  VAST_CHECK operands.isEmpty "constant has no operands"
  return op.value

/-- `ConstantArrayOp::fold`. -/
def ConstantArrayOp.fold (op : ConstantArrayOp) (operands : List Attr) : Except Fault Attr := do
  VAST_CHECK operands.isEmpty "constant has no operands"
  return op.value

/-- `ConstantStringOp::fold`; here the check is a `VAST_ASSERT`, with the
message inside the asserted condition. -/
def ConstantStringOp.fold (op : ConstantStringOp) (operands : List Attr) :
    Except Fault Attr := do
  VAST_CHECK operands.isEmpty "constant has no operands"
  return op.value

/-- The text of the custom syntax, as the tokens the MLIR printer writes and
the MLIR parser reads: a bare keyword, an integer literal with its sign, a
float literal, a string literal, the colon, the spelling of a type and the
spelling of an attribute dictionary or of an array attribute. -/
inductive Token where
  | keyword (s : String)
  | integer (value : Int)
  | float (value : APFloat)
  | string (value : String)
  | colon
  | type (t : RType)
  | attrDict (entries : List (String × Attr))
  | array (elements : List Attr)

/-- `printer.printAttributeWithoutType(attr)`: an integer attribute of a signed
type is printed as a signed number, one of an unsigned type as an unsigned
number. -/
def printAttributeWithoutType : Attr → List Token
  | .bool true => [.keyword "true"]
  | .bool false => [.keyword "false"]
  | .integer v => [.integer v.toInt]
  | .float v _ => [.float v]
  | .string s _ => [.string s]
  | .array es => [.array es]

/-- `printer.printOptionalAttrDict(attrs, elidedAttrs)`: nothing when no
attribute is left to show. -/
def printOptionalAttrDict (attrs : List (String × Attr)) (elidedAttrs : List String) :
    List Token :=
  match attrs.filter (fun p => !elidedAttrs.contains p.1) with
  | [] => []
  | shown => [.attrDict shown]

/-- The function `printConstantOp`; white space is no token. -/
def printConstantOp (op : ConstantOp) : List Token :=
  printAttributeWithoutType op.value ++ [.colon] ++ [.type op.type]
    ++ printOptionalAttrDict op.getAttrs ["value"]

/-- The function `printConstantIntOp`. -/
def printConstantIntOp (op : ConstantIntOp) : List Token := printConstantOp op

/-- The function `printConstantFloatOp`. -/
def printConstantFloatOp (op : ConstantFloatOp) : List Token := printConstantOp op

/-- The function `printConstantArrayOp`. -/
def printConstantArrayOp (op : ConstantArrayOp) : List Token := printConstantOp op

/-- The function `printConstantStringOp`. -/
def printConstantStringOp (op : ConstantStringOp) : List Token := printConstantOp op

/-- How a parser leaves without a result: with a diagnostic
(`parser.emitError`), with a plain `mlir::failure()`, or by stopping the
program (`VAST_UNIMPLEMENTED`, `VAST_UNREACHABLE`). -/
inductive ParseFault where
  | error (msg : String)
  | failure
  | unimplemented
  | unreachable (msg : String)
deriving DecidableEq, Repr

/-- The operation state `State` that a parser fills: attributes and result
types. -/
structure ParsedOperationState where
  attributes : List (String × Attr)
  types : List RType

/-- `parser.parseOptionalKeyword(keyword)`: the rest of the text when the
keyword is next. -/
def parseOptionalKeyword (keyword : String) : List Token → Option (List Token)
  | .keyword s :: rest => if s = keyword then some rest else none
  | _ => none

/-- The `llvm::APInt` that `parser.parseInteger` makes of a decimal literal.
The digits are read into four bits for each digit (`StringRef::getAsInteger`;
64 bits when the number is zero), one more bit is added in front when the top
bit is set, and a minus sign negates the bits within that width. -/
def APInt.ofLiteral (literal : Int) : APInt :=
  let magnitude := literal.natAbs
  let width := if magnitude = 0 then 64 else 4 * (Nat.toDigits 10 magnitude).length
  let width := if 2 ^ (width - 1) ≤ magnitude then width + 1 else width
  { BitWidth := width,
    bits := if literal < 0 then 2 ^ width - magnitude else magnitude }

/-- `parser.parseInteger(value)` for an `llvm::APInt`. -/
def parseInteger : List Token → Option (APInt × List Token)
  | .integer v :: rest => some (APInt.ofLiteral v, rest)
  | _ => none

/-- `parser.parseColonType(rty)`. -/
def parseColonType : List Token → Option (RType × List Token)
  | .colon :: .type t :: rest => some (t, rest)
  | _ => none

/-- `parser.parseOptionalAttrDict(attributes)`: a dictionary, when one is
next, is added to the attributes. -/
def parseOptionalAttrDict (attributes : List (String × Attr)) :
    List Token → List (String × Attr) × List Token
  | .attrDict entries :: rest => (attributes ++ entries, rest)
  | text => (attributes, text)

/-- `parser.parseAttribute(value, type)`: a literal becomes an attribute of the
given type; a float literal wants a float type, and the attribute is the
value of that type that the literal is read as. -/
def parseAttribute (type : AttrType) : List Token → Option (Attr × List Token)
  | .float v :: rest => if type = .f64 then some (.float v type, rest) else none
  | .string s :: rest => some (.string s type, rest)
  | .keyword "true" :: rest => some (.bool true, rest)
  | .keyword "false" :: rest => some (.bool false, rest)
  | .array es :: rest => some (.array es, rest)
  | _ => none

/-- The lambda `is_signed` of `parseConstantIntOp`. -/
def parseConstantIntOp.is_signed (rty : RType) : Except ParseFault Bool :=
  match rty with
  | .builtinInteger _ s => .ok (s == .signed)
  | .highLevel _ isSigned => .ok isSigned
  | .other _ => .error (.unreachable "Cannot decide if \x7b0\x7d is signed or not.")

/-- The function `parseConstantIntOp`: the filled state and the rest of the
text. The attribute of an integer literal is made by
`llvm::APSInt(value, is_signed)`, whose second parameter is `isUnsigned`: the
value is unsigned exactly when the result type is signed. -/
def parseConstantIntOp (text : List Token) (st : ParsedOperationState) :
    Except ParseFault (ParsedOperationState × List Token) := do
  let (attr, value, text) ←
    match parseOptionalKeyword "true" text with
    | some text => pure (some (Attr.bool true), ({ BitWidth := 1, bits := 0 } : APInt), text)
    | none =>
      match parseOptionalKeyword "false" text with
      | some text => pure (some (Attr.bool false), ({ BitWidth := 1, bits := 0 } : APInt), text)
      | none =>
        match parseInteger text with
        | none => throw (ParseFault.error "expected integer value")
        | some (value, text) => pure (none, value, text)
  let (rty, text) ←
    match parseColonType text with
    | none => throw ParseFault.failure
    | some r => pure r
  let (attributes, text) := parseOptionalAttrDict st.attributes text
  let st : ParsedOperationState := { attributes := attributes, types := st.types ++ [rty] }
  let attr ←
    match attr with
    | some attr => pure attr
    | none => do
      let is_signed ← parseConstantIntOp.is_signed rty
      pure (Attr.integer { I := value, IsUnsigned := is_signed })
  return ({ st with attributes := st.attributes ++ [("value", attr)] }, text)

/-- The function `parseConstantFloatOp`. -/
def parseConstantFloatOp (text : List Token) (st : ParsedOperationState) :
    Except ParseFault (ParsedOperationState × List Token) := do
  let (value, text) ←
    match parseAttribute .f64 text with
    | none => throw (ParseFault.error "expected floating-point value")
    | some r => pure r
  let st : ParsedOperationState := { st with attributes := st.attributes ++ [("value", value)] }
  let (rty, text) ←
    match parseColonType text with
    | none => throw ParseFault.failure
    | some r => pure r
  let (attributes, text) := parseOptionalAttrDict st.attributes text
  return ({ attributes := attributes, types := st.types ++ [rty] }, text)

/-- The function `parseConstantArrayOp`: `VAST_UNIMPLEMENTED`. -/
def parseConstantArrayOp (_text : List Token) (_st : ParsedOperationState) :
    Except ParseFault (ParsedOperationState × List Token) :=
  .error .unimplemented

/-- The function `parseConstantStringOp`. -/
def parseConstantStringOp (text : List Token) (st : ParsedOperationState) :
    Except ParseFault (ParsedOperationState × List Token) := do
  let (value, text) ←
    match parseAttribute .none text with
    | none => throw (ParseFault.error "expected string value")
    | some r => pure r
  let st : ParsedOperationState := { st with attributes := st.attributes ++ [("value", value)] }
  let (rty, text) ←
    match parseColonType text with
    | none => throw ParseFault.failure
    | some r => pure r
  let (attributes, text) := parseOptionalAttrDict st.attributes text
  return ({ attributes := attributes, types := st.types ++ [rty] }, text)

/-- The constant operation made from a filled state: the attribute named
`value`, the only result type, and the attributes of other names. Nothing
when the state has no `value` or not exactly one type. -/
def ConstantOp.ofState (st : ParsedOperationState) : Option ConstantOp :=
  match st.attributes.find? (fun p => p.1 == "value"), st.types with
  | some (_, value), [type] =>
    some { value := value, type := type,
           attrs := st.attributes.filter (fun p => !(p.1 == "value")) }
  | _, _ => none

/-- The state a parser starts from. -/
def ParsedOperationState.empty : ParsedOperationState := { attributes := [], types := [] }

/-- Parse a whole text with the given parser into a constant operation: the
parser must succeed and leave no text. -/
def parseConstant
    (parse : List Token → ParsedOperationState →
      Except ParseFault (ParsedOperationState × List Token))
    (text : List Token) : Option ConstantOp :=
  match parse text ParsedOperationState.empty with
  | .ok (st, []) => ConstantOp.ofState st
  | _ => none


/-! ## Code generation driver (`CodeGenDriver.cpp`) -/

namespace cg

/-- The kinds `clang::Decl::Kind` that the driver tells apart, by name; the two
last constructors stand for the remaining kinds of value declarations
(`EnumConstant`, `Field`, ...) and of other declarations (`Namespace`,
`CXXRecord`, `StaticAssert`, ...). -/
inductive DeclKind where
  | Var
  | Decomposition
  | VarTemplateSpecialization
  | CXXMethod
  | Function
  | Typedef
  | TypeAlias
  | Record
  | Enum
  | CXXConstructor
  | CXXDestructor
  | CXXConversion
  | CXXDeductionGuide
  | VarTemplatePartialSpecialization
  | ParmVar
  | ImplicitParam
  | otherValue (name : String)
  | other (name : String)
deriving DecidableEq, Repr

/-- `decl->getDeclKindName()`. -/
def DeclKind.getDeclKindName : DeclKind → String
  | .Var => "Var"
  | .Decomposition => "Decomposition"
  | .VarTemplateSpecialization => "VarTemplateSpecialization"
  | .CXXMethod => "CXXMethod"
  | .Function => "Function"
  | .Typedef => "Typedef"
  | .TypeAlias => "TypeAlias"
  | .Record => "Record"
  | .Enum => "Enum"
  | .CXXConstructor => "CXXConstructor"
  | .CXXDestructor => "CXXDestructor"
  | .CXXConversion => "CXXConversion"
  | .CXXDeductionGuide => "CXXDeductionGuide"
  | .VarTemplatePartialSpecialization => "VarTemplatePartialSpecialization"
  | .ParmVar => "ParmVar"
  | .ImplicitParam => "ImplicitParam"
  | .otherValue name => name
  | .other name => name

/-- Whether `llvm::dyn_cast< clang::FunctionDecl >` succeeds on the kind. -/
def DeclKind.isFunctionDecl : DeclKind → Bool
  | .Function | .CXXMethod | .CXXConstructor | .CXXDestructor | .CXXConversion
  | .CXXDeductionGuide => true
  | _ => false

/-- Whether `llvm::dyn_cast< clang::CXXMethodDecl >` succeeds on the kind. -/
def DeclKind.isCXXMethodDecl : DeclKind → Bool
  | .CXXMethod | .CXXConstructor | .CXXDestructor | .CXXConversion => true
  | _ => false

/-- Whether `llvm::dyn_cast< clang::VarDecl >` succeeds on the kind. -/
def DeclKind.isVarDecl : DeclKind → Bool
  | .Var | .Decomposition | .VarTemplateSpecialization | .VarTemplatePartialSpecialization
  | .ParmVar | .ImplicitParam => true
  | _ => false

/-- Whether the kind is that of a `clang::ValueDecl`. -/
def DeclKind.isValueDecl : DeclKind → Bool
  | .otherValue _ => true
  | k => k.isFunctionDecl || k.isVarDecl

/-- The answers of `clang::VarDecl::isThisDeclarationADefinition`. -/
inductive DefinitionKind where
  | DeclarationOnly
  | TentativeDefinition
  | Definition
deriving DecidableEq, Repr

/-- The answers of `clang::ASTContext::getInlineVariableDefinitionKind`. -/
inductive InlineVariableDefinitionKind where
  | None
  | Weak
  | WeakUnknown
  | Strong
deriving DecidableEq, Repr

/-- A declaration (`clang::Decl`, `clang::GlobalDecl`) as the driver sees it:
its kind, its mangled name, and the answers of clang to the queries the
driver makes about it. The queries on functions are read only for kinds of
function declarations, those on variables only for kinds of variable
declarations. -/
structure Decl where
  kind : DeclKind
  mangled_name : String
  isTemplated : Bool := false
  hasWeakRefAttr : Bool := false
  hasAliasAttr : Bool := false
  hasIFuncAttr : Bool := false
  hasCPUDispatchAttr : Bool := false
  DeclMustBeEmitted : Bool := false
  isConsteval : Bool := false
  doesThisDeclarationHaveABody : Bool := false
  doesDeclarationForceExternallyVisibleDefinition : Bool := false
  isMultiVersion : Bool := false
  isImplicitInstantiation : Bool := false
  hasConstructorAttr : Bool := false
  hasDestructorAttr : Bool := false
  hasAnnotateAttr : Bool := false
  isFileVarDecl : Bool := true
  isThisDeclarationADefinition : DefinitionKind := .DeclarationOnly
  isMSStaticDataMemberInlineDefinition : Bool := false
  getInlineVariableDefinitionKind : InlineVariableDefinitionKind := .None
  hasDefinition : Bool := false
  hasInit : Bool := false
deriving DecidableEq, Repr

/-- The language options `lang()` that the driver reads. -/
structure LangOptions where
  CPlusPlus : Bool := false
  CUDA : Bool := false
  CUDAIsDevice : Bool := false
  OpenMP : Bool := false
  OpenMPSimd : Bool := false
  EmitAllDecls : Bool := false
deriving DecidableEq, Repr

/-- The driver options `options` that the driver reads. -/
structure Options where
  coverage_mapping : Bool := false
  keep_static_consts : Bool := false
deriving DecidableEq, Repr

/-- An `hl::FuncOp` of the module: its symbol name and whether it is a mere
declaration (a prototype without a body). -/
structure FuncOp where
  name : String
  isDeclaration : Bool
deriving DecidableEq, Repr

/-- A top-level operation of the module: a function, or what
`append_to_module` makes of a declaration. -/
inductive TopLevelOp where
  | func (fn : FuncOp)
  | decl (kind : DeclKind) (name : String)
deriving DecidableEq, Repr

/-- The state of `codegen_driver` together with the part of its code generator
`codegen` that the driver reaches: the guard counter, the deferred inline
member function definitions, the module, the deferred work list
(`deferred_decls_to_emit`), the table of remembered declarations
(`deferred_decls`), the deferred vtables, and the record of the function
bodies built so far, in order. -/
structure Driver where
  lang : LangOptions := {}
  options : Options := {}
  deferred_top_level_decls : Nat := 0
  deferred_inline_member_func_defs : List Decl := []
  module : List TopLevelOp := []
  deferred_decls_to_emit : List Decl := []
  deferred_decls : List (String × Decl) := []
  deferred_vtables : List String := []
  bodies_built : List String := []
deriving DecidableEq, Repr

/-- How a driver function leaves without returning: by the exception
`cg::unimplemented`, by a failed `assert` or `llvm::cast`, by
`llvm_unreachable`, by `std::terminate`; `outOfFuel` is the answer of a loop
of the embedding that was given too few rounds. -/
inductive Raised where
  | unimplemented (msg : String)
  | assertion (msg : String)
  | unreachable (msg : String)
  | terminate
  | outOfFuel
deriving DecidableEq, Repr

/-- A driver function: from the state before to its result, or what it raised,
and the state after. The state is kept when something is raised: nothing is
rolled back. -/
def M (α : Type) : Type := Driver → Except Raised α × Driver

/-- Return a value, the state untouched. -/
def M.pure {α : Type} (a : α) : M α := fun drv => (.ok a, drv)

/-- Run `m`, then `f` on its result; what `m` raises is passed on. -/
def M.bind {α β : Type} (m : M α) (f : α → M β) : M β := fun drv =>
  match m drv with
  | (.ok a, drv') => f a drv'
  | (.error e, drv') => (.error e, drv')

instance : Monad M where
  pure := M.pure
  bind := M.bind

/-- Leave by raising `e`. -/
def raise {α : Type} (e : Raised) : M α := fun drv => (.error e, drv)

/-- Read the state. -/
def getDriver : M Driver := fun drv => (.ok drv, drv)

/-- Replace the state. -/
def setDriver (drv : Driver) : M Unit := fun _ => (.ok (), drv)

/-- The C `assert(cond && msg)`. -/
def assertThat (cond : Bool) (msg : String) : M Unit :=
  if cond then M.pure () else raise (.assertion msg)

/-- A `for` loop over a list. -/
def forEach {α : Type} (body : α → M Unit) : List α → M Unit
  | [] => M.pure ()
  | x :: xs => M.bind (body x) (fun _ => forEach body xs)

/-- `codegen_driver::get_mangled_name`. -/
def get_mangled_name (decl : Decl) : String := decl.mangled_name

/-- Index in the module of the first function of the given name. -/
def findFunc (name : String) : List TopLevelOp → Option Nat
  | [] => none
  | .func fn :: rest =>
    if fn.name = name then some 0 else (findFunc name rest).map (· + 1)
  | .decl _ _ :: rest => (findFunc name rest).map (· + 1)

/-- Modelled from the spec: `codegen.get_global_value` is not among the sources
at hand; by the spec the symbol table is asked for the emitted operation of a
name. The operation is named by its index in the module; null is `none`. -/
def get_global_value (name : String) : M (Option Nat) := fun drv =>
  (.ok (findFunc name drv.module), drv)

/-- Modelled from the spec: `codegen.add_deferred_decl_to_emit` is not among the
sources at hand; by the spec the declaration is pushed onto the deferred work
list. -/
def add_deferred_decl_to_emit (decl : Decl) : M Unit := fun drv =>
  (.ok (), { drv with deferred_decls_to_emit := drv.deferred_decls_to_emit ++ [decl] })

/-- Modelled from the spec: `codegen.set_deferred_decl` is not among the sources
at hand; by the spec the table of remembered declarations is keyed by the
unique name, a new entry overwriting an earlier one of that name. -/
def set_deferred_decl (name : String) (decl : Decl) : M Unit := fun drv =>
  (.ok (), { drv with deferred_decls :=
    drv.deferred_decls.filter (fun p => !(p.1 == name)) ++ [(name, decl)] })

/-- Modelled from the spec: `codegen.receive_deferred_decls_to_emit` is not
among the sources at hand; by the spec the flush pops the current list: the
list is handed over and the one of the code generator is left empty. -/
def receive_deferred_decls_to_emit : M (List Decl) := fun drv =>
  (.ok drv.deferred_decls_to_emit, { drv with deferred_decls_to_emit := [] })

/-- Modelled from the spec: `codegen.append_to_module` is not among the sources
at hand; the declaration becomes one more operation at the end of the
module. -/
def append_to_module (decl : Decl) : M Unit := fun drv =>
  (.ok (), { drv with module := drv.module ++ [.decl decl.kind decl.mangled_name] })

/-- Modelled from the spec: `codegen.build_function_prototype` is not among the
sources at hand; by the spec the definition builder "creates (or reuses, if
already created as a forward prototype) the corresponding Operation". The
type computation that precedes it (`arrange_global_decl`,
`get_function_type`) belongs to the type system and has no part in the policy
of the driver. -/
def build_function_prototype (decl : Decl) : M Nat := fun drv =>
  match findFunc decl.mangled_name drv.module with
  | some op => (.ok op, drv)
  | none =>
    (.ok drv.module.length,
      { drv with module := drv.module ++ [.func ⟨decl.mangled_name, true⟩] })

/-- `fn.isDeclaration()` for the operation at index `op` of the module. -/
def isDeclaration (op : Nat) : M Bool := fun drv =>
  match drv.module[op]? with
  | some (.func fn) => (.ok fn.isDeclaration, drv)
  | _ => (.error (.assertion "cast< vast::hl::FuncOp >"), drv)

/-- Modelled from the spec: `build_function_body` is not among the sources at
hand; by the spec the body is built by the statement translator, "invoked
once per body". Of the build only this is kept: the function has a body
afterwards, and the build is recorded in `bodies_built`. The statements of
the body are not represented, and so neither is what translating them does
to the driver besides: by the spec a body that refers to further
declarations can defer them or enter the driver again. -/
def build_function_body (op : Nat) (decl : Decl) : M Nat := fun drv =>
  match drv.module[op]? with
  | some (.func fn) =>
    (.ok op, { drv with module := drv.module.set op (.func { fn with isDeclaration := false }),
                        bodies_built := drv.bodies_built ++ [decl.mangled_name] })
  | _ => (.error (.assertion "cast< vast::hl::FuncOp >"), drv)

/-- `codegen_driver::should_emit_function`. -/
def should_emit_function (_decl : Decl) : Bool := true

/-- `codegen_driver::build_global_var_definition`. -/
def build_global_var_definition (_decl : Decl) (_tentative : Bool) : M (Option Nat) :=
  raise (.unimplemented "build_global_var_definition")

/-- `codegen_driver::build_global_decl`. -/
def build_global_decl (_decl : Decl) : M (Option Nat) :=
  raise (.unimplemented "build_global_decl")

/-- `codegen_driver::build_global_function_definition`. -/
def build_global_function_definition (decl : Decl) : M (Option Nat) := do
  let function_decl := decl
  assertThat function_decl.kind.isFunctionDecl "cast< clang::FunctionDecl >"
  let drv ← getDriver
  assertThat (!drv.lang.CUDA) "NYI"
  let op ← build_function_prototype decl
  let fn_isDeclaration ← isDeclaration op
  if !fn_isDeclaration then
    pure (some op)
  else do
    let _fn ← build_function_body op decl
    if function_decl.hasConstructorAttr then
      raise (.unimplemented "ctor emition")
    else if function_decl.hasDestructorAttr then
      raise (.unimplemented "dtor emition")
    else if function_decl.hasAnnotateAttr then
      raise (.unimplemented "annotated emition")
    else
      pure (some op)

/-- `codegen_driver::build_global_definition`. -/
def build_global_definition (glob : Decl) : M (Option Nat) := do
  let decl := glob
  assertThat decl.kind.isValueDecl "cast< clang::ValueDecl >"
  if decl.kind.isFunctionDecl then
    if !should_emit_function glob then
      pure none
    else if decl.isMultiVersion then
      raise (.unimplemented "codegen for multi version function")
    else if decl.kind.isCXXMethodDecl then
      raise (.unimplemented "cxx methods")
    else
      build_global_function_definition glob
  else if decl.kind.isVarDecl then
    build_global_var_definition decl (!decl.hasDefinition)
  else
    raise (.unreachable "Invalid argument to buildGlobalDefinition()")

/-- `codegen_driver::must_be_emitted`. -/
def must_be_emitted (glob : Decl) : M Bool := do
  let drv ← getDriver
  assertThat (!drv.lang.EmitAllDecls) "EmitAllDecls NYI"
  assertThat (!drv.options.keep_static_consts) "KeepStaticConsts NYI"
  pure glob.DeclMustBeEmitted

/-- `codegen_driver::may_be_emitted_eagerly`. -/
def may_be_emitted_eagerly (glob : Decl) : M Bool := do
  let drv ← getDriver
  assertThat (!drv.lang.OpenMP) "not supported"
  if glob.kind.isFunctionDecl then
    if glob.isImplicitInstantiation then
      raise (.unimplemented "implicit template specialization emition")
    else do
      assertThat (!glob.isTemplated) "templates NYI"
      pure true
  else if glob.kind.isVarDecl then
    if glob.getInlineVariableDefinitionKind = .WeakUnknown then
      raise (.unimplemented "inline variable definitions")
    else
      pure true
  else
    raise (.unimplemented "unsupported value decl")

/-- The second half of `build_global`, from the comment "Defer code generation
to first use when possible" on: eager emission, or one of the three ways of
deferring. -/
def build_global.policy (decl : Decl) : M (Option Nat) := do
  let glob := decl
  let must ← must_be_emitted glob
  let eagerly ← if must then may_be_emitted_eagerly glob else pure false
  if must && eagerly then
    build_global_definition glob
  else do
    let drv ← getDriver
    if drv.lang.CPlusPlus && glob.kind.isVarDecl && glob.hasInit then
      raise (.unimplemented "build_global CXX GlobalVar")
    else do
      let mangled_name := get_mangled_name decl
      let global_value ← get_global_value mangled_name
      if global_value != none then
        add_deferred_decl_to_emit decl
      else do
        let must ← must_be_emitted glob
        if must then do
          let eagerly ← may_be_emitted_eagerly glob
          assertThat (!eagerly) "!may_be_emitted_eagerly(glob)"
          add_deferred_decl_to_emit decl
        else
          set_deferred_decl mangled_name decl
      pure none

/-- `codegen_driver::build_global`: the operation it returns (null is `none`),
or what it raises. -/
def build_global (decl : Decl) : M (Option Nat) := do
  let glob := decl
  assertThat glob.kind.isValueDecl "cast< clang::ValueDecl >"
  assertThat (!glob.hasWeakRefAttr) "NYI"
  assertThat (!glob.hasAliasAttr) "NYI"
  assertThat (!glob.hasIFuncAttr) "NYI"
  assertThat (!glob.hasCPUDispatchAttr) "NYI"
  let drv ← getDriver
  assertThat (!drv.lang.CUDA) "NYI"
  assertThat (!drv.lang.OpenMP) "NYI"
  if glob.kind.isFunctionDecl then
    if !glob.doesThisDeclarationHaveABody then
      if !glob.doesDeclarationForceExternallyVisibleDefinition then
        pure none
      else
        raise (.unimplemented "build_global FunctionDecl")
    else
      build_global.policy decl
  else do
    let var := glob
    assertThat var.kind.isVarDecl "cast< clang::VarDecl >"
    assertThat var.isFileVarDecl "Cannot emit local var decl as global."
    if var.isThisDeclarationADefinition != .Definition
        && !var.isMSStaticDataMemberInlineDefinition then do
      assertThat (!drv.lang.OpenMP) "NYI"
      assertThat (var.getInlineVariableDefinitionKind != .Strong) "NYI"
      pure none
    else
      build_global.policy decl

/-- `codegen_driver::handle_top_level_decl(clang::Decl *)`. -/
def handle_top_level_decl (decl : Decl) : M Unit := do
  if decl.isTemplated then
    pure ()
  else if decl.kind.isFunctionDecl && decl.isConsteval then
    pure ()
  else
    match decl.kind with
    | .Var | .Decomposition | .VarTemplateSpecialization => do
      let _ ← build_global decl
      if decl.kind = .Decomposition then
        raise (.unimplemented "codegen for DecompositionDecl")
      else
        pure ()
    | .CXXMethod | .Function => do
      let _ ← build_global decl
      let drv ← getDriver
      if drv.options.coverage_mapping then
        raise (.unimplemented "coverage mapping not supported")
      else
        pure ()
    | .Typedef | .TypeAlias | .Record | .Enum =>
      append_to_module decl
    | _ => raise (.unimplemented ("codegen for: " ++ decl.kind.getDeclKindName))

/-- The guard `defer_handle_of_top_level_decl`. -/
structure defer_handle_of_top_level_decl where
  emit_deferred : Bool
deriving DecidableEq, Repr

/-- Constructor of the guard: `++codegen.deferred_top_level_decls`, on an
`unsigned`. -/
def defer_handle_of_top_level_decl.ctor (emit_deferred : Bool) :
    M defer_handle_of_top_level_decl := fun drv =>
  (.ok ⟨emit_deferred⟩,
    { drv with deferred_top_level_decls := (drv.deferred_top_level_decls + 1) % 2 ^ 32 })

/-- Destructor of the guard: `--codegen.deferred_top_level_decls`, on an
`unsigned`, and the flush `codegen.build_deferred_decls()` when the counter
has come to zero and the guard was made with `emit_deferred`. The flush is
handed in as `flush`. -/
def defer_handle_of_top_level_decl.dtor (flush : M Unit)
    (g : defer_handle_of_top_level_decl) : M Unit := fun drv =>
  let level := (drv.deferred_top_level_decls + 2 ^ 32 - 1) % 2 ^ 32
  let drv := { drv with deferred_top_level_decls := level }
  if level == 0 && g.emit_deferred then flush drv else (.ok (), drv)

/-- A block with a local variable of a class type: the constructor `ctor` makes
the object, the block runs, and the destructor `dtor` runs when the block is
left. The destructor also runs when the block is left by an exception, which
then goes on; a failed assertion stops the program at once. An exception that
leaves the destructor ends in `std::terminate`, the destructor being
`noexcept`. -/
def M.withLocal {γ α : Type} (ctor : M γ) (dtor : γ → M Unit) (block : M α) : M α := fun drv =>
  match ctor drv with
  | (.error e, drv) => (.error e, drv)
  | (.ok g, drv) =>
    match block drv with
    | (.ok a, drv) =>
      match dtor g drv with
      | (.ok _, drv) => (.ok a, drv)
      | (.error (.unimplemented _), drv) => (.error .terminate, drv)
      | (.error e, drv) => (.error e, drv)
    | (.error (.unimplemented msg), drv) =>
      match dtor g drv with
      | (.ok _, drv) => (.error (.unimplemented msg), drv)
      | (.error (.unimplemented _), drv) => (.error .terminate, drv)
      | (.error e, drv) => (.error e, drv)
    | (.error e, drv) => (.error e, drv)

/-- A block with a guard as a local variable, as in
`defer_handle_of_top_level_decl defer(*this);` at the head of a block. -/
def defer_handle_of_top_level_decl.scope {α : Type} (flush : M Unit) (emit_deferred : Bool)
    (block : M α) : M α :=
  M.withLocal (defer_handle_of_top_level_decl.ctor emit_deferred) (fun g => g.dtor flush) block

/-- `codegen_driver::build_deferred_decls`, given `fuel` for its recursion;
`handle` is `handle_top_level_decl`. The guard `defer` is made with the
default of `emit_deferred`, taken as set: by the spec a guard triggers the
flush when the counter returns to zero. -/
def build_deferred_decls.loop (handle : Decl → M Unit) : Nat → M Unit
  | 0 => raise .outOfFuel
  | fuel + 1 => fun drv =>
    if drv.deferred_inline_member_func_defs.isEmpty then
      (.ok (), drv)
    else
      let deferred := drv.deferred_inline_member_func_defs
      let drv := { drv with deferred_inline_member_func_defs := [] }
      defer_handle_of_top_level_decl.scope (build_deferred_decls.loop handle fuel) true
        (M.bind (forEach handle deferred) (fun _ => build_deferred_decls.loop handle fuel)) drv

/-- `codegen_driver::build_deferred_decls`. Nothing in these sources adds to the
deferred inline member function definitions while they are handled, so the
recursive call and the flush of the guard both find the list empty: two
rounds are fuel enough. -/
def build_deferred_decls : M Unit :=
  build_deferred_decls.loop handle_top_level_decl 2

/-- `codegen_driver::handle_top_level_decl(clang::DeclGroupRef)`. -/
def handle_top_level_decl_group (decls : List Decl) : M Unit :=
  defer_handle_of_top_level_decl.scope build_deferred_decls true
    (forEach handle_top_level_decl decls)

/-- `codegen_driver::build_deferred`, given `fuel` for its recursion. -/
def build_deferred.loop : Nat → M Unit
  | 0 => raise .outOfFuel
  | fuel + 1 => do
    let drv ← getDriver
    if drv.lang.OpenMP && !drv.lang.OpenMPSimd then
      raise (.unimplemented "build_deferred for openmp")
    else if !drv.deferred_vtables.isEmpty then
      raise (.unimplemented "build_deferred for vtables")
    else if drv.lang.CUDA && drv.lang.CUDAIsDevice then
      raise (.unimplemented "build_deferred for cuda")
    else if drv.deferred_decls_to_emit.isEmpty then
      pure ()
    else do
      let curr_decls_to_emit ← receive_deferred_decls_to_emit
      forEach (fun decl => do
        let _ ← build_global_decl decl
        let drv ← getDriver
        if !drv.deferred_vtables.isEmpty || !drv.deferred_decls_to_emit.isEmpty then do
          build_deferred.loop fuel
          let drv ← getDriver
          assertThat (drv.deferred_vtables.isEmpty && drv.deferred_decls_to_emit.isEmpty)
            "deferred_vtables().empty() && deferred_decls_to_emit().empty()"
        else
          pure ()) curr_decls_to_emit

/-- `codegen_driver::build_deferred`. A round recurses at most once per
declaration it emits, so the length of the work list, and one, is fuel
enough as long as no emission adds to the list; `build_global_decl` raises
before any recursion. -/
def build_deferred : M Unit := fun drv =>
  build_deferred.loop (drv.deferred_decls_to_emit.length + 1) drv


/-- The kinds that have a case of their own in the `switch` of
`handle_top_level_decl`. -/
def DeclKind.inSwitch : DeclKind → Bool
  | .Var | .Decomposition | .VarTemplateSpecialization | .CXXMethod | .Function
  | .Typedef | .TypeAlias | .Record | .Enum => true
  | _ => false

/-- The assertions at the head of `build_global` hold: the declaration is a
value declaration without the attributes that are not yet implemented, and
the language is neither CUDA nor OpenMP. -/
def build_global.asserted (decl : Decl) (drv : Driver) : Bool :=
  decl.kind.isValueDecl && !decl.hasWeakRefAttr && !decl.hasAliasAttr && !decl.hasIFuncAttr
    && !decl.hasCPUDispatchAttr && !drv.lang.CUDA && !drv.lang.OpenMP

/-- A declaration that is a definition, as `build_global` finds out: a function
declaration with a body, or a variable declaration that is a definition or
an inline definition of a static data member. -/
def Decl.isDefinition (decl : Decl) : Bool :=
  if decl.kind.isFunctionDecl then decl.doesThisDeclarationHaveABody
  else decl.kind.isVarDecl && decl.isFileVarDecl &&
    (decl.isThisDeclarationADefinition == .Definition
      || decl.isMSStaticDataMemberInlineDefinition)

/-- What `build_global_function_definition` answers once the body of the
function at index `op` is built: the unimplemented errors for functions marked
as constructor, destructor or annotated, the operation otherwise. -/
def afterBody (decl : Decl) (op : Nat) : Except Raised (Option Nat) :=
  if decl.hasConstructorAttr then .error (.unimplemented "ctor emition")
  else if decl.hasDestructorAttr then .error (.unimplemented "dtor emition")
  else if decl.hasAnnotateAttr then .error (.unimplemented "annotated emition")
  else .ok (some op)

/-- A properly nested sequence of guards: nothing, some work of the driver, two
sequences one after the other, or a guard that is alive while a sequence
runs. -/
inductive Guards where
  | skip
  | work (m : M Unit)
  | seq (first second : Guards)
  | guard (emit_deferred : Bool) (inner : Guards)

/-- Run a nested sequence of guards, `flush` being the flush of the
destructors. -/
def Guards.run (flush : M Unit) : Guards → M Unit
  | .skip => M.pure ()
  | .work m => m
  | .seq first second => M.bind (first.run flush) (fun _ => second.run flush)
  | .guard emit_deferred inner =>
    defer_handle_of_top_level_decl.scope flush emit_deferred (inner.run flush)

/-- How deep the guards of a sequence are nested. -/
def Guards.depth : Guards → Nat
  | .skip => 0
  | .work _ => 0
  | .seq first second => max first.depth second.depth
  | .guard _ inner => inner.depth + 1

/-- A driver function that leaves the guard counter alone, whatever its
outcome. -/
def KeepsCounter {α : Type} (m : M α) : Prop :=
  ∀ drv, (m drv).2.deferred_top_level_decls = drv.deferred_top_level_decls

/-- The work in a nested sequence of guards leaves the guard counter alone. -/
def Guards.KeepsCounter : Guards → Prop
  | .skip => True
  | .work m => cg.KeepsCounter m
  | .seq first second => first.KeepsCounter ∧ second.KeepsCounter
  | .guard _ inner => inner.KeepsCounter

/-- An outcome after which every guard that was made has been destroyed: a
return, or an exception that has unwound the stack. -/
def Unwound {α : Type} : Except Raised α → Prop
  | .ok _ => True
  | .error (.unimplemented _) => True
  | .error _ => False

/-- A driver function that gives the guard counter back: whenever it returns,
or leaves by an exception that unwinds the stack, the counter, an `unsigned`,
is what it was before. -/
def RestoresCounter {α : Type} (m : M α) : Prop :=
  ∀ (drv : Driver) (r : Except Raised α) (drv' : Driver),
    drv.deferred_top_level_decls < 2 ^ 32 → m drv = (r, drv') → Unwound r →
    drv'.deferred_top_level_decls = drv.deferred_top_level_decls

/-! ### Target information (`initialize_target_info`) -/

/-- The architectures `llvm::Triple::ArchType` that `initialize_target_info`
tells apart; `other` stands for the remaining ones, by name. -/
inductive ArchType where
  | aarch64
  | x86_64
  | other (name : String)
deriving DecidableEq, Repr

/-- The operating systems `llvm::Triple::OSType`: `Win32`, or another one, by
name. -/
inductive OSType where
  | Win32
  | other (name : String)
deriving DecidableEq, Repr

/-- The target triple, as far as it is read: `getArch()` and `getOS()`. -/
structure Triple where
  arch : ArchType
  os : OSType
deriving DecidableEq, Repr

/-- A `clang::TargetInfo`, as far as it is read: `getTriple()` and `getABI()`. -/
structure TargetInfo where
  triple : Triple
  abi : String
deriving DecidableEq, Repr

/-- The levels `x86_avx_abi_level`. -/
inductive x86_avx_abi_level where
  | none
  | avx
  | avx512
deriving DecidableEq, Repr

/-- The kinds `aarch64_abi_info::abi_kind`. -/
inductive aarch64_abi_kind where
  | aapcs
  | darwin_pcs
  | win64
deriving DecidableEq, Repr

/-- The type information `type_info_t` handed to the target information; the
object is named by an identifier. -/
structure type_info_t where
  id : Nat
deriving DecidableEq, Repr

/-- What a `target_info_ptr` points to: an `aarch64_target_info` or an
`x86_64_target_info`, with the arguments of its constructor. -/
inductive target_info where
  | aarch64_target_info (type_info : type_info_t) (kind : aarch64_abi_kind)
  | x86_64_target_info (type_info : type_info_t) (avx_level : x86_avx_abi_level)
deriving DecidableEq, Repr

/-- The function `avx_level`. -/
def avx_level (target : TargetInfo) : x86_avx_abi_level :=
  let abi := target.abi
  if abi = "avx512" then .avx512
  else if abi = "avx" then .avx
  else .none

/-- The lambda `aarch64_info` of `initialize_target_info`. -/
def initialize_target_info.aarch64_info (target : TargetInfo) (type_info : type_info_t) :
    Except Raised target_info :=
  let abi := target.abi
  if abi = "aapcs" || abi = "darwinpcs" then
    .error (.unimplemented "Only Darwin supported for aarch64")
  else
    let abi_kind := aarch64_abi_kind.darwin_pcs
    .ok (.aarch64_target_info type_info abi_kind)

/-- The lambda `x86_64_info` of `initialize_target_info`. -/
def initialize_target_info.x86_64_info (target : TargetInfo) (type_info : type_info_t) :
    Except Raised target_info :=
  let os := target.triple.os
  if os = .Win32 then
    .error (.unimplemented "target info for Win32")
  else
    .ok (.x86_64_target_info type_info (avx_level target))

/-- `detail::initialize_target_info`: the target information, or what it
raises. -/
def initialize_target_info (target : TargetInfo) (type_info : type_info_t) :
    Except Raised target_info :=
  match target.triple.arch with
  | .aarch64 => initialize_target_info.aarch64_info target type_info
  | .x86_64 => initialize_target_info.x86_64_info target type_info
  | _ => .error (.unimplemented "Target not yet supported.")

/-- A driver function that leaves the list of deferred inline member function
definitions alone, whatever its outcome, and does not stop for want of
fuel. -/
def KeepsDeferredInline {α : Type} (m : M α) : Prop :=
  ∀ drv, (m drv).2.deferred_inline_member_func_defs = drv.deferred_inline_member_func_defs ∧
    (m drv).1 ≠ .error .outOfFuel

end cg

/-! ### Terminators and trailing scopes -/

/-- Whether the last operation of a block satisfies `p`; an empty block has no
last operation. -/
def endsIn (p : Operation → Bool) (b : Block) : Bool :=
  match b.getLast? with
  | some o => p o
  | none => false

mutual
/-- The last operation of the last block of a region: a scope, a trailing scope
of the region, whose body is again a region of the kind below, or else a
terminator. -/
def Operation.terminatorOrTrailing (isTerminator : Operation → Bool) : Operation → Bool
  | .scope body => regionTerminatedOrTrailing isTerminator body
  | .op name regions => isTerminator (.op name regions)
/-- A region in which every block, and every block of the bodies of its
trailing scopes, transitively, ends in a terminator or in a trailing scope:
the blocks before the last end in a terminator, and the last block ends in a
terminator or in a scope, the trailing scope of the region, whose body is such
a region again. Which operations are terminators is a trait of the operation
kinds, declared outside these sources: it is the parameter `isTerminator`. -/
def regionTerminatedOrTrailing (isTerminator : Operation → Bool) :
    List (List Operation) → Bool
  | [] => true
  | b :: bs =>
    if bs.isEmpty then lastBlockTerminatedOrTrailing isTerminator b
    else endsIn isTerminator b && regionTerminatedOrTrailing isTerminator bs
/-- The last block of such a region: its last operation is a terminator or a
trailing scope with such a body. -/
def lastBlockTerminatedOrTrailing (isTerminator : Operation → Bool) : List Operation → Bool
  | [] => false
  | o :: os =>
    if os.isEmpty then o.terminatorOrTrailing isTerminator
    else lastBlockTerminatedOrTrailing isTerminator os
end


/-! # Theorems -/


/-! ## Member lowering: the field index -/

theorem get_idx_loop_append (F : String) (ty : MType) (post : List FieldsEntry) :
    ∀ (pre : List FieldsEntry) (k : Nat), PlainOthers F pre →
      get_idx.loop F (pre ++ FieldsEntry.field F ty :: post) k = some (k + pre.length) := by
  intro pre
  induction pre with
  | nil => intro k _; simp [get_idx.loop]
  | cons x xs ih =>
    intro k h
    obtain ⟨n, t, rfl, hn⟩ := h x (List.mem_cons_self _ _)
    have hxs : PlainOthers F xs := fun e he => h e (List.mem_cons_of_mem _ he)
    have hstep : get_idx.loop F (FieldsEntry.field n t :: xs ++ FieldsEntry.field F ty :: post) k
        = get_idx.loop F (xs ++ FieldsEntry.field F ty :: post) (k + 1) := by
      simp only [List.cons_append, get_idx.loop, if_neg hn]
      rfl
    rw [hstep, ih (k + 1) hxs]
    exact congrArg some (by simp only [List.length_cons]; omega)

theorem get_idx_loop_some (F : String) :
    ∀ (l : List FieldsEntry) (k i : Nat), get_idx.loop F l k = some i →
      ∃ pre ty post, l = pre ++ FieldsEntry.field F ty :: post ∧ i = k + pre.length ∧
        PlainOthers F pre := by
  intro l
  induction l with
  | nil => intro k i h; simp [get_idx.loop] at h
  | cons x xs ih =>
    intro k i h
    cases x with
    | nonField o => simp [get_idx.loop] at h
    | field n t =>
      by_cases hn : n = F
      · subst hn
        simp [get_idx.loop] at h
        exact ⟨[], t, xs, rfl, by simp [h], fun e he => by cases he⟩
      · simp only [get_idx.loop, if_neg hn] at h
        obtain ⟨pre, ty, post, hl, hi, hp⟩ := ih (k + 1) i h
        refine ⟨FieldsEntry.field n t :: pre, ty, post, by simp [hl], by simp [hi]; omega, ?_⟩
        intro e he
        rcases List.mem_cons.1 he with rfl | he
        · exact ⟨n, t, rfl, hn⟩
        · exact hp e he

theorem get_idx_loop_none_of_absent (F : String) :
    ∀ (l : List FieldsEntry) (k : Nat), (∀ e ∈ l, e.fieldName? ≠ some F) →
      get_idx.loop F l k = none := by
  intro l
  induction l with
  | nil => intro k _; rfl
  | cons x xs ih =>
    intro k h
    cases x with
    | nonField o => rfl
    | field n t =>
      have hn : n ≠ F := fun hn =>
        h (FieldsEntry.field n t) (List.mem_cons_self _ _) (by simp [FieldsEntry.fieldName?, hn])
      simp only [get_idx.loop, if_neg hn]
      exact ih (k + 1) (fun e he => h e (List.mem_cons_of_mem _ he))

theorem get_idx_loop_none_of_nonField (F : String) (e : FieldsEntry) (post : List FieldsEntry)
    (he : e.isField = false) :
    ∀ (pre : List FieldsEntry) (k : Nat), (∀ x ∈ pre, x.fieldName? ≠ some F) →
      get_idx.loop F (pre ++ e :: post) k = none := by
  intro pre
  induction pre with
  | nil =>
    intro k _
    cases e with
    | nonField o => rfl
    | field n t => simp [FieldsEntry.isField] at he
  | cons x xs ih =>
    intro k h
    cases x with
    | nonField o => rfl
    | field n t =>
      have hn : n ≠ F := fun hn =>
        h (FieldsEntry.field n t) (List.mem_cons_self _ _) (by simp [FieldsEntry.fieldName?, hn])
      simp only [List.cons_append, get_idx.loop, if_neg hn]
      exact ih (k + 1) (fun y hy => h y (List.mem_cons_of_mem _ hy))

theorem get_idx_loop_none_iff (F : String) :
    ∀ (l : List FieldsEntry) (k : Nat), get_idx.loop F l k = none ↔
      ((∀ e ∈ l, e.fieldName? ≠ some F) ∨
        ∃ pre e post, l = pre ++ e :: post ∧ e.isField = false ∧
          ∀ x ∈ pre, x.fieldName? ≠ some F) := by
  intro l k
  constructor
  · induction l generalizing k with
    | nil => intro _; exact Or.inl (fun e he => by cases he)
    | cons x xs ih =>
      intro h
      cases x with
      | nonField o =>
        exact Or.inr ⟨[], FieldsEntry.nonField o, xs, rfl, rfl, fun x hx => by cases hx⟩
      | field n t =>
        by_cases hn : n = F
        · simp [get_idx.loop, hn] at h
        · simp only [get_idx.loop, if_neg hn] at h
          have hx : (FieldsEntry.field n t).fieldName? ≠ some F := by
            simp [FieldsEntry.fieldName?, hn]
          rcases ih (k + 1) h with hall | ⟨pre, e, post, hl, he, hp⟩
          · left
            intro y hy
            rcases List.mem_cons.1 hy with rfl | hy
            · exact hx
            · exact hall y hy
          · right
            refine ⟨FieldsEntry.field n t :: pre, e, post, by simp [hl], he, ?_⟩
            intro y hy
            rcases List.mem_cons.1 hy with rfl | hy
            · exact hx
            · exact hp y hy
  · rintro (hall | ⟨pre, e, post, rfl, he, hp⟩)
    · exact get_idx_loop_none_of_absent F l k hall
    · exact get_idx_loop_none_of_nonField F e post he pre k hp

/-- C1: in a struct declaration whose fields block holds plain fields only,
`get_idx` finds every name `F` that occurs there, at the zero-based position
of the first entry named `F`: the entry at the returned index is a field named
`F` and every entry before it is a plain field of another name. For the
fields `a, b, c` the index of `b` is 1. -/
theorem get_idx_first_position (decl : StructDeclOp) (F : String)
    (hplain : ∀ e ∈ decl.fields, e.isField = true)
    (hF : ∃ e ∈ decl.fields, e.fieldName? = some F) :
    (∃ i, get_idx F decl = some i ∧ i < decl.fields.length ∧
      (∃ ty, decl.fields[i]? = some (FieldsEntry.field F ty)) ∧
      ∀ j, j < i → ∃ n ty, decl.fields[j]? = some (FieldsEntry.field n ty) ∧ n ≠ F) ∧
    (∀ (s : String) (T1 T2 T3 : MType),
      get_idx "b" ⟨s, [.field "a" T1, .field "b" T2, .field "c" T3]⟩ = some 1) := by
  refine ⟨?_, fun s T1 T2 T3 => by simp [get_idx, get_idx.loop]⟩
  cases hres : get_idx F decl with
  | none =>
    exfalso
    rcases (get_idx_loop_none_iff F decl.fields 0).1 hres with hall | ⟨pre, e, post, hl, he, _⟩
    · obtain ⟨e, he, hn⟩ := hF
      exact hall e he hn
    · have := hplain e (by rw [hl]; simp)
      rw [he] at this
      cases this
  | some i =>
    obtain ⟨pre, ty, post, hl, hi, hp⟩ := get_idx_loop_some F decl.fields 0 i hres
    have hi' : i = pre.length := by omega
    subst hi'
    refine ⟨pre.length, rfl, by rw [hl]; simp, ⟨ty, by rw [hl, List.getElem?_append_right (le_refl _)]; simp⟩, ?_⟩
    intro j hj
    have hmem : pre[j] ∈ pre := List.getElem_mem _
    obtain ⟨n, t, hjn, hne⟩ := hp _ hmem
    refine ⟨n, t, ?_, hne⟩
    rw [hl, List.getElem?_append_left hj, List.getElem?_eq_getElem hj, hjn]

/-- Witness of C1 on the fields `a, b, c` of a struct `s`, looked up for `b`. -/
theorem get_idx_first_position_witness :
    ∃ i, get_idx "b" ⟨"s", [.field "a" (.other "int"), .field "b" (.other "char"),
        .field "c" (.other "int")]⟩ = some i ∧ i = 1 := by
  obtain ⟨⟨i, hi, _⟩, _⟩ := get_idx_first_position
    ⟨"s", [.field "a" (.other "int"), .field "b" (.other "char"), .field "c" (.other "int")]⟩ "b"
    (by decide) (by decide)
  refine ⟨i, hi, ?_⟩
  have h1 : get_idx "b" ⟨"s", [.field "a" (.other "int"), .field "b" (.other "char"),
        .field "c" (.other "int")]⟩ = some 1 := by decide
  rw [h1] at hi
  exact (Option.some.inj hi).symm

/-! ## Member lowering: failure and result of `convert` -/

/-- C2: `get_idx` gives no index exactly when no field of the declaration is
named `F` or an entry that is not a plain field stands before every field
named `F`; `convert` then returns failure and leaves the rewriter as it was,
without a fault. An entry that is not a plain field and comes only after the
field named `F` does not disturb the lookup. -/
theorem get_idx_none_convert_failure (decl : StructDeclOp) (F : String) :
    (get_idx F decl = none ↔
      ((∀ e ∈ decl.fields, e.fieldName? ≠ some F) ∨
        ∃ pre e post, decl.fields = pre ++ e :: post ∧ e.isField = false ∧
          ∀ x ∈ pre, x.fieldName? ≠ some F)) ∧
    (∀ (st : State) (nt : NamedType),
      fetch_record_type st.operands.record.type = some nt →
      get_def st.tu nt = .ok (some decl) → st.op.name = F → get_idx F decl = none →
      convert st = .ok (.failure, st.rewriter)) ∧
    (∀ (s : String) (pre post : List FieldsEntry) (ty : MType),
      (∀ e ∈ pre, ∃ n t, e = FieldsEntry.field n t ∧ n ≠ F) →
      get_idx F ⟨s, pre ++ FieldsEntry.field F ty :: post⟩ = some pre.length) := by
  refine ⟨get_idx_loop_none_iff F decl.fields 0, ?_, ?_⟩
  · intro st nt hnt hdef hname hidx
    subst hname
    simp only [convert, hnt, hdef, hidx]
  · intro s pre post ty hpre
    have := get_idx_loop_append F ty post pre 0 hpre
    simpa [get_idx] using this

/-- Witness of C2: the field `y` is asked for in a struct whose fields block is
a nested declaration followed by the field `y`; `convert` fails and the
rewriter stays empty. -/
theorem get_idx_none_convert_failure_witness :
    convert
      { op := ⟨0, .other "int", "y"⟩,
        operands := ⟨⟨0, .lvalue (.named ⟨"s"⟩)⟩⟩,
        rewriter := ⟨[]⟩,
        tu := some ⟨[.structDecl ⟨"s", [.nonField "hl.struct", .field "y" (.other "int")]⟩]⟩ }
      = .ok (.failure, ⟨[]⟩) :=
  (get_idx_none_convert_failure
      ⟨"s", [.nonField "hl.struct", .field "y" (.other "int")]⟩ "y").2.1
    { op := ⟨0, .other "int", "y"⟩,
      operands := ⟨⟨0, .lvalue (.named ⟨"s"⟩)⟩⟩,
      rewriter := ⟨[]⟩,
      tu := some ⟨[.structDecl ⟨"s", [.nonField "hl.struct", .field "y" (.other "int")]⟩]⟩ }
    ⟨"s"⟩ rfl rfl rfl rfl

/-- C3: `convert` succeeds exactly through the two rewriter calls. When the
record type is found by `fetch_record_type`, its declaration by `get_def` and
the field by `get_idx`, `convert` returns success and the rewriter has
received exactly two more calls: the creation of one `ll::StructGEPOp` with
the result type of the member access, the record operand of the member
access, the index found by `get_idx` and the field name, and the replacement
of the member access by that operation. Conversely every success of `convert`
comes from these three lookups and leaves the rewriter with exactly these two
calls added. -/
theorem convert_success_creates_gep (st : State) :
    (∀ nt decl idx,
      fetch_record_type st.operands.record.type = some nt →
      get_def st.tu nt = .ok (some decl) →
      get_idx st.op.name decl = some idx →
      convert st = .ok (.success,
        { actions := st.rewriter.actions ++
          [ .create ⟨st.op.loc, st.op.type, st.operands.record, idx, st.op.name⟩,
            .replaceOp st.op
              [⟨st.op.loc, st.op.type, st.operands.record, idx, st.op.name⟩] ] })) ∧
    (∀ rewriter', convert st = .ok (.success, rewriter') →
      ∃ nt decl idx,
        fetch_record_type st.operands.record.type = some nt ∧
        get_def st.tu nt = .ok (some decl) ∧
        get_idx st.op.name decl = some idx ∧
        rewriter'.actions = st.rewriter.actions ++
          [ .create ⟨st.op.loc, st.op.type, st.operands.record, idx, st.op.name⟩,
            .replaceOp st.op
              [⟨st.op.loc, st.op.type, st.operands.record, idx, st.op.name⟩] ]) := by
  refine ⟨?_, ?_⟩
  · intro nt decl idx hnt hdef hidx
    simp only [convert, hnt, hdef, hidx]
  · intro rewriter' h
    unfold convert at h
    cases hnt : fetch_record_type st.operands.record.type with
    | none => simp [hnt] at h
    | some nt =>
      cases hdef : get_def st.tu nt with
      | error f => simp [hnt, hdef] at h
      | ok o =>
        cases o with
        | none => simp [hnt, hdef] at h
        | some decl =>
          cases hidx : get_idx st.op.name decl with
          | none => simp [hnt, hdef, hidx] at h
          | some idx =>
            simp [hnt, hdef, hidx] at h
            exact ⟨nt, decl, idx, rfl, hdef, hidx, by rw [← h]⟩

/-- Witness of C3: on the access to `b` of a struct with the fields `a, b, c`
behind a pointer, `convert` returns success, having created one positional
access with index 1, the result type, record operand and name of the member
access, and having replaced the member access by it. -/
theorem convert_success_creates_gep_witness :
    convert
      { op := ⟨7, .lvalue (.other "char"), "b"⟩,
        operands := ⟨⟨3, .pointer (.named ⟨"s"⟩)⟩⟩,
        rewriter := ⟨[]⟩,
        tu := some ⟨[.structDecl ⟨"s", [.field "a" (.other "int"),
          .field "b" (.other "char"), .field "c" (.other "int")]⟩]⟩ }
      = .ok (.success,
        ⟨[ .create ⟨7, .lvalue (.other "char"), ⟨3, .pointer (.named ⟨"s"⟩)⟩, 1, "b"⟩,
           .replaceOp ⟨7, .lvalue (.other "char"), "b"⟩
             [⟨7, .lvalue (.other "char"), ⟨3, .pointer (.named ⟨"s"⟩)⟩, 1, "b"⟩] ]⟩) :=
  (convert_success_creates_gep
    { op := ⟨7, .lvalue (.other "char"), "b"⟩,
      operands := ⟨⟨3, .pointer (.named ⟨"s"⟩)⟩⟩,
      rewriter := ⟨[]⟩,
      tu := some ⟨[.structDecl ⟨"s", [.field "a" (.other "int"),
        .field "b" (.other "char"), .field "c" (.other "int")]⟩]⟩ }).1
    ⟨"s"⟩
    ⟨"s", [.field "a" (.other "int"), .field "b" (.other "char"), .field "c" (.other "int")]⟩
    1 rfl rfl rfl

/-! ## Member lowering: the declaration lookup -/

theorem symbols_yield (N : NamedType) :
    ∀ (l : List SymbolOp) (out : Option StructDeclOp),
      symbols (get_def.yield N) l out =
        match out, structDeclsNamed N.name l with
        | out, [] => .ok out
        | none, [d] => .ok (some d)
        | _, _ => .error (.assertion "!out") := by
  intro l
  induction l with
  | nil => intro out; cases out <;> rfl
  | cons c rest ih =>
    intro out
    cases c with
    | otherSymbol o n =>
      simp only [symbols, get_def.yield, structDeclsNamed]
      exact ih out
    | structDecl d =>
      by_cases hd : d.name = N.name
      · cases out with
        | some o =>
          simp only [symbols, get_def.yield, structDeclsNamed, if_pos hd]
        | none =>
          simp only [symbols, get_def.yield, structDeclsNamed, if_pos hd]
          rw [ih (some d)]
          cases structDeclsNamed N.name rest <;> rfl
      · simp only [symbols, get_def.yield, structDeclsNamed, if_neg hd]
        exact ih out

/-- C4: for a member access inside a module and a nominal type name `N`,
`get_def` returns a declaration exactly when exactly one struct declaration
among the top-level symbols of the module is named `N`, and it is that one;
with none of that name it returns nothing and `convert` returns failure; with
two or more it stops on the assertion `!out` instead of picking one. -/
theorem get_def_unique_declaration (m : ModuleOp) (N : NamedType) :
    (∀ d, get_def (some m) N = .ok (some d) ↔ structDeclsNamed N.name m.body = [d]) ∧
    (structDeclsNamed N.name m.body = [] →
      get_def (some m) N = .ok none ∧
      ∀ st : State, st.tu = some m → fetch_record_type st.operands.record.type = some N →
        convert st = .ok (.failure, st.rewriter)) ∧
    (2 ≤ (structDeclsNamed N.name m.body).length →
      get_def (some m) N = .error (.assertion "!out") ∧
      ∀ st : State, st.tu = some m → fetch_record_type st.operands.record.type = some N →
        convert st = .error (.assertion "!out")) := by
  have key := symbols_yield N m.body none
  refine ⟨?_, ?_, ?_⟩
  · intro d
    simp only [get_def]
    rw [key]
    rcases hl : structDeclsNamed N.name m.body with _ | ⟨d1, _ | ⟨d2, tl⟩⟩ <;> simp
  · intro h0
    have hdef : get_def (some m) N = .ok none := by
      simp only [get_def]
      rw [key, h0]
    refine ⟨hdef, ?_⟩
    intro st htu hnt
    simp only [convert, hnt, htu, hdef]
  · intro h2
    have hdef : get_def (some m) N = .error (.assertion "!out") := by
      simp only [get_def]
      rw [key]
      rcases hl : structDeclsNamed N.name m.body with _ | ⟨d1, _ | ⟨d2, tl⟩⟩
      · rw [hl] at h2; simp at h2
      · rw [hl] at h2; simp at h2
      · rfl
    refine ⟨hdef, ?_⟩
    intro st htu hnt
    simp only [convert, hnt, htu, hdef]

/-- Witness of C4: a module with two struct declarations named `s`, besides a
union of that name and a struct `t`, trips the assertion. -/
theorem get_def_unique_declaration_witness :
    get_def (some ⟨[.structDecl ⟨"s", []⟩, .otherSymbol "hl.union" "s", .structDecl ⟨"t", []⟩,
      .structDecl ⟨"s", [.field "a" (.other "int")]⟩]⟩) ⟨"s"⟩ = .error (.assertion "!out") :=
  ((get_def_unique_declaration
    ⟨[.structDecl ⟨"s", []⟩, .otherSymbol "hl.union" "s", .structDecl ⟨"t", []⟩,
      .structDecl ⟨"s", [.field "a" (.other "int")]⟩]⟩ ⟨"s"⟩).2.2 (by decide)).1

/-! ## Member lowering: the record type -/

/-- C5, counterexample: the nominal type `s` under a pointer and an lvalue is
obtained by applying two wrappers, its base is nominal, and yet
`fetch_record_type` returns no type for it. -/
theorem fetch_record_type_two_wrappers :
    (MType.lvalue (.pointer (.named ⟨"s"⟩))).isWrapper = true ∧
    (MType.lvalue (.pointer (.named ⟨"s"⟩))).base = .named ⟨"s"⟩ ∧
    fetch_record_type (.lvalue (.pointer (.named ⟨"s"⟩))) = none := by
  decide

/-- C5, amended: `fetch_record_type` returns the nominal type `R` exactly for
the types made of one wrapper, pointer or lvalue, directly around `R`; for
every other type, among them every type whose base is not nominal, it returns
no type, and then `convert` returns failure and leaves the rewriter as it
was. -/
theorem fetch_record_type_one_wrapper (type : MType) :
    (∀ R, fetch_record_type type = some R ↔
      (type = .lvalue (.named R) ∨ type = .pointer (.named R))) ∧
    ((∀ R, type.base ≠ .named R) → fetch_record_type type = none) ∧
    (∀ st : State, st.operands.record.type = type → fetch_record_type type = none →
      convert st = .ok (.failure, st.rewriter)) := by
  refine ⟨?_, ?_, ?_⟩
  · intro R
    cases type with
    | named t => simp [fetch_record_type]
    | other d => simp [fetch_record_type]
    | lvalue x => cases x <;> simp [fetch_record_type, fetch_record_type.unwrap]
    | pointer x => cases x <;> simp [fetch_record_type, fetch_record_type.unwrap]
  · intro hbase
    cases type with
    | named t => rfl
    | other d => rfl
    | lvalue x =>
      cases x with
      | named t => exact absurd rfl (hbase t)
      | _ => rfl
    | pointer x =>
      cases x with
      | named t => exact absurd rfl (hbase t)
      | _ => rfl
  · intro st hty hnone
    simp only [convert, hty, hnone]

/-- Witness of C5 as amended: the record operand has the nominal type `s`
itself, without a wrapper, so `convert` returns failure. -/
theorem fetch_record_type_one_wrapper_witness :
    convert { op := ⟨0, .other "int", "a"⟩, operands := ⟨⟨0, .named ⟨"s"⟩⟩⟩,
              rewriter := ⟨[]⟩, tu := none } = .ok (.failure, ⟨[]⟩) :=
  (fetch_record_type_one_wrapper (.named ⟨"s"⟩)).2.2
    { op := ⟨0, .other "int", "a"⟩, operands := ⟨⟨0, .named ⟨"s"⟩⟩⟩,
      rewriter := ⟨[]⟩, tu := none } rfl rfl

/-! ## Scope splicing: positions in lists -/

theorem getD_append_length {α : Type} (front : List α) (x : α) (tl : List α) (d : α) :
    (front ++ x :: tl).getD front.length d = x := by
  induction front with
  | nil => rfl
  | cons a as ih => simpa using ih

theorem getElem?_append_length {α : Type} (front : List α) (x : α) (tl : List α) :
    (front ++ x :: tl)[front.length]? = some x := by
  induction front with
  | nil => simp
  | cons a as ih => simpa using ih

theorem set_append_length {α : Type} (front : List α) (x y : α) (tl : List α) :
    (front ++ x :: tl).set front.length y = front ++ y :: tl := by
  induction front with
  | nil => rfl
  | cons a as ih => simp [ih]

theorem eraseIdx_append_length {α : Type} (front : List α) (x : α) (tl : List α) :
    (front ++ x :: tl).eraseIdx front.length = front ++ tl := by
  induction front with
  | nil => rfl
  | cons a as ih => simpa using ih

theorem countBlocksBlock_append (a b : Block) :
    countBlocksBlock (a ++ b) = countBlocksBlock a + countBlocksBlock b := by
  induction a with
  | nil => simp [countBlocksBlock]
  | cons o os ih => simp [countBlocksBlock, ih, Nat.add_assoc]

theorem countBlocksRegion_append (a b : Region) :
    countBlocksRegion (a ++ b) = countBlocksRegion a + countBlocksRegion b := by
  induction a with
  | nil => simp [countBlocksRegion]
  | cons o os ih =>
    have ih' : countBlocksRegion (os ++ b) = countBlocksRegion os + countBlocksRegion b := ih
    show countBlocksRegion (o :: (os ++ b)) = _
    simp only [countBlocksRegion, ih']; omega

/-- A region has a trailing scope exactly when its last block is some
operations followed by a scope. -/
theorem has_trailing_scope_iff (blocks : Region) :
    has_trailing_scope blocks = true ↔
      ∃ front ops body, blocks = front ++ [ops ++ [Operation.scope body]] := by
  constructor
  · intro h
    unfold has_trailing_scope at h
    cases hb : blocks.getLast? with
    | none => simp [hb] at h
    | some last_block =>
      cases hl : last_block.getLast? with
      | none => simp [hb, hl] at h
      | some o =>
        cases o with
        | op n r => simp [hb, hl] at h
        | scope body =>
          obtain ⟨front, hfront⟩ := List.getLast?_eq_some_iff.1 hb
          obtain ⟨ops, hops⟩ := List.getLast?_eq_some_iff.1 hl
          exact ⟨front, ops, body, by rw [hfront, hops]⟩
  · rintro ⟨front, ops, body, rfl⟩
    simp [has_trailing_scope]

theorem has_trailing_scope_shape (front : Region) (ops : Block) (body : Region) :
    has_trailing_scope (front ++ [ops ++ [Operation.scope body]]) = true :=
  (has_trailing_scope_iff _).2 ⟨front, ops, body, rfl⟩

/-- Whether a region has a trailing scope is a matter of its last block. -/
theorem has_trailing_scope_append (front rest : Region) (h : rest ≠ []) :
    has_trailing_scope (front ++ rest) = has_trailing_scope rest := by
  simp only [has_trailing_scope, List.getLast?_append_of_ne_nil front h]

theorem opAt?_shape (front : Region) (ops : Block) (o : Operation) (tl : Block)
    (rest : Region) :
    opAt? (front ++ (ops ++ o :: tl) :: rest) front.length ops.length = some o := by
  simp only [opAt?, getElem?_append_length]

theorem inlineRegionBefore_shape (front : Region) (ops : Block) (body : Region) :
    inlineRegionBefore (front ++ [ops ++ [Operation.scope body]]) front.length ops.length
      = front ++ (ops ++ [Operation.scope []]) :: body := by
  simp only [inlineRegionBefore, opAt?_shape, getD_append_length, set_append_length,
    List.append_assoc, List.cons_append, List.nil_append]

theorem mergeBlockBefore_shape (front : Region) (ops : Block) (o : Operation) (b1 : Block)
    (rest : Region) :
    mergeBlockBefore (front ++ (ops ++ [o]) :: b1 :: rest) (front.length + 1) front.length
      ops.length = front ++ (ops ++ b1 ++ [o]) :: rest := by
  have hsrc : (front ++ (ops ++ [o]) :: b1 :: rest).getD (front.length + 1) [] = b1 := by
    have := getD_append_length (front ++ [ops ++ [o]]) b1 rest []
    simpa using this
  have herase : ∀ x : Block, (front ++ x :: b1 :: rest).eraseIdx (front.length + 1)
      = front ++ x :: rest := by
    intro x
    have := eraseIdx_append_length (front ++ [x]) b1 rest
    simpa using this
  simp only [mergeBlockBefore, hsrc, getD_append_length, set_append_length, herase,
    List.take_left', List.drop_left']

/-- One round on a region whose last block is `ops` followed by a scope. With
a body of no block the merge is handed the null block. With the body blocks
`b1, rest` the operations of `b1` come between `ops` and the scope, `rest`
follows as blocks of the region, and the scope, its body empty now, is still
the last operation of its block: its erasure is recorded. -/
theorem splice_body_shape (front : Region) (ops : Block) (body : Region)
    (erased : List (Nat × Nat)) :
    splice.body (front ++ [ops ++ [Operation.scope body]]) erased =
      match body with
      | [] => .error .nullDereference
      | b1 :: rest =>
        .ok (front ++ (ops ++ b1 ++ [Operation.scope []]) :: rest,
          erased ++ [(front.length, ops.length + b1.length)]) := by
  have hlen : (front ++ [ops ++ [Operation.scope body]]).length - 1 = front.length := by simp
  have hget : (front ++ [ops ++ [Operation.scope body]]).getD front.length [] =
      ops ++ [Operation.scope body] := getD_append_length front _ [] []
  have hpos : (ops ++ [Operation.scope body]).length - 1 = ops.length := by simp
  simp only [splice.body, hlen, hget, hpos, opAt?_shape, inlineRegionBefore_shape]
  cases body with
  | nil => simp [getNextNode]
  | cons b1 rest =>
    have hnext : getNextNode (front ++ (ops ++ [Operation.scope []]) :: b1 :: rest) front.length
        = some (front.length + 1) := by simp [getNextNode]
    have hsrc : (front ++ (ops ++ [Operation.scope []]) :: b1 :: rest).getD (front.length + 1) []
        = b1 := by
      have := getD_append_length (front ++ [ops ++ [Operation.scope []]]) b1 rest []
      simpa using this
    simp only [hnext, hsrc, mergeBlockBefore_shape, eraseOp]

/-! ## Scope splicing: the recorded erasures -/

theorem applyErasures_cons (reg : Region) (p : Nat × Nat) (erased : List (Nat × Nat)) :
    applyErasures reg (p :: erased) =
      (applyErasures reg erased).set p.1
        (((applyErasures reg erased).getD p.1 []).eraseIdx p.2) := rfl

theorem applyErasures_length (reg : Region) (erased : List (Nat × Nat)) :
    (applyErasures reg erased).length = reg.length := by
  induction erased with
  | nil => rfl
  | cons p ps ih => rw [applyErasures_cons, List.length_set, ih]

/-- Erasures recorded in the blocks of `front` leave the blocks behind `front`
alone. -/
theorem applyErasures_append (front rest : Region) (erased : List (Nat × Nat))
    (h : ∀ p ∈ erased, p.1 < front.length) :
    applyErasures (front ++ rest) erased = applyErasures front erased ++ rest := by
  induction erased with
  | nil => rfl
  | cons p ps ih =>
    have hp : p.1 < (applyErasures front ps).length := by
      rw [applyErasures_length]; exact h p (List.mem_cons_self _ _)
    rw [applyErasures_cons, applyErasures_cons, ih (fun q hq => h q (List.mem_cons_of_mem _ hq)),
      List.set_append_left _ _ hp, List.getD_append _ _ _ _ hp]

theorem countBlocksRegion_shape (front : Region) (ops : Block) (body : Region) :
    countBlocksRegion (front ++ [ops ++ [Operation.scope body]]) =
      countBlocksRegion front + countBlocksBlock ops + countBlocksRegion body + 1 := by
  simp only [countBlocksRegion_append, countBlocksBlock_append, countBlocksRegion,
    countBlocksBlock, Operation.countBlocks]
  omega

/-- Each round of the loop that returns has unlinked one block. -/
theorem splice_body_count (blocks blocks' : Region) (erased erased' : List (Nat × Nat))
    (h : has_trailing_scope blocks = true)
    (hb : splice.body blocks erased = .ok (blocks', erased')) :
    countBlocksRegion blocks' + 1 = countBlocksRegion blocks := by
  obtain ⟨front, ops, body, rfl⟩ := (has_trailing_scope_iff blocks).1 h
  rw [splice_body_shape] at hb
  cases body with
  | nil => cases hb
  | cons b1 rest =>
    simp only [Except.ok.injEq, Prod.mk.injEq] at hb
    obtain ⟨hb, -⟩ := hb
    subst hb
    rw [countBlocksRegion_shape]
    simp only [countBlocksRegion_append, countBlocksBlock_append, countBlocksRegion,
      countBlocksBlock, Operation.countBlocks]
    omega

/-- The only fault of a round on a region with a trailing scope is the use of
the null block. -/
theorem splice_body_error (blocks : Region) (erased : List (Nat × Nat)) (f : Fault)
    (h : has_trailing_scope blocks = true)
    (hb : splice.body blocks erased = .error f) : f = .nullDereference := by
  obtain ⟨front, ops, body, rfl⟩ := (has_trailing_scope_iff blocks).1 h
  rw [splice_body_shape] at hb
  cases body with
  | nil => simp only [Except.error.injEq] at hb; exact hb.symm
  | cons b1 rest => cases hb

theorem has_trailing_scope_count_pos (blocks : Region) (h : has_trailing_scope blocks = true) :
    0 < countBlocksRegion blocks := by
  obtain ⟨front, ops, body, rfl⟩ := (has_trailing_scope_iff blocks).1 h
  rw [countBlocksRegion_shape]
  omega

/-- With fuel for at least as many rounds as the region holds blocks, the loop
does what it does with any other such fuel. -/
theorem splice_loop_fuel :
    ∀ (n m : Nat) (reg : Region) (erased : List (Nat × Nat)),
      countBlocksRegion reg ≤ n → countBlocksRegion reg ≤ m →
      splice.loop n reg erased = splice.loop m reg erased := by
  intro n
  induction n with
  | zero =>
    intro m reg erased hn _
    have hno : has_trailing_scope reg = false := by
      cases h : has_trailing_scope reg with
      | false => rfl
      | true => have := has_trailing_scope_count_pos reg h; omega
    cases m <;> simp [splice.loop, hno]
  | succ n ih =>
    intro m reg erased hn hm
    cases h : has_trailing_scope reg with
    | false => cases m <;> simp [splice.loop, h]
    | true =>
      have hpos := has_trailing_scope_count_pos reg h
      cases m with
      | zero => omega
      | succ m =>
        simp only [splice.loop, h, if_true]
        cases hb : splice.body reg erased with
        | error f => rfl
        | ok r =>
          obtain ⟨reg', erased'⟩ := r
          have := splice_body_count reg reg' erased erased' h hb
          exact ih m reg' erased' (by omega) (by omega)

/-- The loop on a region without a trailing scope returns at once. -/
theorem splice_loop_of_no_trailing_scope (fuel : Nat) (reg : Region)
    (erased : List (Nat × Nat)) (h : has_trailing_scope reg = false) :
    splice.loop fuel reg erased = .ok (reg, erased) := by
  cases fuel <;> simp [splice.loop, h]

/-- The loop on a region with a trailing scope of no block stops, whatever the
fuel. -/
theorem splice_loop_empty_body (fuel : Nat) (front : Region) (ops : Block)
    (erased : List (Nat × Nat)) :
    ∃ f, splice.loop fuel (front ++ [ops ++ [Operation.scope []]]) erased = .error f := by
  cases fuel with
  | zero => exact ⟨.outOfFuel, by simp [splice.loop, has_trailing_scope_shape]⟩
  | succ k =>
    refine ⟨.nullDereference, ?_⟩
    have hb := splice_body_shape front ops [] erased
    simp only at hb
    simp only [splice.loop, has_trailing_scope_shape, if_true, hb]

/-- The loop of `splice`, unrolled once. -/
theorem splice_unfold (reg : Region) :
    splice reg =
      if has_trailing_scope reg then
        match splice.body reg [] with
        | .error f => .error f
        | .ok (reg', erased') => splice.loop (countBlocksRegion reg') reg' erased'
      else .ok (reg, []) := by
  cases h : has_trailing_scope reg with
  | false =>
    unfold splice
    cases countBlocksRegion reg <;> simp [splice.loop, h]
  | true =>
    have hpos := has_trailing_scope_count_pos reg h
    unfold splice
    cases hc : countBlocksRegion reg with
    | zero => omega
    | succ k =>
      simp only [splice.loop, h, if_true]
      cases hb : splice.body reg [] with
      | error f => rfl
      | ok r =>
        obtain ⟨reg', erased'⟩ := r
        have := splice_body_count reg reg' [] erased' h hb
        exact splice_loop_fuel k _ reg' erased' (by omega) (le_refl _)

theorem splice_loop_never_outOfFuel :
    ∀ (n : Nat) (reg : Region) (erased : List (Nat × Nat)), countBlocksRegion reg ≤ n →
      splice.loop n reg erased ≠ .error .outOfFuel := by
  intro n
  induction n with
  | zero =>
    intro reg erased hn
    have hno : has_trailing_scope reg = false := by
      cases h : has_trailing_scope reg with
      | false => rfl
      | true => have := has_trailing_scope_count_pos reg h; omega
    simp [splice.loop, hno]
  | succ n ih =>
    intro reg erased hn
    cases h : has_trailing_scope reg with
    | false => simp [splice.loop, h]
    | true =>
      simp only [splice.loop, h, if_true]
      cases hb : splice.body reg erased with
      | error f =>
        have := splice_body_error reg erased f h hb
        subst this
        simp
      | ok r =>
        obtain ⟨reg', erased'⟩ := r
        have := splice_body_count reg reg' erased erased' h hb
        exact ih reg' erased' (by omega)

/-- The loop never stops for want of fuel: `splice` is total. -/
theorem splice_never_outOfFuel (reg : Region) : splice reg ≠ .error .outOfFuel :=
  splice_loop_never_outOfFuel _ reg [] (le_refl _)

/-- What the loop returns has no trailing scope. -/
theorem splice_loop_ok_no_trailing_scope :
    ∀ (n : Nat) (reg reg' : Region) (erased erased' : List (Nat × Nat)),
      splice.loop n reg erased = .ok (reg', erased') → has_trailing_scope reg' = false := by
  intro n
  induction n with
  | zero =>
    intro reg reg' erased erased' hs
    cases h : has_trailing_scope reg with
    | false =>
      simp only [splice.loop, h, Bool.false_eq_true, if_false, Except.ok.injEq,
        Prod.mk.injEq] at hs
      rw [← hs.1]; exact h
    | true => simp [splice.loop, h] at hs
  | succ n ih =>
    intro reg reg' erased erased' hs
    cases h : has_trailing_scope reg with
    | false =>
      simp only [splice.loop, h, Bool.false_eq_true, if_false, Except.ok.injEq,
        Prod.mk.injEq] at hs
      rw [← hs.1]; exact h
    | true =>
      simp only [splice.loop, h, if_true] at hs
      cases hb : splice.body reg erased with
      | error f => rw [hb] at hs; cases hs
      | ok r =>
        obtain ⟨reg1, erased1⟩ := r
        rw [hb] at hs
        exact ih reg1 reg' erased1 erased' hs

/-- What `splice` returns has no trailing scope. -/
theorem splice_ok_no_trailing_scope (reg reg' : Region) (erased : List (Nat × Nat))
    (h : splice reg = .ok (reg', erased)) : has_trailing_scope reg' = false :=
  splice_loop_ok_no_trailing_scope _ reg reg' [] erased h

theorem splice_of_no_trailing_scope (reg : Region) (h : has_trailing_scope reg = false) :
    splice reg = .ok (reg, []) :=
  splice_loop_of_no_trailing_scope _ reg [] h

/-- The regions that `matchAndRewrite.loop` returns have no trailing scope. -/
theorem matchAndRewrite_loop_ok (rs : List Region) (rs' : List (Region × List (Nat × Nat)))
    (h : matchAndRewrite.loop rs = .ok rs') :
    rs'.length = rs.length ∧ ∀ r ∈ rs', has_trailing_scope r.1 = false := by
  induction rs generalizing rs' with
  | nil =>
    simp only [matchAndRewrite.loop, Except.ok.injEq] at h
    subst h
    exact ⟨rfl, fun r hr => by cases hr⟩
  | cons r rs ih =>
    simp only [matchAndRewrite.loop] at h
    cases hr : splice r with
    | error f => rw [hr] at h; cases h
    | ok r' =>
      rw [hr] at h
      cases hrs : matchAndRewrite.loop rs with
      | error f => rw [hrs] at h; cases h
      | ok rs1 =>
        rw [hrs] at h
        simp only [Except.ok.injEq] at h
        subst h
        obtain ⟨hlen, hall⟩ := ih rs1 hrs
        refine ⟨by simp [hlen], ?_⟩
        intro x hx
        rcases List.mem_cons.1 hx with rfl | hx
        · exact splice_ok_no_trailing_scope r x.1 x.2 hr
        · exact hall x hx

theorem getRegions_setRegions (op : Operation) (rs : List Region)
    (h : rs.length = op.getRegions.length) : (op.setRegions rs).getRegions = rs := by
  cases op with
  | op n regions => rfl
  | scope body =>
    simp only [Operation.getRegions, List.length_singleton] at h
    match rs, h with
    | [r], _ => rfl

/-- Whenever `matchAndRewrite` returns, it returns success, no region of the
operation has a trailing scope any more and the operation is legal. -/
theorem matchAndRewrite_ok_legal (op op' : Operation) (res : LogicalResult)
    (erased : List (List (Nat × Nat)))
    (h : matchAndRewrite op = .ok (res, op', erased)) :
    res = .success ∧ (∀ r ∈ op'.getRegions, has_trailing_scope r = false) ∧
      is_legal op' = true := by
  unfold matchAndRewrite at h
  cases hl : matchAndRewrite.loop op.getRegions with
  | error f => rw [hl] at h; cases h
  | ok rs =>
    rw [hl] at h
    simp only [Except.ok.injEq, Prod.mk.injEq] at h
    obtain ⟨hres, hop, -⟩ := h
    obtain ⟨hlen, hall⟩ := matchAndRewrite_loop_ok _ _ hl
    have hall' : ∀ r ∈ rs.map Prod.fst, has_trailing_scope r = false := by
      intro r hr
      obtain ⟨x, hx, rfl⟩ := List.mem_map.1 hr
      exact hall x hx
    have hregs : op'.getRegions = rs.map Prod.fst := by
      rw [← hop]; exact getRegions_setRegions op _ (by simp [hlen])
    refine ⟨hres.symm, by rw [hregs]; exact hall', ?_⟩
    simp only [is_legal, Operation.has_trailing_scope, hregs]
    cases hlast : (rs.map Prod.fst).getLast? with
    | none => rfl
    | some r =>
      have := hall' r (List.mem_of_getLast?_eq_some hlast)
      simp [this]

/-- Erasures recorded before the last block leave the last block alone. -/
theorem applyErasures_concat_last (front : Region) (last : Block) (erased : List (Nat × Nat))
    (h : ∀ p ∈ erased, p.1 + 1 < (front ++ [last]).length) :
    applyErasures (front ++ [last]) erased = applyErasures front erased ++ [last] :=
  applyErasures_append front [last] erased (fun p hp => by
    have := h p hp
    simp only [List.length_append, List.length_singleton] at this
    omega)

/-- With all recorded erasures before the last block, the region has a trailing
scope exactly when it has one once the erasures are applied. -/
theorem has_trailing_scope_applyErasures (reg : Region) (erased : List (Nat × Nat))
    (h : ∀ p ∈ erased, p.1 + 1 < reg.length) :
    has_trailing_scope (applyErasures reg erased) = has_trailing_scope reg := by
  rcases List.eq_nil_or_concat reg with rfl | ⟨front, last, rfl⟩
  · cases erased with
    | nil => rfl
    | cons p ps =>
      have := h p (List.mem_cons_self _ _)
      simp at this
  · rw [List.concat_eq_append] at h ⊢
    rw [applyErasures_concat_last front last erased h,
      has_trailing_scope_append _ _ (by simp), has_trailing_scope_append _ _ (by simp)]

/-- The erasures that the loop has recorded when it returns are all before the
last block of the region, when those recorded at its start are. -/
theorem splice_loop_erased_before_last :
    ∀ (n : Nat) (reg reg' : Region) (erased erased' : List (Nat × Nat)),
      (∀ p ∈ erased, p.1 + 1 < reg.length) →
      splice.loop n reg erased = .ok (reg', erased') →
      ∀ p ∈ erased', p.1 + 1 < reg'.length := by
  intro n
  induction n with
  | zero =>
    intro reg reg' erased erased' hinv hs
    cases ht : has_trailing_scope reg with
    | true => simp [splice.loop, ht] at hs
    | false =>
      simp only [splice.loop, ht, Bool.false_eq_true, if_false, Except.ok.injEq,
        Prod.mk.injEq] at hs
      obtain ⟨rfl, rfl⟩ := hs
      exact hinv
  | succ n ih =>
    intro reg reg' erased erased' hinv hs
    cases ht : has_trailing_scope reg with
    | false =>
      simp only [splice.loop, ht, Bool.false_eq_true, if_false, Except.ok.injEq,
        Prod.mk.injEq] at hs
      obtain ⟨rfl, rfl⟩ := hs
      exact hinv
    | true =>
      obtain ⟨front, ops, body, rfl⟩ := (has_trailing_scope_iff reg).1 ht
      simp only [splice.loop, ht, if_true] at hs
      cases body with
      | nil =>
        have hb := splice_body_shape front ops [] erased
        simp only at hb
        rw [hb] at hs
        cases hs
      | cons b1 rest =>
        have hb := splice_body_shape front ops (b1 :: rest) erased
        simp only at hb
        rw [hb] at hs
        simp only at hs
        cases rest with
        | nil =>
          obtain ⟨f, hf⟩ := splice_loop_empty_body n front (ops ++ b1)
            (erased ++ [(front.length, ops.length + b1.length)])
          rw [hf] at hs
          cases hs
        | cons r rs =>
          refine ih _ reg' _ erased' ?_ hs
          intro p hp
          simp only [List.length_append, List.length_cons]
          rcases List.mem_append.1 hp with hp | hp
          · have := hinv p hp
            simp only [List.length_append, List.length_singleton] at this
            omega
          · rw [List.mem_singleton] at hp
            subst hp
            simp only
            omega

/-- The only way `splice` does not return a region is the use of the null
block; a region it returns has no trailing scope. -/
theorem splice_ok_or_null (reg : Region) :
    (∃ reg' erased, splice reg = .ok (reg', erased) ∧ has_trailing_scope reg' = false) ∨
      splice reg = .error .nullDereference := by
  cases h : splice reg with
  | ok r => exact Or.inl ⟨r.1, r.2, rfl, splice_ok_no_trailing_scope reg r.1 r.2 h⟩
  | error f =>
    right
    have key : ∀ (n : Nat) (reg : Region) (erased : List (Nat × Nat)),
        splice.loop n reg erased = .error f → f ≠ .outOfFuel → f = .nullDereference := by
      intro n
      induction n with
      | zero =>
        intro reg erased hs hf
        cases ht : has_trailing_scope reg with
        | false => simp [splice.loop, ht] at hs
        | true =>
          simp only [splice.loop, ht, if_true, Except.error.injEq] at hs
          exact absurd hs.symm hf
      | succ n ih =>
        intro reg erased hs hf
        cases ht : has_trailing_scope reg with
        | false => simp [splice.loop, ht] at hs
        | true =>
          simp only [splice.loop, ht, if_true] at hs
          cases hb : splice.body reg erased with
          | error g =>
            rw [hb] at hs
            simp only [Except.error.injEq] at hs
            subst hs
            exact splice_body_error reg erased g ht hb
          | ok r =>
            obtain ⟨reg1, erased1⟩ := r
            rw [hb] at hs
            exact ih reg1 erased1 hs hf
    have hne : f ≠ .outOfFuel := by
      rintro rfl
      exact splice_never_outOfFuel reg h
    rw [key _ reg [] h hne]

/-- A trailing scope whose body has a single block: the round takes that
block, and leaves the scope, emptied and its erasure pending, at the end of
what is still the last block; the loop test finds it there and the next round
hands the null block to the merge. -/
theorem splice_one_block_body (front : Region) (ops b1 : Block) :
    splice (front ++ [ops ++ [Operation.scope [b1]]]) = .error .nullDereference := by
  have hb := splice_body_shape front ops [b1] []
  simp only at hb
  rw [splice_unfold, has_trailing_scope_shape]
  simp only [if_true, hb]
  have hpos := has_trailing_scope_count_pos
    (front ++ [ops ++ b1 ++ [Operation.scope []]]) (has_trailing_scope_shape front _ [])
  cases hc : countBlocksRegion (front ++ [ops ++ b1 ++ [Operation.scope []]]) with
  | zero => omega
  | succ k =>
    have hb2 := splice_body_shape front (ops ++ b1) []
      ([] ++ [(front.length, ops.length + b1.length)])
    simp only at hb2
    simp only [splice.loop, has_trailing_scope_shape, if_true, hb2]

/-- C6, the failing input: an operation whose only region ends in a scope with
a body of zero blocks. `splice` finds a trailing scope, inlines nothing, gets
the null block from `prev.getNextNode()` and hands it to `mergeBlockBefore`;
`matchAndRewrite` does not return. -/
theorem matchAndRewrite_empty_scope_body :
    has_trailing_scope [[Operation.op "hl.var" [], Operation.scope []]] = true ∧
    getNextNode
      (inlineRegionBefore [[Operation.op "hl.var" [], Operation.scope []]] 0 1) 0 = none ∧
    splice [[Operation.op "hl.var" [], Operation.scope []]] = .error .nullDereference ∧
    matchAndRewrite (.op "hl.func" [[[Operation.op "hl.var" [], Operation.scope []]]])
      = .error .nullDereference := by
  refine ⟨rfl, rfl, rfl, rfl⟩

/-- C7: splicing is idempotent. Running `splice` on the region that `splice`
returned gives the same region again: the returned region has no trailing
scope, so the second run changes nothing and records no erasure. The same
holds of the returned region with the recorded erasures applied. -/
theorem splice_idempotent (reg : Region) :
    Except.map Prod.fst (splice reg >>= fun r => splice r.1)
      = Except.map Prod.fst (splice reg) ∧
    ∀ reg' erased, splice reg = .ok (reg', erased) →
      has_trailing_scope reg' = false ∧ splice reg' = .ok (reg', []) ∧
      has_trailing_scope (applyErasures reg' erased) = false ∧
      splice (applyErasures reg' erased) = .ok (applyErasures reg' erased, []) := by
  have h2 : ∀ reg' erased, splice reg = .ok (reg', erased) →
      has_trailing_scope reg' = false ∧ splice reg' = .ok (reg', []) ∧
      has_trailing_scope (applyErasures reg' erased) = false ∧
      splice (applyErasures reg' erased) = .ok (applyErasures reg' erased, []) := by
    intro reg' erased h
    have hno := splice_ok_no_trailing_scope reg reg' erased h
    have hinv := splice_loop_erased_before_last _ reg reg' [] erased
      (fun p hp => by cases hp) h
    have hno' : has_trailing_scope (applyErasures reg' erased) = false := by
      rw [has_trailing_scope_applyErasures reg' erased hinv, hno]
    exact ⟨hno, splice_of_no_trailing_scope reg' hno, hno',
      splice_of_no_trailing_scope _ hno'⟩
  refine ⟨?_, h2⟩
  cases h : splice reg with
  | error f => rfl
  | ok r =>
    obtain ⟨reg', erased⟩ := r
    show Except.map Prod.fst (splice reg') = _
    rw [(h2 reg' erased h).2.1]
    rfl

/-- Witness of C7: the block `a` ends in a scope with the body blocks `b` and
`c`. `splice` returns the blocks `a, b, scope` and `c`, the emptied scope
being recorded for erasure, and splicing these blocks again returns them
unchanged; so does splicing the blocks `a, b` and `c` that are left once the
erasure is applied. -/
theorem splice_idempotent_witness :
    splice [[.op "a" [], .scope [[.op "b" []], [.op "c" []]]]]
      = .ok ([[.op "a" [], .op "b" [], .scope []], [.op "c" []]], [(0, 2)]) ∧
    splice [[.op "a" [], .op "b" [], .scope []], [.op "c" []]]
      = .ok ([[.op "a" [], .op "b" [], .scope []], [.op "c" []]], []) ∧
    splice [[.op "a" [], .op "b" []], [.op "c" []]]
      = .ok ([[.op "a" [], .op "b" []], [.op "c" []]], []) :=
  ⟨rfl,
    ((splice_idempotent [[.op "a" [], .scope [[.op "b" []], [.op "c" []]]]]).2
      [[.op "a" [], .op "b" [], .scope []], [.op "c" []]] [(0, 2)] rfl).2.1,
    ((splice_idempotent [[.op "a" [], .scope [[.op "b" []], [.op "c" []]]]]).2
      [[.op "a" [], .op "b" [], .scope []], [.op "c" []]] [(0, 2)] rfl).2.2.2⟩

/-- The erasure of a round is pending when the round ends. The last block is `a`
followed by a scope with the body blocks `b` and `c`; after one round the
former last block is `a, b` followed by the scope, emptied:
`rewriter.eraseOp` has recorded the erasure of the scope and has not yet
taken it out of its block. Were `b` the only block of the body, this scope
would still be a trailing scope of the region. -/
theorem splice_body_keeps_pending_scope :
    splice.body [[.op "a" [], .scope [[.op "b" []], [.op "c" []]]]] []
      = .ok ([[.op "a" [], .op "b" [], .scope []], [.op "c" []]], [(0, 2)]) ∧
    opAt? [[.op "a" [], .op "b" [], .scope []], [.op "c" []]] 0 2 = some (.scope []) ∧
    has_trailing_scope [[.op "a" [], .op "b" [], .scope []]] = true :=
  ⟨rfl, rfl, rfl⟩

/-- C9: `build_region` adds exactly one region to the operation state, a new one
whose pointer it returns. Without a callback the new region has zero blocks
and the builder keeps its insertion point. With a callback `f` the result is
that of one call of `f`, on the location of the state and on a builder in
which the new region holds exactly one block, empty, with the insertion point
in that block. -/
theorem build_region_one_region (bld : Builder) (st : OperationState) :
    (∀ callback : BuilderCallback,
      (build_region bld st callback).2.1
        = { st with regions := st.regions ++ [bld.store.length] } ∧
      (build_region bld st callback).2.2 = bld.store.length ∧
      bld.store[bld.store.length]? = none) ∧
    ((build_region bld st none).1.store = bld.store ++ [[]] ∧
      (build_region bld st none).1.store[bld.store.length]? = some [] ∧
      (build_region bld st none).1.ip = bld.ip) ∧
    (∀ f : Builder → Location → Builder,
      ∃ entry : Builder,
        (build_region bld st (some f)).1 = f entry st.location ∧
        entry.store = bld.store ++ [[[]]] ∧
        entry.store[bld.store.length]? = some [[]] ∧
        entry.ip = some ⟨bld.store.length, 0, 0⟩) := by
  refine ⟨?_, ?_, ?_⟩
  · intro callback
    cases callback <;> simp [build_region, OperationState.addRegion]
  · simp [build_region, OperationState.addRegion]
  · intro f
    refine ⟨(({ bld with store := bld.store ++ [[]] } : Builder).createBlock bld.store.length),
      rfl, ?_, ?_, ?_⟩
    · simp [Builder.createBlock, List.getD_eq_getElem?_getD]
    · simp [Builder.createBlock, List.getD_eq_getElem?_getD]
    · simp [Builder.createBlock, List.getD_eq_getElem?_getD]

/-- C10: every builder of `HighLevelOps.cpp` that owns regions returns exactly
when the callbacks it asserts are present, and the insertion point of the
builder is then the one from before the call, whatever the callbacks did to
it. -/
theorem builders_restore_insertion_point (bld : Builder) (st : OperationState) :
    (∀ rty expr, ipAfter (build_expr_trait bld st rty expr)
      = if expr.isSome then some bld.ip else none) ∧
    (∀ rty expr, ipAfter (SizeOfExprOp.build bld st rty expr)
      = if expr.isSome then some bld.ip else none) ∧
    (∀ rty expr, ipAfter (AlignOfExprOp.build bld st rty expr)
      = if expr.isSome then some bld.ip else none) ∧
    (∀ type name init alloc, ipAfter (VarDeclOp.build bld st type name init alloc)
      = some bld.ip) ∧
    (∀ name type constants, ipAfter (EnumDeclOp.build bld st name type constants)
      = some bld.ip) ∧
    (∀ name value init, ipAfter (EnumConstantOp.build bld st name value init)
      = some bld.ip) ∧
    (∀ name fields, ipAfter (build_record_like_decl bld st name fields) = some bld.ip) ∧
    (∀ name fields, ipAfter (StructDeclOp.build bld st name fields) = some bld.ip) ∧
    (∀ name fields, ipAfter (UnionDeclOp.build bld st name fields) = some bld.ip) ∧
    (∀ c t e, ipAfter (IfOp.build bld st c t e)
      = if c.isSome ∧ t.isSome then some bld.ip else none) ∧
    (∀ cond body, ipAfter (WhileOp.build bld st cond body)
      = if cond.isSome ∧ body.isSome then some bld.ip else none) ∧
    (∀ cond incr body, ipAfter (ForOp.build bld st cond incr body)
      = if body.isSome then some bld.ip else none) ∧
    (∀ body cond, ipAfter (DoOp.build bld st body cond)
      = if body.isSome then some bld.ip else none) ∧
    (∀ cond body, ipAfter (SwitchOp.build bld st cond body)
      = if cond.isSome then some bld.ip else none) ∧
    (∀ lhs body, ipAfter (CaseOp.build bld st lhs body)
      = if lhs.isSome then some bld.ip else none) ∧
    (∀ body, ipAfter (DefaultOp.build bld st body)
      = if body.isSome then some bld.ip else none) ∧
    (∀ label substmt, ipAfter (LabelStmt.build bld st label substmt)
      = if substmt.isSome then some bld.ip else none) := by
  refine ⟨?_, ?_, ?_, ?_, ?_, ?_, ?_, ?_, ?_, ?_, ?_, ?_, ?_, ?_, ?_, ?_, ?_⟩
  · intro rty expr; cases expr <;> rfl
  · intro rty expr; cases expr <;> rfl
  · intro rty expr; cases expr <;> rfl
  · intro type name init alloc; cases init <;> cases alloc <;> rfl
  · intro name type constants; cases constants <;> rfl
  · intro name value init; cases init <;> rfl
  · intro name fields; cases fields <;> rfl
  · intro name fields; cases fields <;> rfl
  · intro name fields; cases fields <;> rfl
  · intro c t e; cases c <;> cases t <;> cases e <;> rfl
  · intro cond body; cases cond <;> cases body <;> rfl
  · intro cond incr body; cases cond <;> cases incr <;> cases body <;> rfl
  · intro body cond; cases body <;> cases cond <;> rfl
  · intro cond body; cases cond <;> cases body <;> rfl
  · intro lhs body; cases lhs <;> cases body <;> rfl
  · intro body; cases body <;> rfl
  · intro label substmt; cases substmt <;> rfl

/-! ## Constant operations: folding -/

/-- C11: for each kind of constant operation, integer, float, array and
string, `fold` on an empty operand list returns the literal value attribute
of the operation, and on a non-empty operand list it stops on the failed
assertion instead of returning anything. -/
theorem constant_fold (op : ConstantOp) :
    (ConstantIntOp.fold op [] = .ok op.value ∧
      ConstantFloatOp.fold op [] = .ok op.value ∧
      ConstantArrayOp.fold op [] = .ok op.value ∧
      ConstantStringOp.fold op [] = .ok op.value) ∧
    (∀ (a : Attr) (rest : List Attr),
      ConstantIntOp.fold op (a :: rest) = .error (.assertion "constant has no operands") ∧
      ConstantFloatOp.fold op (a :: rest) = .error (.assertion "constant has no operands") ∧
      ConstantArrayOp.fold op (a :: rest) = .error (.assertion "constant has no operands") ∧
      ConstantStringOp.fold op (a :: rest) = .error (.assertion "constant has no operands")) :=
  ⟨⟨rfl, rfl, rfl, rfl⟩, fun _ _ => ⟨rfl, rfl, rfl, rfl⟩⟩

/-! ## Constant operations: printing and parsing -/

theorem filter_value_of_wellFormed (attrs : List (String × Attr))
    (h : ∀ p ∈ attrs, p.1 ≠ "value") :
    attrs.filter (fun p => !(p.1 == "value")) = attrs := by
  apply List.filter_eq_self.2
  intro p hp
  simp [h p hp]

theorem find_value_append (attrs : List (String × Attr)) (v : Attr)
    (h : ∀ p ∈ attrs, p.1 ≠ "value") :
    (attrs ++ [("value", v)]).find? (fun p => p.1 == "value") = some ("value", v) := by
  induction attrs with
  | nil => simp
  | cons p ps ih =>
    have hp : p.1 ≠ "value" := h p (List.mem_cons_self _ _)
    have hps : ∀ q ∈ ps, q.1 ≠ "value" := fun q hq => h q (List.mem_cons_of_mem _ hq)
    have hb : (p.1 == "value") = false := by simp [hp]
    simp only [List.cons_append, List.find?, hb]
    exact ih hps

theorem printOptionalAttrDict_getAttrs (op : ConstantOp) (h : op.WellFormed) :
    printOptionalAttrDict op.getAttrs ["value"] =
      match op.attrs with
      | [] => []
      | shown => [.attrDict shown] := by
  have hf : op.getAttrs.filter (fun p => !(List.contains ["value"] p.1)) = op.attrs := by
    simp only [ConstantOp.getAttrs]
    rw [List.filter_cons_of_neg (by simp)]
    apply List.filter_eq_self.2
    intro p hp
    simp [h p hp]
  simp only [printOptionalAttrDict, hf]

theorem ofState_value_last (attrs : List (String × Attr)) (v : Attr) (t : RType)
    (h : ∀ p ∈ attrs, p.1 ≠ "value") :
    ConstantOp.ofState { attributes := attrs ++ [("value", v)], types := [t] }
      = some { value := v, type := t, attrs := attrs } := by
  simp only [ConstantOp.ofState, find_value_append attrs v h, List.filter_append,
    filter_value_of_wellFormed attrs h]
  simp

theorem ofState_value_first (attrs : List (String × Attr)) (v : Attr) (t : RType)
    (h : ∀ p ∈ attrs, p.1 ≠ "value") :
    ConstantOp.ofState { attributes := ("value", v) :: attrs, types := [t] }
      = some { value := v, type := t, attrs := attrs } := by
  simp only [ConstantOp.ofState, List.find?]
  simp [filter_value_of_wellFormed attrs h]

/-- C20, counterexample: the text printed for an array constant is not parsed
back, `parseConstantArrayOp` being unimplemented; a float constant whose
attribute is not of type `f64` comes back with an `f64` attribute. -/
theorem constant_round_trip_fails :
    parseConstantArrayOp
        (printConstantArrayOp
          ⟨.array [.integer ⟨⟨32, 1⟩, false⟩], .highLevel "!hl.array" false, []⟩)
        ParsedOperationState.empty = .error .unimplemented ∧
    parseConstant parseConstantArrayOp
        (printConstantArrayOp
          ⟨.array [.integer ⟨⟨32, 1⟩, false⟩], .highLevel "!hl.array" false, []⟩)
      = none ∧
    (parseConstant parseConstantFloatOp
        (printConstantFloatOp
          ⟨.float ⟨"1.000000e+00"⟩ (.other "f32"), .highLevel "!hl.float" true, []⟩)).map
        (fun op => op.value) = some (.float ⟨"1.000000e+00"⟩ .f64) := by
  refine ⟨rfl, rfl, rfl⟩

/-- The integer constant `-3` of the signed type `!hl.int`, its attribute a
signed value of 32 bits, is printed as `-3 : !hl.int`. Parsing that text
reads `-3` into four bits, `1101`, and makes the attribute by
`llvm::APSInt(value, is_signed)` with `is_signed` true in the place of
`isUnsigned`: the attribute is the unsigned value 13 of four bits, and it is
printed as `13 : !hl.int`. The literal `5` of the same type comes back as an
unsigned attribute too and is printed as `5` again; for the unsigned type
`!hl.int< unsigned >` the attribute that comes back is signed. -/
theorem parseConstantIntOp_signedness :
    printConstantIntOp
        ⟨.integer ⟨⟨32, 4294967293⟩, false⟩, .highLevel "!hl.int" true, []⟩
      = [.integer (-3), .colon, .type (.highLevel "!hl.int" true)] ∧
    parseConstantIntOp.is_signed (.highLevel "!hl.int" true) = .ok true ∧
    (parseConstant parseConstantIntOp
        [.integer (-3), .colon, .type (.highLevel "!hl.int" true)]).map (fun op => op.value)
      = some (.integer ⟨⟨4, 13⟩, true⟩) ∧
    (parseConstant parseConstantIntOp
        [.integer (-3), .colon, .type (.highLevel "!hl.int" true)]).map printConstantIntOp
      = some [.integer 13, .colon, .type (.highLevel "!hl.int" true)] ∧
    (parseConstant parseConstantIntOp
        [.integer 5, .colon, .type (.highLevel "!hl.int" true)]).map (fun op => op.value)
      = some (.integer ⟨⟨4, 5⟩, true⟩) ∧
    (parseConstant parseConstantIntOp
        [.integer 5, .colon, .type (.highLevel "!hl.int" true)]).map printConstantIntOp
      = some [.integer 5, .colon, .type (.highLevel "!hl.int" true)] ∧
    (parseConstant parseConstantIntOp
        [.integer (-3), .colon, .type (.highLevel "!hl.int< unsigned >" false)]).map
        (fun op => op.value)
      = some (.integer ⟨⟨4, 13⟩, false⟩) := by
  refine ⟨rfl, rfl, rfl, rfl, rfl, rfl, rfl⟩

/-- C20, amended: parsing the text printed for a constant operation succeeds
for integer constants that are a boolean literal, for float constants and for
string constants. What is parsed has the result type and the remaining
attributes of the operation and a value attribute with the same literal, of
the type the parser gives it: `f64` for floats, none for strings. So the
operation itself comes back, and with it the same text when it is printed
again, when its value attribute already has that type; a string constant is
printed as the same text in every case. The parser for array constants is
unimplemented. Integer constants with a numeric literal are not covered. -/
theorem constant_print_parse_round_trip (op : ConstantOp) (hwf : op.WellFormed) :
    (∀ b, op.value = .bool b →
      parseConstant parseConstantIntOp (printConstantIntOp op) = some op) ∧
    (∀ v t, op.value = .float v t →
      parseConstant parseConstantFloatOp (printConstantFloatOp op)
        = some { op with value := .float v .f64 } ∧
      (t = .f64 → parseConstant parseConstantFloatOp (printConstantFloatOp op) = some op)) ∧
    (∀ s t, op.value = .string s t →
      parseConstant parseConstantStringOp (printConstantStringOp op)
        = some { op with value := .string s .none } ∧
      (t = .none → parseConstant parseConstantStringOp (printConstantStringOp op) = some op) ∧
      printConstantStringOp { op with value := .string s .none }
        = printConstantStringOp op) ∧
    (∀ text st, parseConstantArrayOp text st = .error .unimplemented) := by
  obtain ⟨value, type, attrs⟩ := op
  have hwf' : ∀ p ∈ attrs, p.1 ≠ "value" := hwf
  have hdict := fun val : Attr => printOptionalAttrDict_getAttrs ⟨val, type, attrs⟩ hwf
  refine ⟨?_, ?_, ?_, fun _ _ => rfl⟩
  · intro b hb
    simp only at hb
    subst hb
    cases b <;> cases attrs with
    | nil => rfl
    | cons p ps =>
      simp only [printConstantIntOp, printConstantOp, hdict, parseConstant]
      simp only [printAttributeWithoutType, parseConstantIntOp, parseOptionalKeyword,
        parseColonType, parseOptionalAttrDict, ParsedOperationState.empty, List.cons_append,
        List.nil_append, bind, Except.bind, pure, Except.pure, if_true, if_false]
      exact ofState_value_last (p :: ps) _ type hwf'
  · intro v t hv
    simp only at hv
    subst hv
    have hparse : parseConstant parseConstantFloatOp
        (printConstantFloatOp ⟨.float v t, type, attrs⟩) = some ⟨.float v .f64, type, attrs⟩ := by
      cases attrs with
      | nil => rfl
      | cons p ps =>
        simp only [printConstantFloatOp, printConstantOp, hdict, parseConstant,
          printAttributeWithoutType, parseConstantFloatOp, parseAttribute,
          parseColonType, parseOptionalAttrDict, ParsedOperationState.empty, List.cons_append,
          List.nil_append, bind, Except.bind, pure, Except.pure, if_true]
        exact ofState_value_first (p :: ps) _ type hwf'
    exact ⟨hparse, fun h => by rw [hparse, h]⟩
  · intro s t hs
    simp only at hs
    subst hs
    have hparse : parseConstant parseConstantStringOp
        (printConstantStringOp ⟨.string s t, type, attrs⟩)
          = some ⟨.string s .none, type, attrs⟩ := by
      cases attrs with
      | nil => rfl
      | cons p ps =>
        simp only [printConstantStringOp, printConstantOp, hdict, parseConstant,
          printAttributeWithoutType, parseConstantStringOp, parseAttribute,
          parseColonType, parseOptionalAttrDict, ParsedOperationState.empty, List.cons_append,
          List.nil_append, bind, Except.bind, pure, Except.pure]
        exact ofState_value_first (p :: ps) _ type hwf'
    refine ⟨hparse, fun h => by rw [hparse, h], ?_⟩
    simp only [printConstantStringOp, printConstantOp, hdict, printAttributeWithoutType]

/-- Witness of C20 as amended: the float constant `1.5` of type `!hl.double`,
its attribute of type `f64`, with one more attribute, is printed and parsed
back. -/
theorem constant_print_parse_round_trip_witness :
    parseConstant parseConstantFloatOp
      (printConstantFloatOp ⟨.float ⟨"1.500000e+00"⟩ .f64, .highLevel "!hl.double" true,
        [("loc", .string "here" .none)]⟩)
      = some ⟨.float ⟨"1.500000e+00"⟩ .f64, .highLevel "!hl.double" true,
          [("loc", .string "here" .none)]⟩ :=
  ((constant_print_parse_round_trip
    ⟨.float ⟨"1.500000e+00"⟩ .f64, .highLevel "!hl.double" true,
      [("loc", .string "here" .none)]⟩
    (by intro p hp; simp at hp; subst hp; decide)).2.1 ⟨"1.500000e+00"⟩ .f64 rfl).2 rfl

namespace cg

/-! ## Code generation driver: running driver functions -/

@[simp] theorem bind_eq {α β : Type} (m : M α) (f : α → M β) : (m >>= f) = M.bind m f := rfl

@[simp] theorem pure_eq {α : Type} (a : α) : (pure a : M α) = M.pure a := rfl

@[simp] theorem bind_apply {α β : Type} (m : M α) (f : α → M β) (drv : Driver) :
    M.bind m f drv = match m drv with
      | (.ok a, drv') => f a drv'
      | (.error e, drv') => (.error e, drv') := rfl

@[simp] theorem pure_apply {α : Type} (a : α) (drv : Driver) : M.pure a drv = (.ok a, drv) := rfl

@[simp] theorem raise_apply {α : Type} (e : Raised) (drv : Driver) :
    (raise e : M α) drv = (.error e, drv) := rfl

@[simp] theorem getDriver_apply (drv : Driver) : getDriver drv = (.ok drv, drv) := rfl

@[simp] theorem assertThat_true (msg : String) (drv : Driver) :
    assertThat true msg drv = (.ok (), drv) := rfl

@[simp] theorem assertThat_false (msg : String) (drv : Driver) :
    assertThat false msg drv = (.error (.assertion msg), drv) := rfl

@[simp] theorem get_global_value_apply (name : String) (drv : Driver) :
    get_global_value name drv = (.ok (findFunc name drv.module), drv) := rfl

@[simp] theorem add_deferred_decl_to_emit_apply (decl : Decl) (drv : Driver) :
    add_deferred_decl_to_emit decl drv =
      (.ok (), { drv with deferred_decls_to_emit := drv.deferred_decls_to_emit ++ [decl] }) :=
  rfl

@[simp] theorem set_deferred_decl_apply (name : String) (decl : Decl) (drv : Driver) :
    set_deferred_decl name decl drv =
      (.ok (), { drv with deferred_decls :=
        drv.deferred_decls.filter (fun p => !(p.1 == name)) ++ [(name, decl)] }) := rfl

@[simp] theorem append_to_module_apply (decl : Decl) (drv : Driver) :
    append_to_module decl drv =
      (.ok (), { drv with module := drv.module ++ [.decl decl.kind decl.mangled_name] }) := rfl

@[simp] theorem receive_deferred_decls_to_emit_apply (drv : Driver) :
    receive_deferred_decls_to_emit drv =
      (.ok drv.deferred_decls_to_emit, { drv with deferred_decls_to_emit := [] }) := rfl

theorem build_global_head (decl : Decl) (drv : Driver)
    (h : build_global.asserted decl drv = true) :
    decl.kind.isValueDecl = true ∧ decl.hasWeakRefAttr = false ∧ decl.hasAliasAttr = false ∧
    decl.hasIFuncAttr = false ∧ decl.hasCPUDispatchAttr = false ∧ drv.lang.CUDA = false ∧
    drv.lang.OpenMP = false := by
  simpa [build_global.asserted, and_assoc] using h

/-! ## Code generation driver: the policy of `build_global` -/

/-- C14, counterexample: a function declaration without a body that forces an
externally visible definition is not deferred; `build_global` raises the
unimplemented error and records nothing. -/
theorem build_global_forced_declaration_raises :
    build_global
      { kind := .Function, mangled_name := "f", doesThisDeclarationHaveABody := false,
        doesDeclarationForceExternallyVisibleDefinition := true } {}
      = (.error (.unimplemented "build_global FunctionDecl"), {}) := rfl

/-- C14, amended: for every function declaration without a body that forces an
externally visible definition, `build_global` raises the unimplemented error
`build_global FunctionDecl`; the state of the driver is as before, so the
declaration is neither emitted nor recorded for later emission. -/
theorem build_global_forced_declaration (decl : Decl) (drv : Driver)
    (hpre : build_global.asserted decl drv = true)
    (hfn : decl.kind.isFunctionDecl = true)
    (hbody : decl.doesThisDeclarationHaveABody = false)
    (hforce : decl.doesDeclarationForceExternallyVisibleDefinition = true) :
    build_global decl drv = (.error (.unimplemented "build_global FunctionDecl"), drv) := by
  obtain ⟨h1, h2, h3, h4, h5, h6, h7⟩ := build_global_head decl drv hpre
  simp [build_global, h1, h2, h3, h4, h5, h6, h7, hfn, hbody, hforce]

/-- Witness of C14 as amended: a C++ method declared without a body. -/
theorem build_global_forced_declaration_witness :
    build_global
      { kind := .CXXMethod, mangled_name := "m",
        doesDeclarationForceExternallyVisibleDefinition := true }
      { deferred_decls_to_emit := [{ kind := .Function, mangled_name := "g" }] }
      = (.error (.unimplemented "build_global FunctionDecl"),
          { deferred_decls_to_emit := [{ kind := .Function, mangled_name := "g" }] }) :=
  build_global_forced_declaration _ _ rfl rfl rfl rfl


@[simp] theorem must_be_emitted_apply (glob : Decl) (drv : Driver) :
    must_be_emitted glob drv =
      if drv.lang.EmitAllDecls then (.error (.assertion "EmitAllDecls NYI"), drv)
      else if drv.options.keep_static_consts then
        (.error (.assertion "KeepStaticConsts NYI"), drv)
      else (.ok glob.DeclMustBeEmitted, drv) := by
  cases h1 : drv.lang.EmitAllDecls <;> cases h2 : drv.options.keep_static_consts <;>
    simp [must_be_emitted, h1, h2]

/-- Whatever `must_be_emitted` answers, it leaves the state as it was, and its
answer is that of clang. -/
theorem must_be_emitted_ok (glob : Decl) (drv drv' : Driver) (b : Bool)
    (h : must_be_emitted glob drv = (.ok b, drv')) :
    drv' = drv ∧ b = glob.DeclMustBeEmitted ∧ drv.lang.EmitAllDecls = false ∧
      drv.options.keep_static_consts = false := by
  rw [must_be_emitted_apply] at h
  cases h1 : drv.lang.EmitAllDecls <;> cases h2 : drv.options.keep_static_consts <;>
    simp [h1, h2] at h
  exact ⟨h.2.symm, h.1.symm, rfl, rfl⟩

theorem may_be_emitted_eagerly_apply (glob : Decl) (drv : Driver) :
    may_be_emitted_eagerly glob drv =
      if drv.lang.OpenMP then (.error (.assertion "not supported"), drv)
      else if glob.kind.isFunctionDecl then
        if glob.isImplicitInstantiation then
          (.error (.unimplemented "implicit template specialization emition"), drv)
        else if glob.isTemplated then (.error (.assertion "templates NYI"), drv)
        else (.ok true, drv)
      else if glob.kind.isVarDecl then
        if glob.getInlineVariableDefinitionKind = .WeakUnknown then
          (.error (.unimplemented "inline variable definitions"), drv)
        else (.ok true, drv)
      else (.error (.unimplemented "unsupported value decl"), drv) := by
  cases h0 : drv.lang.OpenMP <;> cases h1 : glob.kind.isFunctionDecl <;>
    cases h2 : glob.kind.isVarDecl <;> cases h3 : glob.isImplicitInstantiation <;>
    cases h4 : glob.isTemplated <;>
    by_cases hk : glob.getInlineVariableDefinitionKind = .WeakUnknown <;>
    simp [may_be_emitted_eagerly, h0, h1, h2, h3, h4, hk]

/-- Whatever `may_be_emitted_eagerly` answers, it leaves the state as it
was. -/
theorem may_be_emitted_eagerly_state (glob : Decl) (drv : Driver) :
    (may_be_emitted_eagerly glob drv).2 = drv := by
  rw [may_be_emitted_eagerly_apply]
  repeat' split
  all_goals rfl

theorem may_be_emitted_eagerly_ok (glob : Decl) (drv drv' : Driver) (b : Bool)
    (h : may_be_emitted_eagerly glob drv = (.ok b, drv')) : drv' = drv := by
  have := may_be_emitted_eagerly_state glob drv
  rw [h] at this
  exact this

/-- C12, counterexample: a file-scope variable definition that must be emitted
and may be emitted eagerly is not emitted; `build_global` calls
`build_global_definition`, which raises the unimplemented error of
`build_global_var_definition`. The definition of a C++ method fares alike. -/
theorem build_global_eager_variable_raises :
    (({ kind := .Var, mangled_name := "v", isThisDeclarationADefinition := .Definition,
        DeclMustBeEmitted := true } : Decl).isDefinition = true ∧
      must_be_emitted
        { kind := .Var, mangled_name := "v", isThisDeclarationADefinition := .Definition,
          DeclMustBeEmitted := true } {} = (.ok true, {}) ∧
      may_be_emitted_eagerly
        { kind := .Var, mangled_name := "v", isThisDeclarationADefinition := .Definition,
          DeclMustBeEmitted := true } {} = (.ok true, {}) ∧
      build_global
        { kind := .Var, mangled_name := "v", isThisDeclarationADefinition := .Definition,
          DeclMustBeEmitted := true } {}
        = (.error (.unimplemented "build_global_var_definition"), {})) ∧
    build_global
      { kind := .CXXMethod, mangled_name := "m", doesThisDeclarationHaveABody := true,
        DeclMustBeEmitted := true } {}
      = (.error (.unimplemented "cxx methods"), {}) :=
  ⟨⟨rfl, rfl, rfl, rfl⟩, rfl⟩

/-! ## Code generation driver: the definition builder -/

theorem findFunc_some (name : String) :
    ∀ (module : List TopLevelOp) (op : Nat), findFunc name module = some op →
      ∃ fn, module[op]? = some (.func fn) ∧ fn.name = name := by
  intro module
  induction module with
  | nil => intro op h; simp [findFunc] at h
  | cons x xs ih =>
    intro op h
    cases x with
    | decl k n =>
      simp only [findFunc, Option.map_eq_some'] at h
      obtain ⟨i, hi, rfl⟩ := h
      obtain ⟨fn, hfn, hname⟩ := ih i hi
      exact ⟨fn, by simpa using hfn, hname⟩
    | func f =>
      by_cases hf : f.name = name
      · simp only [findFunc, if_pos hf, Option.some.injEq] at h
        subst h
        exact ⟨f, by simp, hf⟩
      · simp only [findFunc, if_neg hf, Option.map_eq_some'] at h
        obtain ⟨i, hi, rfl⟩ := h
        obtain ⟨fn, hfn, hname⟩ := ih i hi
        exact ⟨fn, by simpa using hfn, hname⟩

/-- The definition builder on a function that has no operation yet: the
prototype is made at the end of the module and its body is built. -/
theorem build_global_function_definition_fresh (decl : Decl) (drv : Driver)
    (hfn : decl.kind.isFunctionDecl = true) (hcuda : drv.lang.CUDA = false)
    (hfind : findFunc decl.mangled_name drv.module = none) :
    build_global_function_definition decl drv =
      (afterBody decl drv.module.length,
        { drv with module := drv.module ++ [.func ⟨decl.mangled_name, false⟩],
                   bodies_built := drv.bodies_built ++ [decl.mangled_name] }) := by
  simp only [build_global_function_definition, bind_eq, bind_apply, hfn, assertThat_true,
    getDriver_apply, hcuda, Bool.not_false, build_function_prototype, hfind, isDeclaration,
    List.getElem?_concat_length, Bool.not_true, Bool.false_eq_true, if_false,
    build_function_body, set_append_length, afterBody]
  cases decl.hasConstructorAttr <;> cases decl.hasDestructorAttr <;>
    cases decl.hasAnnotateAttr <;> simp

/-- The definition builder on a function whose operation is a mere prototype:
the prototype is reused and its body is built. -/
theorem build_global_function_definition_declared (decl : Decl) (drv : Driver) (op : Nat)
    (fn : FuncOp) (hfn : decl.kind.isFunctionDecl = true) (hcuda : drv.lang.CUDA = false)
    (hfind : findFunc decl.mangled_name drv.module = some op)
    (hop : drv.module[op]? = some (.func fn)) (hdecl : fn.isDeclaration = true) :
    build_global_function_definition decl drv =
      (afterBody decl op,
        { drv with module := drv.module.set op (.func { fn with isDeclaration := false }),
                   bodies_built := drv.bodies_built ++ [decl.mangled_name] }) := by
  simp only [build_global_function_definition, bind_eq, bind_apply, hfn, assertThat_true,
    getDriver_apply, hcuda, Bool.not_false, build_function_prototype, hfind, isDeclaration,
    hop, hdecl, Bool.not_true, Bool.false_eq_true, if_false, build_function_body, afterBody]
  cases decl.hasConstructorAttr <;> cases decl.hasDestructorAttr <;>
    cases decl.hasAnnotateAttr <;> simp

/-- The definition builder on a function whose operation already has a body:
the operation is returned and nothing changes. -/
theorem build_global_function_definition_defined (decl : Decl) (drv : Driver) (op : Nat)
    (fn : FuncOp) (hfn : decl.kind.isFunctionDecl = true) (hcuda : drv.lang.CUDA = false)
    (hfind : findFunc decl.mangled_name drv.module = some op)
    (hop : drv.module[op]? = some (.func fn)) (hdecl : fn.isDeclaration = false) :
    build_global_function_definition decl drv = (.ok (some op), drv) := by
  simp [build_global_function_definition, hfn, hcuda, build_function_prototype, hfind,
    isDeclaration, hop, hdecl]

/-- For a definition that must be emitted and may be emitted eagerly,
`build_global` is the call of `build_global_definition` and nothing else. -/
theorem build_global_eager_eq (decl : Decl) (drv : Driver)
    (hpre : build_global.asserted decl drv = true)
    (hdef : decl.isDefinition = true)
    (hmust : must_be_emitted decl drv = (.ok true, drv))
    (heager : may_be_emitted_eagerly decl drv = (.ok true, drv)) :
    build_global decl drv = build_global_definition decl drv := by
  obtain ⟨h1, h2, h3, h4, h5, h6, h7⟩ := build_global_head decl drv hpre
  have hpolicy : build_global.policy decl drv = build_global_definition decl drv := by
    simp only [build_global.policy, bind_eq, bind_apply, hmust, heager, if_true, pure_eq]
    simp
  cases hfn : decl.kind.isFunctionDecl with
  | true =>
    have hbody : decl.doesThisDeclarationHaveABody = true := by
      simpa [Decl.isDefinition, hfn] using hdef
    simp [build_global, h1, h2, h3, h4, h5, h6, h7, hfn, hbody, hpolicy]
  | false =>
    have hd : decl.kind.isVarDecl = true ∧ decl.isFileVarDecl = true ∧
        (decl.isThisDeclarationADefinition = .Definition
          ∨ decl.isMSStaticDataMemberInlineDefinition = true) := by
      simpa [Decl.isDefinition, hfn, and_assoc] using hdef
    obtain ⟨hv, hfile, hd⟩ := hd
    rcases hd with hd | hd <;>
      simp [build_global, h1, h2, h3, h4, h5, h6, h7, hfn, hv, hfile, hd, hpolicy]

/-- C12, amended: for every function-like or variable-like declaration that is
a definition, must be emitted and may be emitted eagerly, `build_global` does
nothing but call `build_global_definition`, whose result and whose state are
its own: it adds nothing itself to the deferred work list or to the table of
remembered declarations. For a variable that result is the unimplemented
error of `build_global_var_definition`, for a multi-version function and for
a C++ method the unimplemented error of `build_global_definition`, with the
state untouched. For any other function it is the result of
`build_global_function_definition`: when the function is not marked as
constructor, destructor or annotated, the operation of the function, with a
body. -/
theorem build_global_eager (decl : Decl) (drv : Driver)
    (hpre : build_global.asserted decl drv = true)
    (hdef : decl.isDefinition = true)
    (hmust : must_be_emitted decl drv = (.ok true, drv))
    (heager : may_be_emitted_eagerly decl drv = (.ok true, drv)) :
    build_global decl drv = build_global_definition decl drv ∧
    (decl.kind.isVarDecl = true →
      build_global decl drv = (.error (.unimplemented "build_global_var_definition"), drv)) ∧
    (decl.kind.isFunctionDecl = true → decl.isMultiVersion = true →
      build_global decl drv
        = (.error (.unimplemented "codegen for multi version function"), drv)) ∧
    (decl.kind.isFunctionDecl = true → decl.isMultiVersion = false →
      decl.kind.isCXXMethodDecl = true →
      build_global decl drv = (.error (.unimplemented "cxx methods"), drv)) ∧
    (decl.kind.isFunctionDecl = true → decl.isMultiVersion = false →
      decl.kind.isCXXMethodDecl = false →
      build_global decl drv = build_global_function_definition decl drv ∧
      (decl.hasConstructorAttr = false → decl.hasDestructorAttr = false →
        decl.hasAnnotateAttr = false →
        ∃ op drv', build_global decl drv = (.ok (some op), drv') ∧
          ∃ fn, drv'.module[op]? = some (.func fn) ∧ fn.isDeclaration = false)) := by
  obtain ⟨h1, h2, h3, h4, h5, h6, h7⟩ := build_global_head decl drv hpre
  have hbg : build_global decl drv = build_global_definition decl drv :=
    build_global_eager_eq decl drv hpre hdef hmust heager
  refine ⟨hbg, ?_, ?_, ?_, ?_⟩
  · intro hv
    have hfn : decl.kind.isFunctionDecl = false := by
      cases hk : decl.kind <;> simp [hk, DeclKind.isVarDecl, DeclKind.isFunctionDecl] at hv ⊢
    rw [hbg]
    simp [build_global_definition, h1, hfn, hv, build_global_var_definition]
  · intro hfn hmv
    rw [hbg]
    simp [build_global_definition, h1, hfn, should_emit_function, hmv]
  · intro hfn hmv hcxx
    rw [hbg]
    simp [build_global_definition, h1, hfn, should_emit_function, hmv, hcxx]
  · intro hfn hmv hcxx
    have hdefn : build_global_definition decl drv = build_global_function_definition decl drv := by
      simp [build_global_definition, h1, hfn, should_emit_function, hmv, hcxx]
    refine ⟨by rw [hbg, hdefn], ?_⟩
    intro hctor hdtor hannot
    have hafter : ∀ op, afterBody decl op = .ok (some op) := by
      intro op; simp [afterBody, hctor, hdtor, hannot]
    rw [hbg, hdefn]
    cases hfind : findFunc decl.mangled_name drv.module with
    | none =>
      rw [build_global_function_definition_fresh decl drv hfn h6 hfind, hafter]
      exact ⟨_, _, rfl, ⟨decl.mangled_name, false⟩, by simp, rfl⟩
    | some op =>
      obtain ⟨fn, hop, _⟩ := findFunc_some _ _ _ hfind
      cases hdecl : fn.isDeclaration with
      | true =>
        rw [build_global_function_definition_declared decl drv op fn hfn h6 hfind hop hdecl,
          hafter]
        have hlt : op < drv.module.length := by
          rcases Nat.lt_or_ge op drv.module.length with h | h
          · exact h
          · rw [List.getElem?_eq_none h] at hop; cases hop
        exact ⟨_, _, rfl, { fn with isDeclaration := false },
          by simp [List.getElem?_set_self, hlt], rfl⟩
      | false =>
        rw [build_global_function_definition_defined decl drv op fn hfn h6 hfind hop hdecl]
        exact ⟨_, _, rfl, fn, hop, hdecl⟩


/-- Witness of C12 as amended: a function definition that must be emitted is
handed to the definition builder. -/
theorem build_global_eager_witness :
    build_global
      { kind := .Function, mangled_name := "f", doesThisDeclarationHaveABody := true,
        DeclMustBeEmitted := true } {}
      = build_global_definition
          { kind := .Function, mangled_name := "f", doesThisDeclarationHaveABody := true,
            DeclMustBeEmitted := true } {} :=
  (build_global_eager
    { kind := .Function, mangled_name := "f", doesThisDeclarationHaveABody := true,
      DeclMustBeEmitted := true } {} rfl rfl rfl rfl).1

/-- C13, counterexample: the function `f` is defined, its name already maps to
a global value (its prototype), and it must be emitted and may be emitted
eagerly. `build_global` emits it eagerly: the body is built, and the deferred
work list stays empty. -/
theorem build_global_used_name_emitted_eagerly :
    get_global_value "f" { module := [.func ⟨"f", true⟩] }
      = (.ok (some 0), { module := [.func ⟨"f", true⟩] }) ∧
    must_be_emitted
      { kind := .Function, mangled_name := "f", doesThisDeclarationHaveABody := true,
        DeclMustBeEmitted := true } { module := [.func ⟨"f", true⟩] }
      = (.ok true, { module := [.func ⟨"f", true⟩] }) ∧
    may_be_emitted_eagerly
      { kind := .Function, mangled_name := "f", doesThisDeclarationHaveABody := true,
        DeclMustBeEmitted := true } { module := [.func ⟨"f", true⟩] }
      = (.ok true, { module := [.func ⟨"f", true⟩] }) ∧
    build_global
      { kind := .Function, mangled_name := "f", doesThisDeclarationHaveABody := true,
        DeclMustBeEmitted := true } { module := [.func ⟨"f", true⟩] }
      = (.ok (some 0),
          { module := [.func ⟨"f", false⟩], bodies_built := ["f"],
            deferred_decls_to_emit := [] }) :=
  ⟨rfl, rfl, rfl, rfl⟩

/-- C13, amended: for every definition whose mangled name already maps to a
global value when `build_global` evaluates the policy, rule 3 comes first.
When the definition must be emitted and may be emitted eagerly, it is emitted
eagerly through `build_global_definition`. When it need not be emitted, and
is not a C++ variable with an initializer, `build_global` puts it on the
deferred work list and returns no operation, the rest of the state being
untouched. -/
theorem build_global_used_name (decl : Decl) (drv : Driver)
    (hpre : build_global.asserted decl drv = true)
    (hdef : decl.isDefinition = true)
    (hused : findFunc decl.mangled_name drv.module ≠ none) :
    (must_be_emitted decl drv = (.ok true, drv) →
      may_be_emitted_eagerly decl drv = (.ok true, drv) →
      build_global decl drv = build_global_definition decl drv) ∧
    (must_be_emitted decl drv = (.ok false, drv) →
      (drv.lang.CPlusPlus && decl.kind.isVarDecl && decl.hasInit) = false →
      build_global decl drv =
        (.ok none,
          { drv with deferred_decls_to_emit := drv.deferred_decls_to_emit ++ [decl] })) := by
  refine ⟨fun hmust heager => build_global_eager_eq decl drv hpre hdef hmust heager, ?_⟩
  intro hmust hcxx
  obtain ⟨h1, h2, h3, h4, h5, h6, h7⟩ := build_global_head decl drv hpre
  have hpolicy : build_global.policy decl drv =
      (.ok none,
        { drv with deferred_decls_to_emit := drv.deferred_decls_to_emit ++ [decl] }) := by
    cases hfind : findFunc decl.mangled_name drv.module with
    | none => exact absurd hfind hused
    | some op =>
      simp only [build_global.policy, bind_eq, bind_apply, hmust, pure_eq, pure_apply,
        Bool.false_and, Bool.false_eq_true, if_false, getDriver_apply, hcxx, get_mangled_name,
        get_global_value_apply, hfind, add_deferred_decl_to_emit_apply]
      simp
  cases hfn : decl.kind.isFunctionDecl with
  | true =>
    have hbody : decl.doesThisDeclarationHaveABody = true := by
      simpa [Decl.isDefinition, hfn] using hdef
    simp [build_global, h1, h2, h3, h4, h5, h6, h7, hfn, hbody, hpolicy]
  | false =>
    have hd : decl.kind.isVarDecl = true ∧ decl.isFileVarDecl = true ∧
        (decl.isThisDeclarationADefinition = .Definition
          ∨ decl.isMSStaticDataMemberInlineDefinition = true) := by
      simpa [Decl.isDefinition, hfn, and_assoc] using hdef
    obtain ⟨hv, hfile, hd⟩ := hd
    rcases hd with hd | hd <;>
      simp [build_global, h1, h2, h3, h4, h5, h6, h7, hfn, hv, hfile, hd, hpolicy]

/-- Witness of C13 as amended: the function `g` is defined, need not be
emitted, and its prototype is in the module already: it goes onto the
deferred work list. -/
theorem build_global_used_name_witness :
    build_global
      { kind := .Function, mangled_name := "g", doesThisDeclarationHaveABody := true }
      { module := [.func ⟨"g", true⟩] }
      = (.ok none,
          { module := [.func ⟨"g", true⟩],
            deferred_decls_to_emit :=
              [{ kind := .Function, mangled_name := "g",
                 doesThisDeclarationHaveABody := true }] }) :=
  (build_global_used_name
    { kind := .Function, mangled_name := "g", doesThisDeclarationHaveABody := true }
    { module := [.func ⟨"g", true⟩] } rfl rfl (by decide)).2 rfl rfl

/-! ## Code generation driver: `handle_top_level_decl` -/

/-- C15, counterexample: a function declaration without a body that does not
force an externally visible definition makes `handle_top_level_decl` raise
when coverage mapping is on, and so does a deduction guide, a function
declaration whose kind has no case in the `switch`. A file-scope variable
declaration that is not a definition and whose inline variable definition
kind is `Strong` stops at the assertion `NYI` of `build_global`. -/
theorem handle_top_level_decl_skipped_raises :
    handle_top_level_decl { kind := .Function, mangled_name := "f" }
        { options := { coverage_mapping := true } }
      = (.error (.unimplemented "coverage mapping not supported"),
          { options := { coverage_mapping := true } }) ∧
    (DeclKind.CXXDeductionGuide.isFunctionDecl = true ∧
      handle_top_level_decl { kind := .CXXDeductionGuide, mangled_name := "A" } {}
        = (.error (.unimplemented "codegen for: CXXDeductionGuide"), {})) ∧
    (({ kind := .Var, mangled_name := "x",
        getInlineVariableDefinitionKind := .Strong } : Decl).isThisDeclarationADefinition
        = .DeclarationOnly ∧
      handle_top_level_decl
          { kind := .Var, mangled_name := "x", getInlineVariableDefinitionKind := .Strong } {}
        = (.error (.assertion "NYI"), {})) :=
  ⟨rfl, ⟨rfl, rfl⟩, rfl, rfl⟩

/-- C15, amended: `handle_top_level_decl` returns with the state of the driver
as it was, so with no operation emitted, nothing added to the deferred work
list and nothing recorded among the remembered declarations, for every
declaration that is templated, or is a consteval function, or is a function
declaration of kind `Function` or `CXXMethod` without a body that does not
force an externally visible definition, coverage mapping being off, or is a
file-scope variable declaration of kind `Var` or `VarTemplateSpecialization`
that is neither a definition nor an inline definition of a static data member
and whose inline variable definition kind is not `Strong`. With coverage
mapping on, the function declaration raises the unimplemented error instead,
and a variable declaration whose inline variable definition kind is `Strong`
stops at the assertion `NYI` of `build_global`, the state still being as it
was in both cases. -/
theorem handle_top_level_decl_skipped (decl : Decl) (drv : Driver) :
    (decl.isTemplated = true → handle_top_level_decl decl drv = (.ok (), drv)) ∧
    (decl.kind.isFunctionDecl = true → decl.isConsteval = true →
      handle_top_level_decl decl drv = (.ok (), drv)) ∧
    (build_global.asserted decl drv = true →
      (decl.kind = .Function ∨ decl.kind = .CXXMethod) →
      decl.doesThisDeclarationHaveABody = false →
      decl.doesDeclarationForceExternallyVisibleDefinition = false →
      handle_top_level_decl decl drv =
        if decl.isTemplated || decl.isConsteval || !drv.options.coverage_mapping
        then (.ok (), drv)
        else (.error (.unimplemented "coverage mapping not supported"), drv)) ∧
    (build_global.asserted decl drv = true →
      (decl.kind = .Var ∨ decl.kind = .VarTemplateSpecialization) →
      decl.isFileVarDecl = true →
      decl.isThisDeclarationADefinition ≠ .Definition →
      decl.isMSStaticDataMemberInlineDefinition = false →
      decl.getInlineVariableDefinitionKind ≠ .Strong →
      handle_top_level_decl decl drv = (.ok (), drv)) ∧
    (build_global.asserted decl drv = true →
      (decl.kind = .Var ∨ decl.kind = .VarTemplateSpecialization) →
      decl.isFileVarDecl = true →
      decl.isThisDeclarationADefinition ≠ .Definition →
      decl.isMSStaticDataMemberInlineDefinition = false →
      decl.getInlineVariableDefinitionKind = .Strong →
      handle_top_level_decl decl drv =
        if decl.isTemplated then (.ok (), drv) else (.error (.assertion "NYI"), drv)) := by
  refine ⟨?_, ?_, ?_, ?_, ?_⟩
  · intro ht
    simp [handle_top_level_decl, ht]
  · intro hfn hc
    cases ht : decl.isTemplated <;> simp [handle_top_level_decl, ht, hfn, hc]
  · intro hpre hk hbody hforce
    obtain ⟨h1, h2, h3, h4, h5, h6, h7⟩ := build_global_head decl drv hpre
    have hfn : decl.kind.isFunctionDecl = true := by
      rcases hk with hk | hk <;> rw [hk] <;> rfl
    have hbg : build_global decl drv = (.ok none, drv) := by
      simp [build_global, h1, h2, h3, h4, h5, h6, h7, hfn, hbody, hforce]
    cases ht : decl.isTemplated <;> cases hc : decl.isConsteval <;>
      cases hcov : drv.options.coverage_mapping <;>
      rcases hk with hk | hk <;>
      simp [handle_top_level_decl, ht, hc, hfn, hk, hbg, hcov, DeclKind.isFunctionDecl]
  · intro hpre hk hfile hnd hms hstrong
    obtain ⟨h1, h2, h3, h4, h5, h6, h7⟩ := build_global_head decl drv hpre
    have hfn : decl.kind.isFunctionDecl = false := by
      rcases hk with hk | hk <;> rw [hk] <;> rfl
    have hv : decl.kind.isVarDecl = true := by
      rcases hk with hk | hk <;> rw [hk] <;> rfl
    have hs : (decl.getInlineVariableDefinitionKind != .Strong) = true := by
      simpa using hstrong
    have hbg : build_global decl drv = (.ok none, drv) := by
      simp [build_global, h1, h2, h3, h4, h5, h6, h7, hfn, hv, hfile, hnd, hms, hs]
    cases ht : decl.isTemplated <;>
      rcases hk with hk | hk <;>
      simp [handle_top_level_decl, ht, hfn, hk, hbg, DeclKind.isFunctionDecl]
  · intro hpre hk hfile hnd hms hstrong
    obtain ⟨h1, h2, h3, h4, h5, h6, h7⟩ := build_global_head decl drv hpre
    have hfn : decl.kind.isFunctionDecl = false := by
      rcases hk with hk | hk <;> rw [hk] <;> rfl
    have hv : decl.kind.isVarDecl = true := by
      rcases hk with hk | hk <;> rw [hk] <;> rfl
    have hbg : build_global decl drv = (.error (.assertion "NYI"), drv) := by
      simp [build_global, h1, h2, h3, h4, h5, h6, h7, hfn, hv, hfile, hnd, hms, hstrong]
    cases ht : decl.isTemplated <;>
      rcases hk with hk | hk <;>
      simp [handle_top_level_decl, ht, hfn, hk, hbg, DeclKind.isFunctionDecl]

/-- Witness of C15 as amended: the prototype of `f` and the tentative
definition of `x` leave a driver with remembered declarations as it was. -/
theorem handle_top_level_decl_skipped_witness :
    handle_top_level_decl { kind := .Function, mangled_name := "f" }
        { deferred_decls := [("g", { kind := .Function, mangled_name := "g" })] }
      = (.ok (), { deferred_decls := [("g", { kind := .Function, mangled_name := "g" })] }) ∧
    handle_top_level_decl
        { kind := .Var, mangled_name := "x", isThisDeclarationADefinition := .TentativeDefinition }
        { deferred_decls := [("g", { kind := .Function, mangled_name := "g" })] }
      = (.ok (), { deferred_decls := [("g", { kind := .Function, mangled_name := "g" })] }) :=
  ⟨(handle_top_level_decl_skipped { kind := .Function, mangled_name := "f" }
      { deferred_decls := [("g", { kind := .Function, mangled_name := "g" })] }).2.2.1
      rfl (Or.inl rfl) rfl rfl,
   (handle_top_level_decl_skipped
      { kind := .Var, mangled_name := "x", isThisDeclarationADefinition := .TentativeDefinition }
      { deferred_decls := [("g", { kind := .Function, mangled_name := "g" })] }).2.2.2.1
      rfl (Or.inl rfl) rfl (by decide) rfl (by decide)⟩

/-- C19, counterexample: a consteval constructor defined outside its class is
not templated and of a kind without a case in the `switch`, and
`handle_top_level_decl` skips it silently. -/
theorem handle_top_level_decl_consteval_constructor :
    ({ kind := .CXXConstructor, mangled_name := "A", isConsteval := true,
       doesThisDeclarationHaveABody := true } : Decl).isTemplated = false ∧
    DeclKind.CXXConstructor.inSwitch = false ∧
    handle_top_level_decl
      { kind := .CXXConstructor, mangled_name := "A", isConsteval := true,
        doesThisDeclarationHaveABody := true } {} = (.ok (), {}) :=
  ⟨rfl, rfl, rfl⟩

/-- C19, amended: for every declaration that is not templated, is not a
consteval function, and whose kind has no case in the `switch`,
`handle_top_level_decl` raises the unimplemented error `codegen for: ` with
the name of the kind, the state being as it was, so nothing is emitted. A
declaration of kind `Typedef`, `TypeAlias`, `Record` or `Enum` that is not
templated is appended to the module, once, and nothing is raised. -/
theorem handle_top_level_decl_unsupported_kind (decl : Decl) (drv : Driver)
    (ht : decl.isTemplated = false) :
    ((decl.kind.isFunctionDecl && decl.isConsteval) = false → decl.kind.inSwitch = false →
      handle_top_level_decl decl drv =
        (.error (.unimplemented ("codegen for: " ++ decl.kind.getDeclKindName)), drv)) ∧
    ((decl.kind = .Typedef ∨ decl.kind = .TypeAlias ∨ decl.kind = .Record ∨ decl.kind = .Enum) →
      handle_top_level_decl decl drv =
        (.ok (), { drv with module := drv.module ++ [.decl decl.kind decl.mangled_name] })) := by
  refine ⟨?_, ?_⟩
  · intro hc hk
    cases hkind : decl.kind <;> rw [hkind] at hk hc <;>
      simp [DeclKind.inSwitch] at hk <;>
      simp [handle_top_level_decl, ht, hkind, hc, DeclKind.getDeclKindName]
  · intro hk
    rcases hk with hk | hk | hk | hk <;>
      simp [handle_top_level_decl, ht, hk, DeclKind.isFunctionDecl, append_to_module]

/-- Witness of C19 as amended: a namespace raises, a typedef is appended. -/
theorem handle_top_level_decl_unsupported_kind_witness :
    handle_top_level_decl { kind := .other "Namespace", mangled_name := "n" } {}
      = (.error (.unimplemented ("codegen for: " ++ "Namespace")), {}) ∧
    handle_top_level_decl { kind := .Typedef, mangled_name := "t" } {}
      = (.ok (), { module := [] ++ [TopLevelOp.decl DeclKind.Typedef "t"] }) :=
  ⟨(handle_top_level_decl_unsupported_kind
      { kind := .other "Namespace", mangled_name := "n" } {} rfl).1 rfl rfl,
   (handle_top_level_decl_unsupported_kind
      { kind := .Typedef, mangled_name := "t" } {} rfl).2 (Or.inl rfl)⟩


/-! ## Code generation driver: `build_deferred` -/

/-- C17, counterexample: with the mutually recursive functions `f` and `g` on
the deferred work list, in either order, `build_deferred` does not return: it
takes the list and raises the unimplemented error of `build_global_decl` on
the first declaration. The module stays empty, nothing is emitted. -/
theorem build_deferred_mutual_recursion_raises :
    build_deferred
      { deferred_decls_to_emit :=
          [{ kind := .Function, mangled_name := "f", doesThisDeclarationHaveABody := true },
           { kind := .Function, mangled_name := "g", doesThisDeclarationHaveABody := true }] }
      = (.error (.unimplemented "build_global_decl"), { module := [] }) ∧
    build_deferred
      { deferred_decls_to_emit :=
          [{ kind := .Function, mangled_name := "g", doesThisDeclarationHaveABody := true },
           { kind := .Function, mangled_name := "f", doesThisDeclarationHaveABody := true }] }
      = (.error (.unimplemented "build_global_decl"), { module := [] }) :=
  ⟨rfl, rfl⟩

theorem build_deferred_loop_nonempty (fuel : Nat) (drv : Driver)
    (homp : (drv.lang.OpenMP && !drv.lang.OpenMPSimd) = false)
    (hvt : drv.deferred_vtables = [])
    (hcuda : (drv.lang.CUDA && drv.lang.CUDAIsDevice) = false)
    (decl : Decl) (rest : List Decl) (hlist : drv.deferred_decls_to_emit = decl :: rest) :
    build_deferred.loop (fuel + 1) drv =
      (.error (.unimplemented "build_global_decl"), { drv with deferred_decls_to_emit := [] }) := by
  have homp' : ¬(drv.lang.OpenMP = true ∧ drv.lang.OpenMPSimd = false) := by
    simpa using homp
  have hcuda' : ¬(drv.lang.CUDA = true ∧ drv.lang.CUDAIsDevice = true) := by
    simpa using hcuda
  simp [build_deferred.loop, homp', hvt, hcuda', hlist, forEach, build_global_decl]

/-- C17, amended: `build_deferred` first raises an unimplemented error of its
own, whatever the deferred work list holds: for OpenMP without simd, else for
deferred vtables, else for a CUDA device; the state is untouched. Otherwise it
returns without any effect when the deferred work list is empty, and for
every non-empty list it takes the list, which leaves the deferred work list
empty, and raises the unimplemented error of `build_global_decl` on the first
declaration, the rest of the state being as it was: no declaration of the
list is emitted. -/
theorem build_deferred_raises (drv : Driver) :
    ((drv.lang.OpenMP && !drv.lang.OpenMPSimd) = true →
      build_deferred drv = (.error (.unimplemented "build_deferred for openmp"), drv)) ∧
    ((drv.lang.OpenMP && !drv.lang.OpenMPSimd) = false → drv.deferred_vtables ≠ [] →
      build_deferred drv = (.error (.unimplemented "build_deferred for vtables"), drv)) ∧
    ((drv.lang.OpenMP && !drv.lang.OpenMPSimd) = false → drv.deferred_vtables = [] →
      (drv.lang.CUDA && drv.lang.CUDAIsDevice) = true →
      build_deferred drv = (.error (.unimplemented "build_deferred for cuda"), drv)) ∧
    ((drv.lang.OpenMP && !drv.lang.OpenMPSimd) = false → drv.deferred_vtables = [] →
      (drv.lang.CUDA && drv.lang.CUDAIsDevice) = false →
      (drv.deferred_decls_to_emit = [] → build_deferred drv = (.ok (), drv)) ∧
      (drv.deferred_decls_to_emit ≠ [] →
        build_deferred drv =
          (.error (.unimplemented "build_global_decl"),
            { drv with deferred_decls_to_emit := [] }) ∧
        ∀ decl, build_global_decl decl { drv with deferred_decls_to_emit := [] }
          = (.error (.unimplemented "build_global_decl"),
              { drv with deferred_decls_to_emit := [] }))) := by
  refine ⟨?_, ?_, ?_, ?_⟩
  · intro homp
    have homp' : drv.lang.OpenMP = true ∧ drv.lang.OpenMPSimd = false := by
      simpa using homp
    simp [build_deferred, build_deferred.loop, homp'.1, homp'.2]
  · intro homp hvt
    have homp' : ¬(drv.lang.OpenMP = true ∧ drv.lang.OpenMPSimd = false) := by
      simpa using homp
    simp [build_deferred, build_deferred.loop, homp', hvt]
  · intro homp hvt hcuda
    have homp' : ¬(drv.lang.OpenMP = true ∧ drv.lang.OpenMPSimd = false) := by
      simpa using homp
    have hcuda' : drv.lang.CUDA = true ∧ drv.lang.CUDAIsDevice = true := by
      simpa using hcuda
    simp [build_deferred, build_deferred.loop, homp', hvt, hcuda'.1, hcuda'.2]
  · intro homp hvt hcuda
    refine ⟨?_, ?_⟩
    · intro hempty
      have homp' : ¬(drv.lang.OpenMP = true ∧ drv.lang.OpenMPSimd = false) := by
        simpa using homp
      have hcuda' : ¬(drv.lang.CUDA = true ∧ drv.lang.CUDAIsDevice = true) := by
        simpa using hcuda
      simp [build_deferred, build_deferred.loop, homp', hvt, hcuda', hempty]
    · intro hne
      refine ⟨?_, fun _ => rfl⟩
      cases hlist : drv.deferred_decls_to_emit with
      | nil => exact absurd hlist hne
      | cons decl rest =>
        simp only [build_deferred, hlist, List.length_cons]
        exact build_deferred_loop_nonempty _ drv homp hvt hcuda decl rest hlist

/-- Witness of C17 as amended, on a work list of one function: with a language
that `build_deferred` implements the error is that of `build_global_decl`,
with a deferred vtable it is that of `build_deferred` itself. -/
theorem build_deferred_raises_witness :
    build_deferred
      { deferred_decls_to_emit := [{ kind := .Function, mangled_name := "f" }],
        bodies_built := ["main"] }
      = (.error (.unimplemented "build_global_decl"),
          { deferred_decls_to_emit := [], bodies_built := ["main"] }) ∧
    build_deferred
      { deferred_decls_to_emit := [{ kind := .Function, mangled_name := "f" }],
        deferred_vtables := ["A"] }
      = (.error (.unimplemented "build_deferred for vtables"),
          { deferred_decls_to_emit := [{ kind := .Function, mangled_name := "f" }],
            deferred_vtables := ["A"] }) :=
  ⟨(((build_deferred_raises
      { deferred_decls_to_emit := [{ kind := .Function, mangled_name := "f" }],
        bodies_built := ["main"] }).2.2.2 rfl rfl rfl).2 (by decide)).1,
   (build_deferred_raises
      { deferred_decls_to_emit := [{ kind := .Function, mangled_name := "f" }],
        deferred_vtables := ["A"] }).2.1 rfl (by decide)⟩

/-! ## Code generation driver: functions are defined once -/

theorem keeps_pure {α : Type} (a : α) : KeepsCounter (M.pure a) := fun _ => rfl

theorem keeps_raise {α : Type} (e : Raised) : KeepsCounter (raise e : M α) := fun _ => rfl

theorem keeps_getDriver : KeepsCounter getDriver := fun _ => rfl

theorem keeps_assertThat (c : Bool) (msg : String) : KeepsCounter (assertThat c msg) := by
  intro drv; cases c <;> rfl

theorem keeps_bind {α β : Type} (m : M α) (f : α → M β) (hm : KeepsCounter m)
    (hf : ∀ a, KeepsCounter (f a)) : KeepsCounter (M.bind m f) := by
  intro drv
  have h1 := hm drv
  simp only [bind_apply]
  cases hr : m drv with
  | mk r drv' =>
    rw [hr] at h1
    cases r with
    | ok a => simp only; rw [hf a drv']; exact h1
    | error e => exact h1

theorem keeps_forEach {α : Type} (body : α → M Unit) (hb : ∀ a, KeepsCounter (body a)) :
    ∀ l : List α, KeepsCounter (forEach body l) := by
  intro l
  induction l with
  | nil => exact keeps_pure ()
  | cons x xs ih => exact keeps_bind _ _ (hb x) (fun _ => ih)

theorem keeps_get_global_value (name : String) : KeepsCounter (get_global_value name) :=
  fun _ => rfl

theorem keeps_add_deferred_decl_to_emit (decl : Decl) :
    KeepsCounter (add_deferred_decl_to_emit decl) := fun _ => rfl

theorem keeps_set_deferred_decl (name : String) (decl : Decl) :
    KeepsCounter (set_deferred_decl name decl) := fun _ => rfl

theorem keeps_append_to_module (decl : Decl) : KeepsCounter (append_to_module decl) :=
  fun _ => rfl

theorem keeps_build_function_prototype (decl : Decl) :
    KeepsCounter (build_function_prototype decl) := by
  intro drv
  simp only [build_function_prototype]
  split <;> rfl

theorem keeps_isDeclaration (op : Nat) : KeepsCounter (isDeclaration op) := by
  intro drv
  simp only [isDeclaration]
  split <;> rfl

theorem keeps_build_function_body (op : Nat) (decl : Decl) :
    KeepsCounter (build_function_body op decl) := by
  intro drv
  simp only [build_function_body]
  split <;> rfl

theorem keeps_must_be_emitted (glob : Decl) : KeepsCounter (must_be_emitted glob) := by
  intro drv
  rw [must_be_emitted_apply]
  repeat' split
  all_goals rfl

theorem keeps_may_be_emitted_eagerly (glob : Decl) :
    KeepsCounter (may_be_emitted_eagerly glob) := by
  intro drv
  rw [may_be_emitted_eagerly_state]

theorem keeps_build_global_function_definition (decl : Decl) :
    KeepsCounter (build_global_function_definition decl) := by
  unfold build_global_function_definition
  simp only [bind_eq, pure_eq]
  repeat' first
    | exact keeps_pure _
    | exact keeps_raise _
    | exact keeps_assertThat _ _
    | exact keeps_getDriver
    | exact keeps_build_function_prototype _
    | exact keeps_isDeclaration _
    | exact keeps_build_function_body _ _
    | apply keeps_bind
    | split
    | intro _

theorem keeps_build_global_definition (glob : Decl) :
    KeepsCounter (build_global_definition glob) := by
  unfold build_global_definition
  simp only [bind_eq, pure_eq]
  repeat' first
    | exact keeps_pure _
    | exact keeps_raise _
    | exact keeps_assertThat _ _
    | exact keeps_build_global_function_definition _
    | apply keeps_bind
    | split
    | intro _

theorem keeps_build_global_policy (decl : Decl) : KeepsCounter (build_global.policy decl) := by
  unfold build_global.policy
  simp only [bind_eq, pure_eq]
  repeat' first
    | exact keeps_pure _
    | exact keeps_raise _
    | exact keeps_assertThat _ _
    | exact keeps_getDriver
    | exact keeps_must_be_emitted _
    | exact keeps_may_be_emitted_eagerly _
    | exact keeps_build_global_definition _
    | exact keeps_get_global_value _
    | exact keeps_add_deferred_decl_to_emit _
    | exact keeps_set_deferred_decl _ _
    | apply keeps_bind
    | split
    | intro _

theorem keeps_build_global (decl : Decl) : KeepsCounter (build_global decl) := by
  unfold build_global
  simp only [bind_eq, pure_eq]
  repeat' first
    | exact keeps_pure _
    | exact keeps_raise _
    | exact keeps_assertThat _ _
    | exact keeps_getDriver
    | exact keeps_build_global_policy _
    | apply keeps_bind
    | split
    | intro _

theorem keeps_handle_top_level_decl (decl : Decl) :
    KeepsCounter (handle_top_level_decl decl) := by
  unfold handle_top_level_decl
  simp only [bind_eq, pure_eq]
  repeat' first
    | exact keeps_pure _
    | exact keeps_raise _
    | exact keeps_getDriver
    | exact keeps_build_global _
    | exact keeps_append_to_module _
    | apply keeps_bind
    | split
    | intro _

theorem counter_ctor_dtor (c : Nat) (h : c < 2 ^ 32) :
    ((c + 1) % 2 ^ 32 + 2 ^ 32 - 1) % 2 ^ 32 = c := by
  norm_num at h ⊢
  omega

theorem counter_ctor_lt (c : Nat) : (c + 1) % 2 ^ 32 < 2 ^ 32 :=
  Nat.mod_lt _ (by norm_num)

theorem restores_of_keeps {α : Type} (m : M α) (h : KeepsCounter m) : RestoresCounter m := by
  intro drv r drv' _ hm _
  have := h drv
  rw [hm] at this
  exact this

theorem restores_bind {α β : Type} (m : M α) (f : α → M β) (hm : RestoresCounter m)
    (hf : ∀ a, RestoresCounter (f a)) : RestoresCounter (M.bind m f) := by
  intro drv r drv' hc h hu
  simp only [bind_apply] at h
  cases hr : m drv with
  | mk r1 drv1 =>
    rw [hr] at h
    cases r1 with
    | ok a =>
      simp only at h
      have h1 := hm drv (.ok a) drv1 hc hr trivial
      have h2 := hf a drv1 r drv' (by rw [h1]; exact hc) h hu
      rw [h2, h1]
    | error e =>
      simp only [Prod.mk.injEq] at h
      obtain ⟨rfl, rfl⟩ := h
      have hu' : Unwound (.error e : Except Raised α) := by
        cases e <;> exact hu
      exact hm drv (.error e) drv1 hc hr hu'

/-- A block with a local object that returns, or is left by an exception that
unwinds the stack: the block itself returned or was left by such an
exception, and the destructor ran after it and returned. -/
theorem withLocal_unwound {γ α : Type} (ctor : M γ) (dtor : γ → M Unit) (block : M α)
    (drv : Driver) (g : γ) (drv0 : Driver) (r : Except Raised α) (drv' : Driver)
    (hctor : ctor drv = (.ok g, drv0))
    (h : M.withLocal ctor dtor block drv = (r, drv')) (hu : Unwound r) :
    ∃ rb drv1 u, block drv0 = (rb, drv1) ∧ Unwound rb ∧ dtor g drv1 = (.ok u, drv') := by
  have key : ∀ (rd : Except Raised Unit) (drv2 : Driver) (r0 : Except Raised α),
      (match (rd, drv2) with
        | (.ok _, drv2) => (r0, drv2)
        | (.error (.unimplemented _), drv2) => (.error .terminate, drv2)
        | (.error err, drv2) => (.error err, drv2)) = (r, drv') →
      ∃ u, (rd, drv2) = (.ok u, drv') := by
    intro rd drv2 r0 h
    cases rd with
    | ok u =>
      simp only [Prod.mk.injEq] at h
      exact ⟨u, by rw [h.2]⟩
    | error err =>
      cases err <;> simp only [Prod.mk.injEq] at h <;> obtain ⟨rfl, rfl⟩ := h <;>
        exact absurd hu (by simp [Unwound])
  simp only [M.withLocal] at h
  rw [hctor] at h
  simp only at h
  cases hb : block drv0 with
  | mk rb drv1 =>
    rw [hb] at h
    cases rb with
    | ok a =>
      simp only at h
      cases hd : dtor g drv1 with
      | mk rd drv2 =>
        rw [hd] at h
        obtain ⟨u, hk⟩ := key rd drv2 _ h
        exact ⟨.ok a, drv1, u, rfl, trivial, hd.trans hk⟩
    | error err =>
      cases err with
      | unimplemented msg =>
        simp only at h
        cases hd : dtor g drv1 with
        | mk rd drv2 =>
          rw [hd] at h
          obtain ⟨u, hk⟩ := key rd drv2 _ h
          exact ⟨.error (.unimplemented msg), drv1, u, rfl, trivial, hd.trans hk⟩
      | assertion msg =>
        simp only [Prod.mk.injEq] at h; obtain ⟨rfl, rfl⟩ := h; exact absurd hu (by simp [Unwound])
      | unreachable msg =>
        simp only [Prod.mk.injEq] at h; obtain ⟨rfl, rfl⟩ := h; exact absurd hu (by simp [Unwound])
      | terminate =>
        simp only [Prod.mk.injEq] at h; obtain ⟨rfl, rfl⟩ := h; exact absurd hu (by simp [Unwound])
      | outOfFuel =>
        simp only [Prod.mk.injEq] at h; obtain ⟨rfl, rfl⟩ := h; exact absurd hu (by simp [Unwound])

/-- Two blocks with a local object do the same when the blocks do the same and
the two destructors do the same after the block, in case it returned or was
left by an exception that unwinds the stack. -/
theorem withLocal_congr {γ α : Type} (ctor : M γ) (dtor1 dtor2 : γ → M Unit)
    (block1 block2 : M α) (drv : Driver) (g : γ) (drv0 : Driver)
    (hctor : ctor drv = (.ok g, drv0)) (hblock : block1 drv0 = block2 drv0)
    (hdtor : ∀ rb drv1, block2 drv0 = (rb, drv1) → Unwound rb → dtor1 g drv1 = dtor2 g drv1) :
    M.withLocal ctor dtor1 block1 drv = M.withLocal ctor dtor2 block2 drv := by
  simp only [M.withLocal]
  rw [hctor]
  simp only
  rw [hblock]
  cases hb : block2 drv0 with
  | mk rb drv1 =>
    cases rb with
    | ok a =>
      simp only
      rw [hdtor (.ok a) drv1 hb trivial]
    | error err =>
      cases err with
      | unimplemented msg =>
        simp only
        rw [hdtor (.error (.unimplemented msg)) drv1 hb trivial]
      | assertion msg => rfl
      | unreachable msg => rfl
      | terminate => rfl
      | outOfFuel => rfl

theorem ctor_apply (e : Bool) (drv : Driver) :
    defer_handle_of_top_level_decl.ctor e drv =
      (.ok ⟨e⟩, { drv with deferred_top_level_decls :=
        (drv.deferred_top_level_decls + 1) % 2 ^ 32 }) := rfl

theorem dtor_apply (flush : M Unit) (g : defer_handle_of_top_level_decl) (drv : Driver) :
    g.dtor flush drv =
      if (drv.deferred_top_level_decls + 2 ^ 32 - 1) % 2 ^ 32 = 0 ∧ g.emit_deferred = true then
        flush { drv with deferred_top_level_decls :=
          (drv.deferred_top_level_decls + 2 ^ 32 - 1) % 2 ^ 32 }
      else
        (.ok (), { drv with deferred_top_level_decls :=
          (drv.deferred_top_level_decls + 2 ^ 32 - 1) % 2 ^ 32 }) := by
  simp only [defer_handle_of_top_level_decl.dtor, Bool.and_eq_true, beq_iff_eq]

/-- The destructor alone: when it returns or unwinds, the counter is one less
than before, on an `unsigned`. -/
theorem dtor_counter (flush : M Unit) (hflush : RestoresCounter flush)
    (g : defer_handle_of_top_level_decl) (drv : Driver) (r : Except Raised Unit)
    (drv' : Driver) (h : g.dtor flush drv = (r, drv')) (hu : Unwound r) :
    drv'.deferred_top_level_decls = (drv.deferred_top_level_decls + 2 ^ 32 - 1) % 2 ^ 32 := by
  rw [dtor_apply] at h
  split at h
  · have := hflush { drv with deferred_top_level_decls :=
        (drv.deferred_top_level_decls + 2 ^ 32 - 1) % 2 ^ 32 } r drv'
      (Nat.mod_lt _ (by norm_num)) h hu
    simp only at this
    exact this
  · simp only [Prod.mk.injEq] at h
    obtain ⟨-, rfl⟩ := h
    simp only

theorem restores_scope {α : Type} (flush : M Unit) (hflush : RestoresCounter flush) (e : Bool)
    (block : M α) (hblock : RestoresCounter block) :
    RestoresCounter (defer_handle_of_top_level_decl.scope flush e block) := by
  intro drv r drv' hc h hu
  unfold defer_handle_of_top_level_decl.scope at h
  obtain ⟨rb, drv1, u, hb, hub, hd⟩ := withLocal_unwound _ _ block drv ⟨e⟩
    { drv with deferred_top_level_decls := (drv.deferred_top_level_decls + 1) % 2 ^ 32 }
    r drv' (ctor_apply e drv) h hu
  have h1 := hblock { drv with deferred_top_level_decls :=
      (drv.deferred_top_level_decls + 1) % 2 ^ 32 } rb drv1
    (counter_ctor_lt drv.deferred_top_level_decls) hb hub
  have h2 := dtor_counter flush hflush ⟨e⟩ drv1 (.ok u) drv' hd trivial
  simp only at h1
  rw [h2, h1]
  exact counter_ctor_dtor drv.deferred_top_level_decls hc

theorem restores_build_deferred_decls_loop (handle : Decl → M Unit)
    (hh : ∀ decl, KeepsCounter (handle decl)) :
    ∀ fuel, RestoresCounter (build_deferred_decls.loop handle fuel) := by
  intro fuel
  induction fuel with
  | zero =>
    intro drv r drv' _ h hu
    simp only [build_deferred_decls.loop, raise_apply, Prod.mk.injEq] at h
    obtain ⟨rfl, rfl⟩ := h
    exact absurd hu (by simp [Unwound])
  | succ fuel ih =>
    intro drv r drv' hc h hu
    simp only [build_deferred_decls.loop] at h
    split at h
    · simp only [Prod.mk.injEq] at h
      rw [← h.2]
    · have := restores_scope (build_deferred_decls.loop handle fuel) ih true
        (M.bind (forEach handle drv.deferred_inline_member_func_defs)
          (fun _ => build_deferred_decls.loop handle fuel))
        (restores_bind _ _ (restores_of_keeps _ (keeps_forEach _ hh _)) (fun _ => ih))
        { drv with deferred_inline_member_func_defs := [] } r drv' hc h hu
      simp only at this
      exact this

theorem restores_build_deferred_decls : RestoresCounter build_deferred_decls :=
  restores_build_deferred_decls_loop _ keeps_handle_top_level_decl 2

theorem restores_run (flush : M Unit) (hflush : RestoresCounter flush) :
    ∀ g : Guards, g.KeepsCounter → RestoresCounter (g.run flush) := by
  intro g
  induction g with
  | skip => intro _; exact restores_of_keeps _ (keeps_pure ())
  | work m => intro h; exact restores_of_keeps _ h
  | seq a b iha ihb => intro h; exact restores_bind _ _ (iha h.1) (fun _ => ihb h.2)
  | guard e inner ih => intro h; exact restores_scope flush hflush e _ (ih h)

theorem dtor_no_flush (flush : M Unit) (g : defer_handle_of_top_level_decl) (drv : Driver)
    (h : (drv.deferred_top_level_decls + 2 ^ 32 - 1) % 2 ^ 32 ≠ 0) :
    g.dtor flush drv =
      (.ok (), { drv with deferred_top_level_decls :=
        (drv.deferred_top_level_decls + 2 ^ 32 - 1) % 2 ^ 32 }) := by
  rw [dtor_apply, if_neg (fun hc => h hc.1)]

/-- While some guard is alive, so that the counter is not zero, a nested
sequence of guards does not run the flush: what it does is the same for any
two flushes. -/
theorem run_flush_free :
    ∀ (g : Guards) (flush1 flush2 : M Unit) (drv : Driver), g.KeepsCounter →
      0 < drv.deferred_top_level_decls →
      drv.deferred_top_level_decls + g.depth < 2 ^ 32 →
      g.run flush1 drv = g.run flush2 drv := by
  have h32 : (2 : Nat) ^ 32 = 4294967296 := by norm_num
  have hpure : RestoresCounter (M.pure () : M Unit) := restores_of_keeps _ (keeps_pure ())
  intro g
  induction g with
  | skip => intro _ _ _ _ _ _; rfl
  | work m => intro _ _ _ _ _ _; rfl
  | seq a b iha ihb =>
    intro flush1 flush2 drv hk hpos hlt
    simp only [Guards.depth] at hlt
    have hlta : drv.deferred_top_level_decls + a.depth < 2 ^ 32 := by omega
    have ha := iha flush1 flush2 drv hk.1 hpos hlta
    simp only [Guards.run, bind_apply, ha]
    cases hr : a.run flush2 drv with
    | mk r drv1 =>
      cases r with
      | error e => rfl
      | ok u =>
        have h0 : a.run (M.pure ()) drv = (.ok u, drv1) :=
          (iha (M.pure ()) flush2 drv hk.1 hpos hlta).trans hr
        have hc := restores_run (M.pure ()) hpure a hk.1 drv (.ok u) drv1 (by omega) h0 trivial
        simp only
        exact ihb flush1 flush2 drv1 hk.2 (by rw [hc]; exact hpos) (by rw [hc]; omega)
  | guard e inner ih =>
    intro flush1 flush2 drv hk hpos hlt
    simp only [Guards.depth] at hlt
    have hk' : inner.KeepsCounter := hk
    have hmod : (drv.deferred_top_level_decls + 1) % 2 ^ 32 = drv.deferred_top_level_decls + 1 :=
      Nat.mod_eq_of_lt (by omega)
    have hpos0 : 0 < (drv.deferred_top_level_decls + 1) % 2 ^ 32 := by rw [hmod]; omega
    have hlt0 : (drv.deferred_top_level_decls + 1) % 2 ^ 32 + inner.depth < 2 ^ 32 := by
      rw [hmod]; omega
    simp only [Guards.run, defer_handle_of_top_level_decl.scope]
    refine withLocal_congr _ _ _ _ _ drv ⟨e⟩
      { drv with deferred_top_level_decls := (drv.deferred_top_level_decls + 1) % 2 ^ 32 }
      (ctor_apply e drv) (ih flush1 flush2 _ hk' hpos0 hlt0) ?_
    intro rb drv1 hb hu
    have h0 : inner.run (M.pure ())
        { drv with deferred_top_level_decls := (drv.deferred_top_level_decls + 1) % 2 ^ 32 }
          = (rb, drv1) :=
      (ih (M.pure ()) flush2 _ hk' hpos0 hlt0).trans hb
    have hc := restores_run (M.pure ()) hpure inner hk'
      { drv with deferred_top_level_decls := (drv.deferred_top_level_decls + 1) % 2 ^ 32 }
      rb drv1 (by simp only; omega) h0 hu
    simp only at hc
    have hlevel : (drv1.deferred_top_level_decls + 2 ^ 32 - 1) % 2 ^ 32 ≠ 0 := by
      rw [hc, hmod]
      rw [h32] at hlt ⊢
      omega
    rw [dtor_no_flush flush1 _ _ hlevel, dtor_no_flush flush2 _ _ hlevel]

/-- C16: making a guard adds one to the counter of the driver and destroying it
takes one off, on an `unsigned`; the destructor runs the flush
`build_deferred_decls` exactly when the counter has come to zero and the guard
was made with `emit_deferred`. So after any properly nested sequence of
guards that returns, or is unwound by an exception, the counter is what it
was before, also for `handle_top_level_decl` on a declaration group; and a
sequence of guards nested inside a live guard, the counter not being zero,
never runs the flush: it does the same whatever the flush is. -/
theorem guard_counter (drv : Driver) (hc : drv.deferred_top_level_decls < 2 ^ 32) :
    (∀ e, defer_handle_of_top_level_decl.ctor e drv =
      (.ok ⟨e⟩, { drv with deferred_top_level_decls :=
        (drv.deferred_top_level_decls + 1) % 2 ^ 32 })) ∧
    (∀ (flush : M Unit) (g : defer_handle_of_top_level_decl),
      g.dtor flush drv =
        if (drv.deferred_top_level_decls + 2 ^ 32 - 1) % 2 ^ 32 = 0 ∧ g.emit_deferred = true
        then flush { drv with deferred_top_level_decls :=
          (drv.deferred_top_level_decls + 2 ^ 32 - 1) % 2 ^ 32 }
        else (.ok (), { drv with deferred_top_level_decls :=
          (drv.deferred_top_level_decls + 2 ^ 32 - 1) % 2 ^ 32 })) ∧
    ((drv.deferred_top_level_decls + 1) % 2 ^ 32 + 2 ^ 32 - 1) % 2 ^ 32
      = drv.deferred_top_level_decls ∧
    (∀ (g : Guards) (r : Except Raised Unit) (drv' : Driver), g.KeepsCounter →
      g.run build_deferred_decls drv = (r, drv') → Unwound r →
      drv'.deferred_top_level_decls = drv.deferred_top_level_decls) ∧
    (∀ (decls : List Decl) (r : Except Raised Unit) (drv' : Driver),
      handle_top_level_decl_group decls drv = (r, drv') → Unwound r →
      drv'.deferred_top_level_decls = drv.deferred_top_level_decls) ∧
    (0 < drv.deferred_top_level_decls →
      ∀ g : Guards, g.KeepsCounter → drv.deferred_top_level_decls + g.depth < 2 ^ 32 →
      ∀ flush1 flush2 : M Unit, g.run flush1 drv = g.run flush2 drv) := by
  refine ⟨fun e => ctor_apply e drv, fun flush g => dtor_apply flush g drv,
    counter_ctor_dtor _ hc, ?_, ?_, ?_⟩
  · intro g r drv' hk h hu
    exact restores_run _ restores_build_deferred_decls g hk drv r drv' hc h hu
  · intro decls r drv' h hu
    exact restores_scope _ restores_build_deferred_decls true _
      (restores_of_keeps _ (keeps_forEach _ keeps_handle_top_level_decl decls)) drv r drv' hc h hu
  · intro hpos g hk hlt flush1 flush2
    exact run_flush_free g flush1 flush2 drv hk hpos hlt

/-- Witness of C16: a guard with two guards nested in it, one after the other,
run on the driver in its first state: the counter is zero again. -/
theorem guard_counter_witness :
    ((Guards.guard true (.seq (.guard true .skip) (.guard false .skip))).run
      build_deferred_decls {}).2.deferred_top_level_decls = 0 :=
  (guard_counter {} (by decide)).2.2.2.1
    (.guard true (.seq (.guard true .skip) (.guard false .skip))) (.ok ()) _
    ⟨trivial, trivial⟩ rfl trivial

/-! ## Code generation driver: the target information -/

/-- C23: what `initialize_target_info` does on every target description. On an
aarch64 target whose ABI is `"darwinpcs"`, as on one whose ABI is `"aapcs"`, it
raises the unimplemented error "Only Darwin supported for aarch64"; on an
aarch64 target of any other ABI it returns an `aarch64_target_info` of kind
`darwin_pcs`. On an x86_64 target it raises for the OS `Win32` and otherwise
returns an `x86_64_target_info` with the AVX level of the ABI string
(`"avx512"`, `"avx"`, anything else none). On every other architecture it
raises the unimplemented error. -/
theorem initialize_target_info_cases (type_info : type_info_t) :
    initialize_target_info ⟨⟨.aarch64, .other "Darwin"⟩, "darwinpcs"⟩ type_info
      = .error (.unimplemented "Only Darwin supported for aarch64") ∧
    initialize_target_info ⟨⟨.aarch64, .other "Linux"⟩, ""⟩ type_info
      = .ok (.aarch64_target_info type_info .darwin_pcs) ∧
    (∀ target : TargetInfo, target.triple.arch = .aarch64 →
      initialize_target_info target type_info =
        if target.abi = "aapcs" ∨ target.abi = "darwinpcs" then
          .error (.unimplemented "Only Darwin supported for aarch64")
        else .ok (.aarch64_target_info type_info .darwin_pcs)) ∧
    (∀ target : TargetInfo, target.triple.arch = .x86_64 →
      initialize_target_info target type_info =
        if target.triple.os = .Win32 then .error (.unimplemented "target info for Win32")
        else .ok (.x86_64_target_info type_info (avx_level target))) ∧
    (∀ target : TargetInfo,
      avx_level target =
        if target.abi = "avx512" then .avx512 else if target.abi = "avx" then .avx else .none) ∧
    (∀ (target : TargetInfo) (name : String), target.triple.arch = .other name →
      initialize_target_info target type_info
        = .error (.unimplemented "Target not yet supported.")) := by
  refine ⟨rfl, rfl, ?_, ?_, fun _ => rfl, ?_⟩
  · intro target h
    simp only [initialize_target_info, h, initialize_target_info.aarch64_info,
      Bool.or_eq_true, decide_eq_true_eq]
  · intro target h
    simp only [initialize_target_info, h, initialize_target_info.x86_64_info]
  · intro target name h
    simp only [initialize_target_info, h]

/-! ## Code generation driver: the three ways out of the policy -/

theorem may_be_emitted_eagerly_ne_false (glob : Decl) (drv drv' : Driver) :
    may_be_emitted_eagerly glob drv ≠ (.ok false, drv') := by
  rw [may_be_emitted_eagerly_apply]
  intro h
  repeat' split at h
  all_goals simp at h

/-- The policy of `build_global` on a declaration that must be emitted: the
answer of `may_be_emitted_eagerly` decides, and when it answers, the
definition builder runs. -/
theorem build_global_policy_must (decl : Decl) (drv : Driver)
    (hmust : must_be_emitted decl drv = (.ok true, drv)) :
    build_global.policy decl drv =
      match may_be_emitted_eagerly decl drv with
      | (.ok _, _) => build_global_definition decl drv
      | (.error e, _) => (.error e, drv) := by
  have hstate := may_be_emitted_eagerly_state decl drv
  cases hm : may_be_emitted_eagerly decl drv with
  | mk r d =>
    rw [hm] at hstate
    simp only at hstate
    subst hstate
    cases r with
    | error e =>
      simp only [build_global.policy, bind_eq, bind_apply, hmust, if_true, hm]
    | ok b =>
      cases b with
      | false => exact absurd hm (may_be_emitted_eagerly_ne_false decl d d)
      | true =>
        simp only [build_global.policy, bind_eq, bind_apply, hmust, if_true, hm, Bool.and_self]

/-- The policy of `build_global` on a declaration that need not be emitted:
the three ways of deferring come down to two, by whether the name has a
global value. -/
theorem build_global_policy_need_not (decl : Decl) (drv : Driver)
    (hmust : must_be_emitted decl drv = (.ok false, drv)) :
    build_global.policy decl drv =
      if (drv.lang.CPlusPlus && decl.kind.isVarDecl && decl.hasInit) = true then
        (.error (.unimplemented "build_global CXX GlobalVar"), drv)
      else if findFunc decl.mangled_name drv.module ≠ none then
        (.ok none, { drv with deferred_decls_to_emit := drv.deferred_decls_to_emit ++ [decl] })
      else
        (.ok none, { drv with deferred_decls :=
          drv.deferred_decls.filter (fun p => !(p.1 == decl.mangled_name))
            ++ [(decl.mangled_name, decl)] }) := by
  obtain ⟨_, hb, he, hk⟩ := must_be_emitted_ok decl drv drv false hmust
  have hd : decl.DeclMustBeEmitted = false := hb.symm
  cases hcxx : (drv.lang.CPlusPlus && decl.kind.isVarDecl && decl.hasInit) with
  | true =>
    simp only [build_global.policy, bind_eq, bind_apply, hmust, pure_eq, pure_apply,
      Bool.false_and, Bool.false_eq_true, if_false, getDriver_apply, hcxx, if_true, raise_apply]
  | false =>
    cases hfind : findFunc decl.mangled_name drv.module with
    | some op =>
      simp only [build_global.policy, bind_eq, bind_apply, hmust, pure_eq, pure_apply,
        Bool.false_and, Bool.false_eq_true, if_false, getDriver_apply, hcxx, get_mangled_name,
        get_global_value_apply, hfind, add_deferred_decl_to_emit_apply]
      simp
    | none =>
      simp only [build_global.policy, bind_eq, bind_apply, hmust, pure_eq, pure_apply,
        Bool.false_and, Bool.false_eq_true, if_false, getDriver_apply, hcxx, get_mangled_name,
        get_global_value_apply, hfind, set_deferred_decl_apply]
      simp [he, hk, hd]

/-- A definition for which `build_global` returns has passed the assertions at
its head and has gone through the policy: the result is that of the
policy. -/
theorem build_global_ok_of_definition (decl : Decl) (drv drv' : Driver) (res : Option Nat)
    (hdef : decl.isDefinition = true) (h : build_global decl drv = (.ok res, drv')) :
    build_global.asserted decl drv = true ∧ build_global.policy decl drv = (.ok res, drv') := by
  cases h1 : decl.kind.isValueDecl with
  | false => simp [build_global, h1] at h
  | true =>
  cases h2 : decl.hasWeakRefAttr with
  | true => simp [build_global, h1, h2] at h
  | false =>
  cases h3 : decl.hasAliasAttr with
  | true => simp [build_global, h1, h2, h3] at h
  | false =>
  cases h4 : decl.hasIFuncAttr with
  | true => simp [build_global, h1, h2, h3, h4] at h
  | false =>
  cases h5 : decl.hasCPUDispatchAttr with
  | true => simp [build_global, h1, h2, h3, h4, h5] at h
  | false =>
  cases h6 : drv.lang.CUDA with
  | true => simp [build_global, h1, h2, h3, h4, h5, h6] at h
  | false =>
  cases h7 : drv.lang.OpenMP with
  | true => simp [build_global, h1, h2, h3, h4, h5, h6, h7] at h
  | false =>
  refine ⟨by simp [build_global.asserted, h1, h2, h3, h4, h5, h6, h7], ?_⟩
  cases hfn : decl.kind.isFunctionDecl with
  | true =>
    have hbody : decl.doesThisDeclarationHaveABody = true := by
      simpa [Decl.isDefinition, hfn] using hdef
    simpa [build_global, h1, h2, h3, h4, h5, h6, h7, hfn, hbody] using h
  | false =>
    have hd : decl.kind.isVarDecl = true ∧ decl.isFileVarDecl = true ∧
        (decl.isThisDeclarationADefinition = .Definition
          ∨ decl.isMSStaticDataMemberInlineDefinition = true) := by
      simpa [Decl.isDefinition, hfn, and_assoc] using hdef
    obtain ⟨hv, hfile, hd⟩ := hd
    rcases hd with hd | hd
    · simpa [build_global, h1, h2, h3, h4, h5, h6, h7, hfn, hv, hfile, hd] using h
    · simpa [build_global, h1, h2, h3, h4, h5, h6, h7, hfn, hv, hfile, hd] using h

/-- C24: `may_be_emitted_eagerly` never answers false. Where its assertions
hold (the language is not OpenMP, a function is not templated) it returns true
or raises the unimplemented error, the state untouched. So in the policy of
`build_global` a declaration that must be emitted never gets to the deferring
branches: when the policy returns without error, the declaration went exactly
one of three ways, told apart by whether it must be emitted and whether its
name has a global value. It was emitted eagerly by `build_global_definition`;
or it need not be emitted, its name had a global value, and it was put on the
deferred work list; or it need not be emitted, its name had none, and it was
only remembered under its mangled name. The same holds for `build_global` on
every definition, that is on every declaration that gets to the policy. -/
theorem may_be_emitted_eagerly_never_false (glob : Decl) (drv : Driver) :
    (∀ drv', may_be_emitted_eagerly glob drv ≠ (.ok false, drv')) ∧
    (drv.lang.OpenMP = false → (glob.kind.isFunctionDecl = true → glob.isTemplated = false) →
      may_be_emitted_eagerly glob drv = (.ok true, drv) ∨
      ∃ msg, may_be_emitted_eagerly glob drv = (.error (.unimplemented msg), drv)) ∧
    (∀ (res : Option Nat) (drv' : Driver), build_global.policy glob drv = (.ok res, drv') →
      (glob.DeclMustBeEmitted = true ∧ may_be_emitted_eagerly glob drv = (.ok true, drv) ∧
        build_global_definition glob drv = (.ok res, drv')) ∨
      (glob.DeclMustBeEmitted = false ∧ findFunc glob.mangled_name drv.module ≠ none ∧
        res = none ∧
        drv' = { drv with deferred_decls_to_emit := drv.deferred_decls_to_emit ++ [glob] }) ∨
      (glob.DeclMustBeEmitted = false ∧ findFunc glob.mangled_name drv.module = none ∧
        res = none ∧
        drv' = { drv with deferred_decls :=
          drv.deferred_decls.filter (fun p => !(p.1 == glob.mangled_name))
            ++ [(glob.mangled_name, glob)] })) ∧
    (glob.isDefinition = true →
      ∀ (res : Option Nat) (drv' : Driver), build_global glob drv = (.ok res, drv') →
      (glob.DeclMustBeEmitted = true ∧ may_be_emitted_eagerly glob drv = (.ok true, drv) ∧
        build_global_definition glob drv = (.ok res, drv')) ∨
      (glob.DeclMustBeEmitted = false ∧ findFunc glob.mangled_name drv.module ≠ none ∧
        res = none ∧
        drv' = { drv with deferred_decls_to_emit := drv.deferred_decls_to_emit ++ [glob] }) ∨
      (glob.DeclMustBeEmitted = false ∧ findFunc glob.mangled_name drv.module = none ∧
        res = none ∧
        drv' = { drv with deferred_decls :=
          drv.deferred_decls.filter (fun p => !(p.1 == glob.mangled_name))
            ++ [(glob.mangled_name, glob)] })) := by
  have hpolicy : ∀ (res : Option Nat) (drv' : Driver),
      build_global.policy glob drv = (.ok res, drv') →
      (glob.DeclMustBeEmitted = true ∧ may_be_emitted_eagerly glob drv = (.ok true, drv) ∧
        build_global_definition glob drv = (.ok res, drv')) ∨
      (glob.DeclMustBeEmitted = false ∧ findFunc glob.mangled_name drv.module ≠ none ∧
        res = none ∧
        drv' = { drv with deferred_decls_to_emit := drv.deferred_decls_to_emit ++ [glob] }) ∨
      (glob.DeclMustBeEmitted = false ∧ findFunc glob.mangled_name drv.module = none ∧
        res = none ∧
        drv' = { drv with deferred_decls :=
          drv.deferred_decls.filter (fun p => !(p.1 == glob.mangled_name))
            ++ [(glob.mangled_name, glob)] }) := by
    intro res drv' h
    cases hm : must_be_emitted glob drv with
    | mk rm dm =>
      cases rm with
      | error e =>
        simp only [build_global.policy, bind_eq, bind_apply, hm] at h
        cases h
      | ok b =>
        obtain ⟨rfl, hb, -, -⟩ := must_be_emitted_ok glob drv dm b hm
        cases b with
        | true =>
          left
          rw [build_global_policy_must glob dm hm] at h
          have hstate := may_be_emitted_eagerly_state glob dm
          cases he : may_be_emitted_eagerly glob dm with
          | mk r d =>
            rw [he] at h hstate
            simp only at hstate
            subst hstate
            cases r with
            | error e => simp only at h; cases h
            | ok b =>
              cases b with
              | false => exact absurd he (may_be_emitted_eagerly_ne_false glob d d)
              | true => exact ⟨hb.symm, rfl, h⟩
        | false =>
          right
          rw [build_global_policy_need_not glob dm hm] at h
          split at h
          · cases h
          · split at h
            · left
              simp only [Prod.mk.injEq, Except.ok.injEq] at h
              exact ⟨hb.symm, by assumption, h.1.symm, h.2.symm⟩
            · right
              simp only [Prod.mk.injEq, Except.ok.injEq] at h
              exact ⟨hb.symm, by simpa using ‹¬findFunc glob.mangled_name dm.module ≠ none›,
                h.1.symm, h.2.symm⟩
  refine ⟨fun drv' => may_be_emitted_eagerly_ne_false glob drv drv', ?_, hpolicy, ?_⟩
  · intro hopenmp htempl
    rw [may_be_emitted_eagerly_apply]
    simp only [hopenmp, Bool.false_eq_true, if_false]
    cases hfn : glob.kind.isFunctionDecl with
    | true =>
      simp only [if_true, htempl hfn, Bool.false_eq_true, if_false]
      cases glob.isImplicitInstantiation
      · left; simp
      · right; exact ⟨"implicit template specialization emition", by simp⟩
    | false =>
      simp only [Bool.false_eq_true, if_false]
      cases glob.kind.isVarDecl
      · right; exact ⟨"unsupported value decl", by simp⟩
      · by_cases hk : glob.getInlineVariableDefinitionKind = .WeakUnknown
        · right; exact ⟨"inline variable definitions", by simp [hk]⟩
        · left; simp [hk]
  · intro hdef res drv' h
    exact hpolicy res drv' (build_global_ok_of_definition glob drv drv' res hdef h).2

/-- Witness of C24: the definition of a function `f` that need not be emitted
and whose name has no global value yet. `build_global` returns no operation
and the declaration is remembered under its name: of the three ways, it is the
third. -/
theorem may_be_emitted_eagerly_never_false_witness :
    (({ kind := .Function, mangled_name := "f", doesThisDeclarationHaveABody := true } :
          Decl).DeclMustBeEmitted = true ∧
        may_be_emitted_eagerly
          { kind := .Function, mangled_name := "f", doesThisDeclarationHaveABody := true } {}
          = (.ok true, {}) ∧
        build_global_definition
          { kind := .Function, mangled_name := "f", doesThisDeclarationHaveABody := true } {}
          = (.ok none,
              { deferred_decls :=
                  [("f", { kind := .Function, mangled_name := "f",
                           doesThisDeclarationHaveABody := true })] })) ∨
      (({ kind := .Function, mangled_name := "f", doesThisDeclarationHaveABody := true } :
          Decl).DeclMustBeEmitted = false ∧
        findFunc "f" ({} : Driver).module ≠ none ∧ (none : Option Nat) = none ∧
        ({ deferred_decls :=
            [("f", { kind := .Function, mangled_name := "f",
                     doesThisDeclarationHaveABody := true })] } : Driver)
          = { deferred_decls_to_emit :=
                [{ kind := .Function, mangled_name := "f",
                   doesThisDeclarationHaveABody := true }] }) ∨
      (({ kind := .Function, mangled_name := "f", doesThisDeclarationHaveABody := true } :
          Decl).DeclMustBeEmitted = false ∧
        findFunc "f" ({} : Driver).module = none ∧ (none : Option Nat) = none ∧
        ({ deferred_decls :=
            [("f", { kind := .Function, mangled_name := "f",
                     doesThisDeclarationHaveABody := true })] } : Driver)
          = { deferred_decls :=
                [("f", { kind := .Function, mangled_name := "f",
                         doesThisDeclarationHaveABody := true })] }) :=
  (may_be_emitted_eagerly_never_false
    { kind := .Function, mangled_name := "f", doesThisDeclarationHaveABody := true } {}).2.2.2
    rfl none
    { deferred_decls :=
        [("f", { kind := .Function, mangled_name := "f",
                 doesThisDeclarationHaveABody := true })] } rfl

/-! ## Code generation driver: the drain of the deferred inline definitions -/

/-- A block with a local object that returns: the block returned, and the
destructor ran after it and returned. -/
theorem withLocal_ok_inv {γ α : Type} (ctor : M γ) (dtor : γ → M Unit) (block : M α)
    (drv : Driver) (g : γ) (drv0 : Driver) (a : α) (drv' : Driver)
    (hctor : ctor drv = (.ok g, drv0))
    (h : M.withLocal ctor dtor block drv = (.ok a, drv')) :
    ∃ drv1 u, block drv0 = (.ok a, drv1) ∧ dtor g drv1 = (.ok u, drv') := by
  simp only [M.withLocal] at h
  rw [hctor] at h
  simp only at h
  cases hb : block drv0 with
  | mk rb drv1 =>
    rw [hb] at h
    cases rb with
    | ok a1 =>
      simp only at h
      cases hd : dtor g drv1 with
      | mk rd drv2 =>
        rw [hd] at h
        cases rd with
        | ok u =>
          simp only [Prod.mk.injEq, Except.ok.injEq] at h
          obtain ⟨rfl, rfl⟩ := h
          exact ⟨drv1, u, rfl, hd⟩
        | error err => cases err <;> simp at h
    | error err =>
      cases err with
      | unimplemented msg =>
        simp only at h
        cases hd : dtor g drv1 with
        | mk rd drv2 =>
          rw [hd] at h
          cases rd with
          | ok u => simp at h
          | error err => cases err <;> simp at h
      | assertion msg => simp at h
      | unreachable msg => simp at h
      | terminate => simp at h
      | outOfFuel => simp at h

/-- A block with a local object whose constructor, block and destructor all
return: the block with the object returns what the block returned, in the
state the destructor left. -/
theorem withLocal_ok {γ α : Type} (ctor : M γ) (dtor : γ → M Unit) (block : M α)
    (drv : Driver) (g : γ) (drv0 : Driver) (a : α) (drv1 : Driver) (u : Unit) (drv2 : Driver)
    (hctor : ctor drv = (.ok g, drv0)) (hblock : block drv0 = (.ok a, drv1))
    (hdtor : dtor g drv1 = (.ok u, drv2)) :
    M.withLocal ctor dtor block drv = (.ok a, drv2) := by
  simp only [M.withLocal]
  rw [hctor]
  simp only
  rw [hblock]
  simp only
  rw [hdtor]

/-- How a block with a local object ends. Either the block was stopped by
something that does not unwind the stack, and that is the end; or the block
returned or was left by an exception, the destructor ran, and want of fuel at
the end can only come from the destructor. -/
theorem withLocal_outcome {γ α : Type} (ctor : M γ) (dtor : γ → M Unit) (block : M α)
    (drv : Driver) (g : γ) (drv0 : Driver) (r : Except Raised α) (drv' : Driver)
    (hctor : ctor drv = (.ok g, drv0))
    (h : M.withLocal ctor dtor block drv = (r, drv')) :
    ∃ rb drv1, block drv0 = (rb, drv1) ∧
      ((¬ Unwound rb ∧ r = rb ∧ drv' = drv1) ∨
       (Unwound rb ∧ ∃ rd, dtor g drv1 = (rd, drv') ∧
          (r = .error .outOfFuel → rd = .error .outOfFuel))) := by
  have key : ∀ (rd : Except Raised Unit) (drv2 : Driver) (r0 : Except Raised α),
      r0 ≠ .error .outOfFuel →
      (match (rd, drv2) with
        | (.ok _, drv2) => (r0, drv2)
        | (.error (.unimplemented _), drv2) => (.error .terminate, drv2)
        | (.error err, drv2) => (.error err, drv2)) = (r, drv') →
      drv2 = drv' ∧ (r = .error .outOfFuel → rd = .error .outOfFuel) := by
    intro rd drv2 r0 hr0 h
    cases rd with
    | ok u =>
      simp only [Prod.mk.injEq] at h
      exact ⟨h.2, fun hr => absurd (h.1.trans hr) hr0⟩
    | error err =>
      cases err <;> simp only [Prod.mk.injEq] at h <;> obtain ⟨rfl, rfl⟩ := h <;> simp
  simp only [M.withLocal] at h
  rw [hctor] at h
  simp only at h
  cases hb : block drv0 with
  | mk rb drv1 =>
    rw [hb] at h
    refine ⟨rb, drv1, rfl, ?_⟩
    cases rb with
    | ok a =>
      simp only at h
      right
      refine ⟨trivial, ?_⟩
      cases hd : dtor g drv1 with
      | mk rd drv2 =>
        rw [hd] at h
        obtain ⟨rfl, hk⟩ := key rd drv2 _ (by simp) h
        exact ⟨rd, rfl, hk⟩
    | error err =>
      cases err with
      | unimplemented msg =>
        simp only at h
        right
        refine ⟨trivial, ?_⟩
        cases hd : dtor g drv1 with
        | mk rd drv2 =>
          rw [hd] at h
          obtain ⟨rfl, hk⟩ := key rd drv2 _ (by simp) h
          exact ⟨rd, rfl, hk⟩
      | assertion msg =>
        simp only [Prod.mk.injEq] at h
        exact Or.inl ⟨by simp [Unwound], h.1.symm, h.2.symm⟩
      | unreachable msg =>
        simp only [Prod.mk.injEq] at h
        exact Or.inl ⟨by simp [Unwound], h.1.symm, h.2.symm⟩
      | terminate =>
        simp only [Prod.mk.injEq] at h
        exact Or.inl ⟨by simp [Unwound], h.1.symm, h.2.symm⟩
      | outOfFuel =>
        simp only [Prod.mk.injEq] at h
        exact Or.inl ⟨by simp [Unwound], h.1.symm, h.2.symm⟩

theorem build_deferred_decls_loop_empty (handle : Decl → M Unit) (fuel : Nat) (drv : Driver)
    (h : drv.deferred_inline_member_func_defs = []) :
    build_deferred_decls.loop handle (fuel + 1) drv = (.ok (), drv) := by
  simp only [build_deferred_decls.loop, h, List.isEmpty_nil, if_true]

theorem build_deferred_decls_loop_round (handle : Decl → M Unit) (fuel : Nat) (drv : Driver)
    (h : drv.deferred_inline_member_func_defs ≠ []) :
    build_deferred_decls.loop handle (fuel + 1) drv =
      defer_handle_of_top_level_decl.scope (build_deferred_decls.loop handle fuel) true
        (M.bind (forEach handle drv.deferred_inline_member_func_defs)
          (fun _ => build_deferred_decls.loop handle fuel))
        { drv with deferred_inline_member_func_defs := [] } := by
  have hne : drv.deferred_inline_member_func_defs.isEmpty = false := by
    cases hl : drv.deferred_inline_member_func_defs with
    | nil => exact absurd hl h
    | cons x xs => rfl
  simp only [build_deferred_decls.loop, hne, Bool.false_eq_true, if_false]

/-- What is left of a `bind` that returned. -/
theorem bind_ok_inv {α β : Type} (m : M α) (f : α → M β) (drv drv' : Driver) (b : β)
    (h : M.bind m f drv = (.ok b, drv')) :
    ∃ a drv1, m drv = (.ok a, drv1) ∧ f a drv1 = (.ok b, drv') := by
  rw [bind_apply] at h
  cases hm : m drv with
  | mk r drv1 =>
    rw [hm] at h
    cases r with
    | ok a => exact ⟨a, drv1, rfl, h⟩
    | error e => simp at h

/-- Whenever the drain returns, the list of deferred inline member function
definitions is empty. -/
theorem build_deferred_decls_loop_returns_empty (handle : Decl → M Unit) :
    ∀ (fuel : Nat) (drv drv' : Driver) (u : Unit),
      build_deferred_decls.loop handle fuel drv = (.ok u, drv') →
      drv'.deferred_inline_member_func_defs = [] := by
  intro fuel
  induction fuel with
  | zero =>
    intro drv drv' u h
    simp [build_deferred_decls.loop] at h
  | succ fuel ih =>
    intro drv drv' u h
    by_cases hl : drv.deferred_inline_member_func_defs = []
    · rw [build_deferred_decls_loop_empty handle fuel drv hl] at h
      simp only [Prod.mk.injEq] at h
      rw [← h.2]
      exact hl
    · rw [build_deferred_decls_loop_round handle fuel drv hl] at h
      unfold defer_handle_of_top_level_decl.scope at h
      obtain ⟨drv1, u1, hblock, hdtor⟩ := withLocal_ok_inv _ _ _ _ ⟨true⟩ _ u drv'
        (ctor_apply true { drv with deferred_inline_member_func_defs := [] }) h
      obtain ⟨a, drv2, -, hrec⟩ := bind_ok_inv _ _ _ _ _ hblock
      have h1 := ih drv2 drv1 u hrec
      rw [dtor_apply] at hdtor
      split at hdtor
      · exact ih _ drv' u1 hdtor
      · simp only [Prod.mk.injEq] at hdtor
        rw [← hdtor.2]
        exact h1

/-- The `for` loop of a round, under a budget for the entries that handling can
still add: it does not stop for want of fuel, and the budget together with the
length of the list does not grow. -/
theorem forEach_budget (handle : Decl → M Unit) (budget : Driver → Nat)
    (hadd : ∀ d drv, budget (handle d drv).2
        + (handle d drv).2.deferred_inline_member_func_defs.length
      ≤ budget drv + drv.deferred_inline_member_func_defs.length)
    (hfuel : ∀ d drv, (handle d drv).1 ≠ .error .outOfFuel) :
    ∀ (l : List Decl) (drv : Driver),
      (forEach handle l drv).1 ≠ .error .outOfFuel ∧
      budget (forEach handle l drv).2
          + (forEach handle l drv).2.deferred_inline_member_func_defs.length
        ≤ budget drv + drv.deferred_inline_member_func_defs.length := by
  intro l
  induction l with
  | nil => intro drv; exact ⟨by simp [forEach], le_refl _⟩
  | cons x xs ih =>
    intro drv
    have h1 := hadd x drv
    have h2 := hfuel x drv
    simp only [forEach, bind_apply]
    cases hx : handle x drv with
    | mk r d =>
      rw [hx] at h1 h2
      simp only at h1 h2
      cases r with
      | ok u => exact ⟨(ih d).1, le_trans (ih d).2 h1⟩
      | error e => exact ⟨h2, h1⟩

/-- The drain under a budget: with fuel for one round more than the budget it
does not stop for want of fuel, and the budget together with the length of
the list does not grow. -/
theorem build_deferred_decls_loop_budget (handle : Decl → M Unit) (budget : Driver → Nat)
    (hblind : ∀ drv c l,
      budget { drv with
        deferred_top_level_decls := c
        deferred_inline_member_func_defs := l } = budget drv)
    (hadd : ∀ d drv, budget (handle d drv).2
        + (handle d drv).2.deferred_inline_member_func_defs.length
      ≤ budget drv + drv.deferred_inline_member_func_defs.length)
    (hfuel : ∀ d drv, (handle d drv).1 ≠ .error .outOfFuel) :
    ∀ (fuel : Nat) (drv : Driver), 1 ≤ fuel →
      (drv.deferred_inline_member_func_defs ≠ [] → budget drv + 2 ≤ fuel) →
      (build_deferred_decls.loop handle fuel drv).1 ≠ .error .outOfFuel ∧
      budget (build_deferred_decls.loop handle fuel drv).2
          + (build_deferred_decls.loop handle fuel drv).2.deferred_inline_member_func_defs.length
        ≤ budget drv + drv.deferred_inline_member_func_defs.length := by
  intro fuel
  induction fuel with
  | zero => intro drv h; omega
  | succ fuel ih =>
    intro drv _ hneed
    by_cases hl : drv.deferred_inline_member_func_defs = []
    · rw [build_deferred_decls_loop_empty handle fuel drv hl]
      exact ⟨by simp, le_refl _⟩
    · have hfuel1 := hneed hl
      have hLpos : 0 < drv.deferred_inline_member_func_defs.length := List.length_pos.2 hl
      -- the recursion and the flush both start from a state within the budget
      have hsub : ∀ (d : Driver) (r : Except Raised Unit) (d' : Driver),
          budget d + d.deferred_inline_member_func_defs.length ≤ budget drv →
          build_deferred_decls.loop handle fuel d = (r, d') →
          r ≠ .error .outOfFuel ∧
            budget d' + d'.deferred_inline_member_func_defs.length ≤ budget drv := by
        intro d r d' hd hrun
        have := ih d (by omega) (by
          intro hne
          have : 0 < d.deferred_inline_member_func_defs.length := List.length_pos.2 hne
          omega)
        rw [hrun] at this
        exact ⟨this.1, le_trans this.2 hd⟩
      rw [build_deferred_decls_loop_round handle fuel drv hl]
      unfold defer_handle_of_top_level_decl.scope
      obtain ⟨drvA, hctor, hbA, hlA⟩ : ∃ drvA,
          defer_handle_of_top_level_decl.ctor true
            { drv with deferred_inline_member_func_defs := [] } = (.ok ⟨true⟩, drvA) ∧
          budget drvA = budget drv ∧ drvA.deferred_inline_member_func_defs = [] :=
        ⟨_, ctor_apply true _, hblind drv _ [], rfl⟩
      cases hres : M.withLocal (defer_handle_of_top_level_decl.ctor true)
          (fun g => g.dtor (build_deferred_decls.loop handle fuel))
          (M.bind (forEach handle drv.deferred_inline_member_func_defs)
            (fun _ => build_deferred_decls.loop handle fuel))
          { drv with deferred_inline_member_func_defs := [] } with
      | mk r drv' =>
        obtain ⟨rb, drv1, hblock, hcase⟩ :=
          withLocal_outcome _ _ _ _ ⟨true⟩ drvA r drv' hctor hres
        -- the block: the loop over the snapshot, then the recursion
        have hb : rb ≠ .error .outOfFuel ∧
            budget drv1 + drv1.deferred_inline_member_func_defs.length ≤ budget drv := by
          have hfe := forEach_budget handle budget hadd hfuel
            drv.deferred_inline_member_func_defs drvA
          rw [hbA, hlA] at hfe
          simp only [List.length_nil, Nat.add_zero] at hfe
          rw [bind_apply] at hblock
          cases hf : forEach handle drv.deferred_inline_member_func_defs drvA with
          | mk rf d1 =>
            rw [hf] at hblock hfe
            simp only at hfe
            cases rf with
            | ok u => exact hsub d1 rb drv1 hfe.2 hblock
            | error e =>
              simp only [Prod.mk.injEq] at hblock
              obtain ⟨rfl, rfl⟩ := hblock
              exact ⟨by simpa using hfe.1, hfe.2⟩
        simp only
        rcases hcase with ⟨-, rfl, rfl⟩ | ⟨-, rd, hd, hr⟩
        · exact ⟨hb.1, by omega⟩
        · have hX := hblind drv1 ((drv1.deferred_top_level_decls + 2 ^ 32 - 1) % 2 ^ 32)
            drv1.deferred_inline_member_func_defs
          rw [dtor_apply] at hd
          split at hd
          · have := hsub _ rd drv' (by rw [hX]; exact hb.2) hd
            exact ⟨fun h => this.1 (hr h), by omega⟩
          · simp only [Prod.mk.injEq] at hd
            obtain ⟨rfl, rfl⟩ := hd
            refine ⟨fun h => by simpa using hr h, ?_⟩
            rw [hX]
            exact le_trans hb.2 (Nat.le_add_right _ _)

/-- The destructor of the guard of a round, once the list is empty: it takes
one off the counter and nothing else, whether or not it runs the flush. -/
theorem dtor_drained (handle : Decl → M Unit) (fuel : Nat) (drv : Driver)
    (h : drv.deferred_inline_member_func_defs = []) :
    (⟨true⟩ : defer_handle_of_top_level_decl).dtor
        (build_deferred_decls.loop handle (fuel + 1)) drv =
      (.ok (), { drv with deferred_top_level_decls :=
        (drv.deferred_top_level_decls + 2 ^ 32 - 1) % 2 ^ 32 }) := by
  rw [dtor_apply]
  split
  · exact build_deferred_decls_loop_empty handle fuel _ h
  · rfl

/-- One round of the drain that returns. The list is taken and cleared, the
guard is made, every entry of the taken list is handled, in order, by the
`for` loop; the recursion then drains what the handling has put on the list;
and the guard is destroyed, which takes one off the counter again. -/
theorem build_deferred_decls_loop_round_ok (handle : Decl → M Unit) (fuel : Nat)
    (drv drv1 drv2 : Driver) (u1 u2 : Unit)
    (hl : drv.deferred_inline_member_func_defs ≠ [])
    (hfor : forEach handle drv.deferred_inline_member_func_defs
      { drv with
        deferred_top_level_decls := (drv.deferred_top_level_decls + 1) % 2 ^ 32
        deferred_inline_member_func_defs := [] } = (.ok u1, drv1))
    (hrec : build_deferred_decls.loop handle (fuel + 1) drv1 = (.ok u2, drv2)) :
    build_deferred_decls.loop handle (fuel + 2) drv =
      (.ok (), { drv2 with deferred_top_level_decls :=
        (drv2.deferred_top_level_decls + 2 ^ 32 - 1) % 2 ^ 32 }) := by
  rw [build_deferred_decls_loop_round handle (fuel + 1) drv hl]
  unfold defer_handle_of_top_level_decl.scope
  have hctor : defer_handle_of_top_level_decl.ctor true
      { drv with deferred_inline_member_func_defs := [] } =
      (.ok ⟨true⟩, { drv with
        deferred_top_level_decls := (drv.deferred_top_level_decls + 1) % 2 ^ 32
        deferred_inline_member_func_defs := [] }) := rfl
  have hblock : M.bind (forEach handle drv.deferred_inline_member_func_defs)
      (fun _ => build_deferred_decls.loop handle (fuel + 1))
      { drv with
        deferred_top_level_decls := (drv.deferred_top_level_decls + 1) % 2 ^ 32
        deferred_inline_member_func_defs := [] } = (.ok u2, drv2) := by
    rw [bind_apply, hfor]
    exact hrec
  have hd := dtor_drained handle fuel drv2
    (build_deferred_decls_loop_returns_empty handle _ drv1 drv2 u2 hrec)
  exact withLocal_ok (defer_handle_of_top_level_decl.ctor true)
    (fun g => g.dtor (build_deferred_decls.loop handle (fuel + 1)))
    (M.bind (forEach handle drv.deferred_inline_member_func_defs)
      (fun _ => build_deferred_decls.loop handle (fuel + 1)))
    { drv with deferred_inline_member_func_defs := [] } ⟨true⟩
    { drv with
      deferred_top_level_decls := (drv.deferred_top_level_decls + 1) % 2 ^ 32
      deferred_inline_member_func_defs := [] } u2 drv2 ()
    { drv2 with deferred_top_level_decls :=
      (drv2.deferred_top_level_decls + 2 ^ 32 - 1) % 2 ^ 32 } hctor hblock hd

theorem inline_pure {α : Type} (a : α) : KeepsDeferredInline (M.pure a) :=
  fun _ => ⟨rfl, by simp⟩

theorem inline_raise {α : Type} (e : Raised) (he : e ≠ .outOfFuel) :
    KeepsDeferredInline (raise e : M α) :=
  fun _ => ⟨rfl, by simpa using he⟩

theorem inline_getDriver : KeepsDeferredInline getDriver := fun _ => ⟨rfl, by simp⟩

theorem inline_assertThat (c : Bool) (msg : String) :
    KeepsDeferredInline (assertThat c msg) := by
  intro drv; cases c <;> exact ⟨rfl, by simp⟩

theorem inline_bind {α β : Type} (m : M α) (f : α → M β) (hm : KeepsDeferredInline m)
    (hf : ∀ a, KeepsDeferredInline (f a)) : KeepsDeferredInline (M.bind m f) := by
  intro drv
  have h1 := hm drv
  simp only [bind_apply]
  cases hr : m drv with
  | mk r drv' =>
    rw [hr] at h1
    cases r with
    | ok a =>
      simp only
      exact ⟨(hf a drv').1.trans h1.1, (hf a drv').2⟩
    | error e => exact ⟨h1.1, by simpa using h1.2⟩

theorem inline_forEach {α : Type} (body : α → M Unit)
    (hb : ∀ a, KeepsDeferredInline (body a)) :
    ∀ l : List α, KeepsDeferredInline (forEach body l) := by
  intro l
  induction l with
  | nil => exact inline_pure ()
  | cons x xs ih => exact inline_bind _ _ (hb x) (fun _ => ih)

theorem inline_get_global_value (name : String) :
    KeepsDeferredInline (get_global_value name) := fun _ => ⟨rfl, by simp⟩

theorem inline_add_deferred_decl_to_emit (decl : Decl) :
    KeepsDeferredInline (add_deferred_decl_to_emit decl) := fun _ => ⟨rfl, by simp⟩

theorem inline_set_deferred_decl (name : String) (decl : Decl) :
    KeepsDeferredInline (set_deferred_decl name decl) := fun _ => ⟨rfl, by simp⟩

theorem inline_append_to_module (decl : Decl) : KeepsDeferredInline (append_to_module decl) :=
  fun _ => ⟨rfl, by simp⟩

theorem inline_build_function_prototype (decl : Decl) :
    KeepsDeferredInline (build_function_prototype decl) := by
  intro drv
  simp only [build_function_prototype]
  split <;> exact ⟨rfl, by simp⟩

theorem inline_isDeclaration (op : Nat) : KeepsDeferredInline (isDeclaration op) := by
  intro drv
  simp only [isDeclaration]
  split <;> exact ⟨rfl, by simp⟩

theorem inline_build_function_body (op : Nat) (decl : Decl) :
    KeepsDeferredInline (build_function_body op decl) := by
  intro drv
  simp only [build_function_body]
  split <;> exact ⟨rfl, by simp⟩

theorem inline_must_be_emitted (glob : Decl) : KeepsDeferredInline (must_be_emitted glob) := by
  intro drv
  rw [must_be_emitted_apply]
  repeat' split
  all_goals exact ⟨rfl, by simp⟩

theorem inline_may_be_emitted_eagerly (glob : Decl) :
    KeepsDeferredInline (may_be_emitted_eagerly glob) := by
  intro drv
  rw [may_be_emitted_eagerly_apply]
  repeat' split
  all_goals exact ⟨rfl, by simp⟩

theorem inline_build_global_function_definition (decl : Decl) :
    KeepsDeferredInline (build_global_function_definition decl) := by
  unfold build_global_function_definition
  simp only [bind_eq, pure_eq]
  repeat' first
    | exact inline_pure _
    | exact inline_raise _ (by simp)
    | exact inline_assertThat _ _
    | exact inline_getDriver
    | exact inline_build_function_prototype _
    | exact inline_isDeclaration _
    | exact inline_build_function_body _ _
    | apply inline_bind
    | split
    | intro _

theorem inline_build_global_definition (glob : Decl) :
    KeepsDeferredInline (build_global_definition glob) := by
  unfold build_global_definition
  simp only [bind_eq, pure_eq]
  repeat' first
    | exact inline_pure _
    | exact inline_raise _ (by simp)
    | exact inline_assertThat _ _
    | exact inline_build_global_function_definition _
    | exact inline_raise _ (by simp [build_global_var_definition])
    | apply inline_bind
    | split
    | intro _

theorem inline_build_global_policy (decl : Decl) :
    KeepsDeferredInline (build_global.policy decl) := by
  unfold build_global.policy
  simp only [bind_eq, pure_eq]
  repeat' first
    | exact inline_pure _
    | exact inline_raise _ (by simp)
    | exact inline_assertThat _ _
    | exact inline_getDriver
    | exact inline_must_be_emitted _
    | exact inline_may_be_emitted_eagerly _
    | exact inline_build_global_definition _
    | exact inline_get_global_value _
    | exact inline_add_deferred_decl_to_emit _
    | exact inline_set_deferred_decl _ _
    | apply inline_bind
    | split
    | intro _

theorem inline_build_global (decl : Decl) : KeepsDeferredInline (build_global decl) := by
  unfold build_global
  simp only [bind_eq, pure_eq]
  repeat' first
    | exact inline_pure _
    | exact inline_raise _ (by simp)
    | exact inline_assertThat _ _
    | exact inline_getDriver
    | exact inline_build_global_policy _
    | apply inline_bind
    | split
    | intro _

theorem inline_handle_top_level_decl (decl : Decl) :
    KeepsDeferredInline (handle_top_level_decl decl) := by
  unfold handle_top_level_decl
  simp only [bind_eq, pure_eq]
  repeat' first
    | exact inline_pure _
    | exact inline_raise _ (by simp)
    | exact inline_getDriver
    | exact inline_build_global _
    | exact inline_append_to_module _
    | apply inline_bind
    | split
    | intro _

/-- C22: the drain `build_deferred_decls` of the deferred inline member
function definitions, `handle` standing for `handle_top_level_decl` together
with whatever it calls back. On an empty list the drain returns and changes
nothing. On a list with entries, a round that returns has taken the list and
cleared it, has handled every entry of the taken list once, in order, by the
`for` loop, on a state whose list holds only what the handling adds; the
recursion has then drained what was added, and the guard has given the
counter back. Whenever the drain returns, the list is empty. When handling
adds entries only within a budget, fuel for two rounds more than the budget
is enough: the drain does not stop for want of fuel. `handle_top_level_decl`
itself adds no entry, so the drain of the driver, which has fuel for two
rounds, does not stop for want of fuel either: it handles the entries of the
list once, in order, and leaves the list empty. -/
theorem build_deferred_decls_drain (handle : Decl → M Unit) (budget : Driver → Nat)
    (hblind : ∀ drv c l,
      budget { drv with
        deferred_top_level_decls := c
        deferred_inline_member_func_defs := l } = budget drv)
    (hadd : ∀ d drv, budget (handle d drv).2
        + (handle d drv).2.deferred_inline_member_func_defs.length
      ≤ budget drv + drv.deferred_inline_member_func_defs.length)
    (hfuel : ∀ d drv, (handle d drv).1 ≠ .error .outOfFuel)
    (drv : Driver) :
    (drv.deferred_inline_member_func_defs = [] →
      (∀ fuel, build_deferred_decls.loop handle (fuel + 1) drv = (.ok (), drv)) ∧
      build_deferred_decls drv = (.ok (), drv)) ∧
    (drv.deferred_inline_member_func_defs ≠ [] →
      ∀ (fuel : Nat) (drv1 drv2 : Driver),
        forEach handle drv.deferred_inline_member_func_defs
          { drv with
            deferred_top_level_decls := (drv.deferred_top_level_decls + 1) % 2 ^ 32
            deferred_inline_member_func_defs := [] } = (.ok (), drv1) →
        build_deferred_decls.loop handle (fuel + 1) drv1 = (.ok (), drv2) →
        build_deferred_decls.loop handle (fuel + 2) drv =
          (.ok (), { drv2 with deferred_top_level_decls :=
            (drv2.deferred_top_level_decls + 2 ^ 32 - 1) % 2 ^ 32 })) ∧
    (∀ (fuel : Nat) (drv' : Driver),
      build_deferred_decls.loop handle fuel drv = (.ok (), drv') →
      drv'.deferred_inline_member_func_defs = []) ∧
    (∀ fuel, budget drv + 2 ≤ fuel →
      (build_deferred_decls.loop handle fuel drv).1 ≠ .error .outOfFuel) ∧
    ((build_deferred_decls drv).1 ≠ .error .outOfFuel ∧
      (∀ drv', build_deferred_decls drv = (.ok (), drv') →
        drv'.deferred_inline_member_func_defs = []) ∧
      (drv.deferred_inline_member_func_defs ≠ [] → ∀ drv1,
        forEach handle_top_level_decl drv.deferred_inline_member_func_defs
          { drv with
            deferred_top_level_decls := (drv.deferred_top_level_decls + 1) % 2 ^ 32
            deferred_inline_member_func_defs := [] } = (.ok (), drv1) →
        build_deferred_decls drv =
          (.ok (), { drv1 with deferred_top_level_decls :=
            (drv1.deferred_top_level_decls + 2 ^ 32 - 1) % 2 ^ 32 }))) := by
  refine ⟨?_, ?_, ?_, ?_, ?_, ?_, ?_⟩
  · intro h
    exact ⟨fun fuel => build_deferred_decls_loop_empty handle fuel drv h,
      build_deferred_decls_loop_empty handle_top_level_decl 1 drv h⟩
  · intro h fuel drv1 drv2 hfor hrec
    exact build_deferred_decls_loop_round_ok handle fuel drv drv1 drv2 () () h hfor hrec
  · intro fuel drv' h
    exact build_deferred_decls_loop_returns_empty handle fuel drv drv' () h
  · intro fuel h
    exact (build_deferred_decls_loop_budget handle budget hblind hadd hfuel fuel drv
      (by omega) (fun _ => h)).1
  · exact (build_deferred_decls_loop_budget handle_top_level_decl (fun _ => 0)
      (fun _ _ _ => rfl)
      (fun d drv => by simp [(inline_handle_top_level_decl d drv).1])
      (fun d drv => (inline_handle_top_level_decl d drv).2) 2 drv (by omega)
      (fun _ => le_refl _)).1
  · intro drv' h
    exact build_deferred_decls_loop_returns_empty handle_top_level_decl 2 drv drv' () h
  · intro h drv1 hfor
    have hl := (inline_forEach handle_top_level_decl inline_handle_top_level_decl
      drv.deferred_inline_member_func_defs
      { drv with
        deferred_top_level_decls := (drv.deferred_top_level_decls + 1) % 2 ^ 32
        deferred_inline_member_func_defs := [] }).1
    rw [hfor] at hl
    exact build_deferred_decls_loop_round_ok handle_top_level_decl 0 drv drv1 drv1 () () h hfor
      (build_deferred_decls_loop_empty handle_top_level_decl 0 drv1 hl)

/-- Witness of C22: two deferred declarations, a typedef `t` and a record `r`,
handled by `handle_top_level_decl`, which adds nothing to the list: the budget
is zero. The drain of the driver puts `t`, then `r`, into the module and
leaves the list empty. -/
theorem build_deferred_decls_drain_witness :
    build_deferred_decls
      { deferred_inline_member_func_defs :=
          [{ kind := DeclKind.Typedef, mangled_name := "t" },
           { kind := DeclKind.Record, mangled_name := "r" }] }
      = (.ok (), { module := [TopLevelOp.decl DeclKind.Typedef "t",
                              TopLevelOp.decl DeclKind.Record "r"] }) :=
  (build_deferred_decls_drain handle_top_level_decl (fun _ => 0) (fun _ _ _ => rfl)
    (fun d drv => by simp [(inline_handle_top_level_decl d drv).1])
    (fun d drv => (inline_handle_top_level_decl d drv).2)
    { deferred_inline_member_func_defs :=
        [{ kind := DeclKind.Typedef, mangled_name := "t" },
         { kind := DeclKind.Record, mangled_name := "r" }] }).2.2.2.2.2.2
    (by simp)
    { deferred_top_level_decls := 1,
      module := [TopLevelOp.decl DeclKind.Typedef "t", TopLevelOp.decl DeclKind.Record "r"] }
    rfl

end cg

/-! ## Scope splicing: the target of the merge -/

/-- C25: the block handed to `mergeBlockBefore`. A body built by `build_region`
without a callback has zero blocks. When the last block of a region ends in a
scope with such a body, the inline step moves no block, the former last block
is still the last one, `prev.getNextNode()` is null and that null block is
handed to `mergeBlockBefore`: the round, and with it `splice`, ends in the
use of a null block. When the body has at least one block, the block after
the former last block exists: it is the first block of the body. -/
theorem splice_merge_target (front : Region) (ops : Block) :
    (∀ (bld : Builder) (st : OperationState),
      (build_region bld st none).1.store[(build_region bld st none).2.2]? = some []) ∧
    has_trailing_scope (front ++ [ops ++ [Operation.scope []]]) = true ∧
    inlineRegionBefore (front ++ [ops ++ [Operation.scope []]]) front.length ops.length
      = front ++ [ops ++ [Operation.scope []]] ∧
    getNextNode
      (inlineRegionBefore (front ++ [ops ++ [Operation.scope []]]) front.length ops.length)
      ((front ++ [ops ++ [Operation.scope []]]).length - 1) = none ∧
    (∀ erased, splice.body (front ++ [ops ++ [Operation.scope []]]) erased
      = .error .nullDereference) ∧
    splice (front ++ [ops ++ [Operation.scope []]]) = .error .nullDereference ∧
    (∀ (b1 : Block) (rest : Region),
      getNextNode
        (inlineRegionBefore (front ++ [ops ++ [Operation.scope (b1 :: rest)]])
          front.length ops.length)
        ((front ++ [ops ++ [Operation.scope (b1 :: rest)]]).length - 1)
        = some (front.length + 1) ∧
      (inlineRegionBefore (front ++ [ops ++ [Operation.scope (b1 :: rest)]])
          front.length ops.length)[front.length + 1]? = some b1) := by
  have hbody := fun erased => splice_body_shape front ops [] erased
  simp only at hbody
  refine ⟨?_, has_trailing_scope_shape front ops [], ?_, ?_, hbody, ?_, ?_⟩
  · intro bld st
    simp [build_region, OperationState.addRegion]
  · rw [inlineRegionBefore_shape]
  · rw [inlineRegionBefore_shape]; simp [getNextNode]
  · rw [splice_unfold, has_trailing_scope_shape, hbody]
    rfl
  · intro b1 rest
    rw [inlineRegionBefore_shape]
    refine ⟨by simp [getNextNode], ?_⟩
    have := getElem?_append_length (front ++ [ops ++ [Operation.scope []]]) b1 rest
    simpa using this

/-! ## Scope splicing: terminators -/

/-- A scope that ends a block before the last one is no trailing scope of the
region: `splice` leaves it where it is. -/
theorem splice_keeps_scope_of_inner_block :
    has_trailing_scope
      [[Operation.op "a" [], .scope [[.op "ret" []]]], [.op "ret" []]] = false ∧
    splice [[Operation.op "a" [], .scope [[.op "ret" []]]], [.op "ret" []]]
      = .ok ([[Operation.op "a" [], .scope [[.op "ret" []]]], [.op "ret" []]], []) :=
  ⟨rfl, rfl⟩

/-- The erasures of `splice` are pending when it returns. The block `a` ends in
a scope with the body blocks `b, br` and `c, ret`, where `br` and `ret` are
the terminators. The region is of the kind of the claim and `splice`
returns; until the recorded erasure is applied the first block is `a, b, br`
followed by the scope, emptied. -/
theorem splice_leaves_pending_scope_last :
    regionTerminatedOrTrailing
      (fun o => match o with
        | .op name _ => name == "br" || name == "ret"
        | .scope _ => false)
      [[.op "a" [], .scope [[.op "b" [], .op "br" []], [.op "c" [], .op "ret" []]]]] = true ∧
    splice [[.op "a" [], .scope [[.op "b" [], .op "br" []], [.op "c" [], .op "ret" []]]]]
      = .ok ([[.op "a" [], .op "b" [], .op "br" [], .scope []], [.op "c" [], .op "ret" []]],
          [(0, 3)]) ∧
    endsIn
      (fun o => match o with
        | .op name _ => name == "br" || name == "ret"
        | .scope _ => false)
      [.op "a" [], .op "b" [], .op "br" [], .scope []] = false :=
  ⟨rfl, rfl, rfl⟩

end Vast
